import Mathlib

/-!
# Pass 5 of ufs-fsck: allocation maps and summaries

The file holds two developments: `pass5` of ufs-fsck (namespace `Pass5`) and
the terse output loop of vmstat (namespace `Vmstat`); the definitions of both
come first, the theorems after them.

A shallow embedding of `pass5` (src/ufs-fsck/pass5.c).  The C function is
translated statement by statement into pure functions on explicit state:
the in-core superblock, the global block map, the disk (cylinder groups and
the summary area), and the logs of warnings and of `writeblock` calls.

Counters are C `long`s; they are modelled by `Int` (no count here exceeds
the geometry, so wrap-around is out of reach).  Geometry fields are `Nat`.
-/

namespace Pass5

/-! ## Data model -/

/-- Modelled from the spec: the per-inode state of fsck.h (the header is
absent).  The constants are the ones `pass5` switches on: `REG`, `DIR`,
`DIR | DIR_REF`; every other state is an unallocated inode. -/
inductive InodeState
  | UNALLOC
  | REG
  | DIR
  | DIR_DIR_REF
deriving DecidableEq, Repr

/-- The `struct csum` summary: directories, free blocks, free inodes, free frags. -/
structure Csum where
  cs_ndir : Int
  cs_nbfree : Int
  cs_nifree : Int
  cs_nffree : Int
deriving DecidableEq, Repr

/-- The two values of `fs_postblformat` that `pass5` switches on. -/
inductive PostblFormat
  | FS_42POSTBLFMT
  | FS_DYNAMICPOSTBLFMT
deriving DecidableEq, Repr

/-- The geometry fields of the superblock that `pass5` reads (`fs_nrpos` is
also overridden and restored).  The fields it repairs, `fs_cstotal`,
`fs_ronly` and `fs_fmod`, are kept next to it in the state `St`. -/
structure Fs where
  fs_postblformat : PostblFormat
  fs_ncg : Nat
  fs_ipg : Nat
  fs_fpg : Nat
  fs_frag : Nat
  fs_size : Nat
  fs_ncyl : Nat
  fs_cpg : Nat
  fs_nrpos : Nat
  fs_spc : Nat
  fs_nspf : Nat
  fs_contigsumsize : Nat

/-- A cylinder group.  The first block of fields is the fixed part of
`struct cg` (what `basesize` covers), then the summary tables (`sumsize`),
then the two maps (`mapsize`).  `ocg_magic` is the magic number of the old
format, which lies between the two maps of `struct ocg`. -/
structure Cg where
  cg_magic : Nat
  cg_time : Int
  cg_cgx : Int
  cg_ncyl : Int
  cg_niblk : Int
  cg_ndblk : Int
  cg_cs : Csum
  cg_rotor : Int
  cg_frotor : Int
  cg_irotor : Int
  cg_frsum : Nat → Int
  cg_btotoff : Int
  cg_boff : Int
  cg_iusedoff : Int
  cg_freeoff : Int
  cg_nextfreeoff : Int
  cg_blktot : Nat → Int
  cg_blks : Nat → Nat → Int
  cg_inosused : Nat → Bool
  ocg_magic : Nat
  cg_blksfree : Nat → Bool

/-- The constant `CG_MAGIC` of fs.h. -/
def CG_MAGIC : Nat := 0x090255

/-- The constant `ROOTINO` of fs.h: inodes 0 and 1 are reserved. -/
def ROOTINO : Nat := 2

/-- The constant `NBBY`: bits per byte. -/
def NBBY : Nat := 8

/-- The constant `MAXFRAG` of fs.h: the length of `cg_frsum`. -/
def MAXFRAG : Nat := 8

/-- The macro `howmany (x, y)`: the number of `y`-sized pieces covering `x`. -/
def howmany (x y : Nat) : Nat := (x + (y - 1)) / y

/-- The macro `setbit (a, i)` on a bit map. -/
def setbit (a : Nat → Bool) (i : Nat) : Nat → Bool :=
  fun k => if k = i then true else a k

/-- Add `n` to entry `i` of a table of counters (`tbl[i] += n`). -/
def bump (tbl : Nat → Int) (i : Nat) (n : Int) : Nat → Int :=
  fun k => if k = i then tbl k + n else tbl k

/-- Modelled from the spec: the macro `cgbase (fs, c)` of fs.h (absent), the
first fragment of cylinder group `c`; groups are laid out back to back,
`fs_fpg` fragments each. -/
def cgbase (fs : Fs) (c : Nat) : Nat := fs.fs_fpg * c

/-- Modelled from the spec: the macro `blknum (fs, fsb)` of fs.h (absent),
which rounds the fragment address `fsb` down to the start of its block. -/
def blknum (fs : Fs) (fsb : Nat) : Nat := fsb / fs.fs_frag * fs.fs_frag

/-! ## The inode walk (pass5.c lines 127-130 and 180-200) -/

/-- The part of `newcg` the inode walk touches. -/
structure InoAcc where
  ndir : Int
  nifree : Int
  inosused : Nat → Bool

/-- One iteration of the loop at lines 183-193: the `switch` on
`inodestate[i]`, with the directory cases falling through to `REG`. -/
def inodeStep (inodestate : Nat → InodeState) (a : InoAcc) (i : Nat) : InoAcc :=
  match inodestate i with
  | InodeState.DIR | InodeState.DIR_DIR_REF =>
      { ndir := a.ndir + 1, nifree := a.nifree - 1, inosused := setbit a.inosused i }
  | InodeState.REG =>
      { a with nifree := a.nifree - 1, inosused := setbit a.inosused i }
  | InodeState.UNALLOC => a

/-- One iteration of the loop at lines 196-200 (group 0 only). -/
def rootStep (a : InoAcc) (i : Nat) : InoAcc :=
  { a with inosused := setbit a.inosused i, nifree := a.nifree - 1 }

/-- Lines 127-130 and 180-200: the counters start at `cs_ndir = 0`,
`cs_nifree = fs_ipg` with a zeroed map; the walk runs `i` over
`0 .. fs_ipg - 1`; then group 0 accounts for the inodes below `ROOTINO`. -/
def inodePass (fs : Fs) (inodestate : Nat → InodeState) (c : Nat) : InoAcc :=
  let a0 : InoAcc := { ndir := 0, nifree := fs.fs_ipg, inosused := fun _ => false }
  let a1 := (List.range fs.fs_ipg).foldl (inodeStep inodestate) a0
  if c = 0 then (List.range ROOTINO).foldl rootStep a1 else a1

/-! ## The block walk (pass5.c lines 202-238) -/

/-- The part of `newcg` the block walk touches. -/
structure BlkAcc where
  nbfree : Int
  nffree : Int
  blktot : Nat → Int
  blks : Nat → Nat → Int
  frsum : Nat → Int
  blksfree : Nat → Bool

/-- One iteration of the loop at lines 212-218: a fragment that `testbmap`
reports in use is skipped; a free one is set in the free map and counted. -/
def fragStep (bmap : Nat → Bool) (d i : Nat) (p : (Nat → Bool) × Nat) (j : Nat) :
    (Nat → Bool) × Nat :=
  if bmap (d + j) then p else (setbit p.1 (i + j), p.2 + 1)

/-- Lines 208-218: `frags = 0`, then `j` runs over `0 .. fs_frag - 1`. -/
def fragLoop (fs : Fs) (bmap : Nat → Bool) (d i : Nat) (free : Nat → Bool) :
    (Nat → Bool) × Nat :=
  (List.range fs.fs_frag).foldl (fragStep bmap d i) (free, 0)

/-- Modelled from the spec: the macro `blkmap (fs, map, loc)` of fs.h (absent):
the bits of the block that starts at `loc` in the free map, as a map of
`fs_frag` bits (bits at or past `fs_frag` are clear). -/
def blkmap (fs : Fs) (map : Nat → Bool) (loc : Nat) : Nat → Bool :=
  fun j => decide (j < fs.fs_frag) && map (loc + j)

/-- One position of the scan of `ffs_fragacct`: a free fragment lengthens the
current run; a fragment in use closes it and credits the bucket of its length. -/
def fragacctStep (blk : Nat → Bool) (cnt : Int) (st : Nat × (Nat → Int)) (j : Nat) :
    Nat × (Nat → Int) :=
  if blk j then (st.1 + 1, st.2)
  else (0, if st.1 = 0 then st.2 else bump st.2 st.1 cnt)

/-- Modelled from the spec: `ffs_fragacct (fs, fragmap, fraglist, cnt)` of the
ufs library (absent): every contiguous run of free fragments within the block
adds `cnt` to the bucket of `fraglist` indexed by the run's length.  The
block is scanned from fragment 0; the end of the block closes the last run. -/
def ffs_fragacct (fs : Fs) (blk : Nat → Bool) (fraglist : Nat → Int) (cnt : Int) :
    Nat → Int :=
  let st := (List.range fs.fs_frag).foldl (fragacctStep blk cnt) (0, fraglist)
  if st.1 = 0 then st.2 else bump st.2 st.1 cnt

/-- The body of the loop at lines 207-238 for the block at fragment `d`,
local fragment index `i`.  `cyl` and `rpos` are the macros `cbtocylno` and
`cktorpos` of the current superblock. -/
def blockStep (fs : Fs) (cyl rpos : Nat → Nat) (bmap : Nat → Bool)
    (a : BlkAcc) (i d : Nat) : BlkAcc :=
  let r := fragLoop fs bmap d i a.blksfree
  if r.2 = fs.fs_frag then
    { a with
      nbfree := a.nbfree + 1
      blktot := bump a.blktot (cyl i) 1
      blks := fun j => if j = cyl i then bump (a.blks j) (rpos i) 1 else a.blks j
      blksfree := r.1 }
  else if r.2 ≠ 0 then
    { a with
      nffree := a.nffree + r.2
      frsum := ffs_fragacct fs (blkmap fs r.1 i) a.frsum 1
      blksfree := r.1 }
  else
    { a with blksfree := r.1 }

/-- The loop at lines 204-206: `for (i = 0, d = dbase; d < dmax; d += fs_frag,
i += fs_frag)`.  The first argument bounds the number of iterations; `none`
is a loop that has not left the range when the bound is used up (with
`fs_frag = 0` the C loop never advances). -/
def blockLoop (fs : Fs) (cyl rpos : Nat → Nat) (bmap : Nat → Bool) (dmax : Nat) :
    Nat → Nat → Nat → BlkAcc → Option BlkAcc
  | 0, _, d, a => if d < dmax then none else some a
  | fuel + 1, i, d, a =>
      if d < dmax then
        blockLoop fs cyl rpos bmap dmax fuel (i + fs.fs_frag) (d + fs.fs_frag)
          (blockStep fs cyl rpos bmap a i d)
      else some a

/-- Lines 111-114: the end of the group's data, `dbase + fs_fpg` cut at `fs_size`. -/
def cgdmax (fs : Fs) (c : Nat) : Nat :=
  if cgbase fs c + fs.fs_fpg > fs.fs_size then fs.fs_size else cgbase fs c + fs.fs_fpg

/-- The zeroed accumulator of lines 128-129 and 174-176. -/
def blkAcc0 : BlkAcc :=
  { nbfree := 0, nffree := 0, blktot := fun _ => 0, blks := fun _ _ => 0,
    frsum := fun _ => 0, blksfree := fun _ => false }

/-- Lines 202-238 for group `c`: the block walk from `dbase` to `dmax`. -/
def blockPass (fs : Fs) (cyl rpos : Nat → Nat) (bmap : Nat → Bool) (c : Nat) :
    Option BlkAcc :=
  blockLoop fs cyl rpos bmap (cgdmax fs c) (cgdmax fs c - cgbase fs c) 0 (cgbase fs c)
    blkAcc0

/-- Lines 93-96: fragments from `fs_size` up to the end of its block are
marked in use in the global block map (`setbmap`). -/
def markPastEnd (fs : Fs) (bmap : Nat → Bool) : Nat → Bool :=
  fun k => if fs.fs_size ≤ k ∧ k < blknum fs (fs.fs_size + fs.fs_frag - 1) then true
    else bmap k

/-! ## Operator, reports and state -/

/-- The questions `pass5` puts to the operator through `reply ("FIX")`. -/
inductive Prompt
  | rotor
  | frotor
  | irotor
  | csum
  | maps
  | summary
  | base
  | total
deriving DecidableEq, Repr

/-- The messages of `pass5`: the `pfatal` of line 108 and the `pwarn`s. -/
inductive Report
  | badMagic (c : Nat)
  | illegalRotor (c : Nat)
  | illegalFrotor (c : Nat)
  | illegalIrotor (c : Nat)
  | csumWrong (c : Nat)
  | mapsWrong (c : Nat)
  | summaryBad (c : Nat)
  | cgBad (c : Nat)
  | totalWrong
deriving DecidableEq, Repr

/-- The `writeblock` calls of `pass5`: a cylinder group (line 298), the
superblock (line 320), the summary area (line 322). -/
inductive WriteOp
  | cg (c : Nat)
  | sb
  | csum
deriving DecidableEq, Repr

/-- What `pass5` takes from the rest of fsck.  `reply c p` is the operator's
answer to prompt `p` while group `c` is checked (each prompt is put at most
once per group and run, so this covers every sequence of answers);
`pfatalReturns` tells whether `pfatal` hands control back; `cbtocylno`,
`cktorpos` and `cg_spaceoff` stand for the macros and the structure offset of
fs.h, which is absent: `cbtocylno i` is the cylinder of the block at local
fragment `i`, `cktorpos nrpos i` its rotational position when the superblock
says `fs_nrpos = nrpos` (the one geometry field `pass5` changes). -/
structure Env where
  preen : Bool
  reply : Nat → Prompt → Bool
  pfatalReturns : Bool
  inodestate : Nat → InodeState
  cbtocylno : Nat → Nat
  cktorpos : Nat → Nat → Nat
  cg_spaceoff : Int

/-- The condition `preen || reply ("FIX")`. -/
def Env.fix (env : Env) (c : Nat) (p : Prompt) : Bool :=
  env.preen || env.reply c p

/-- The state `pass5` works on: the in-core superblock (`sblock` with its
fields `fs_cstotal`, `fs_ronly`, `fs_fmod`), the global block map, the disk
(cylinder groups `cgs`, summary area `csums`), the locals `csumbuf`,
`cstotal`, `writesb`, `writecsum`, and the logs of messages and of
`writeblock` calls. -/
structure St where
  sblock : Fs
  fs_cstotal : Csum
  fs_ronly : Nat
  fs_fmod : Nat
  bmap : Nat → Bool
  cgs : Nat → Cg
  csums : Nat → Csum
  csumbuf : Nat → Csum
  cstotal : Csum
  writesb : Bool
  writecsum : Bool
  reports : List Report
  writes : List WriteOp

/-- How a piece of `pass5` ends: it returns, the process exits inside
`pfatal`, or a loop never ends. -/
inductive Outcome (σ : Type)
  | done (s : σ)
  | exit (s : σ)
  | hang

/-- The size of `long` and of `short` on the target (i386). -/
def sizeof_long : Int := 4

/-- The size of `short` on the target. -/
def sizeof_short : Int := 2

/-- Lines 52-89: the parts of `newcg` that are the same in each group.  The
old format leaves everything but `cg_niblk` zero. -/
def newcgInit (env : Env) (fs : Fs) : Cg :=
  let z : Cg :=
    { cg_magic := 0, cg_time := 0, cg_cgx := 0, cg_ncyl := 0, cg_niblk := fs.fs_ipg,
      cg_ndblk := 0, cg_cs := ⟨0, 0, 0, 0⟩, cg_rotor := 0, cg_frotor := 0, cg_irotor := 0,
      cg_frsum := fun _ => 0, cg_btotoff := 0, cg_boff := 0, cg_iusedoff := 0,
      cg_freeoff := 0, cg_nextfreeoff := 0, cg_blktot := fun _ => 0,
      cg_blks := fun _ _ => 0, cg_inosused := fun _ => false, ocg_magic := 0,
      cg_blksfree := fun _ => false }
  match fs.fs_postblformat with
  | PostblFormat.FS_42POSTBLFMT => z
  | PostblFormat.FS_DYNAMICPOSTBLFMT =>
      let btotoff := env.cg_spaceoff
      let boff := btotoff + fs.fs_cpg * sizeof_long
      let iusedoff := boff + fs.fs_cpg * fs.fs_nrpos * sizeof_short
      let freeoff := iusedoff + howmany fs.fs_ipg NBBY
      let nextfreeoff := freeoff + howmany (fs.fs_cpg * fs.fs_spc / fs.fs_nspf) NBBY
      { z with cg_btotoff := btotoff, cg_boff := boff, cg_iusedoff := iusedoff,
               cg_freeoff := freeoff, cg_nextfreeoff := nextfreeoff,
               cg_magic := CG_MAGIC }

/-! ## The regions `bcmp` and `bcopy` work on

The accessors `cg_blktot`, `cg_blks`, `cg_inosused`, `cg_blksfree` of fs.h are
absent; a region is modelled by the fields and index ranges it covers. -/

/-- Number of cylinders and of rotational positions of the summary tables:
`cg_btot[32]`, `cg_b[32][8]` in the old format, `fs_cpg` by `fs_nrpos` in the new. -/
def sumDims (fs : Fs) : Nat × Nat :=
  match fs.fs_postblformat with
  | PostblFormat.FS_42POSTBLFMT => (32, 8)
  | PostblFormat.FS_DYNAMICPOSTBLFMT => (fs.fs_cpg, fs.fs_nrpos)

/-- Number of bits of the inode map and of the block map inside `mapsize`. -/
def mapDims (fs : Fs) : Nat × Nat :=
  match fs.fs_postblformat with
  | PostblFormat.FS_42POSTBLFMT => (NBBY * 256, NBBY * howmany fs.fs_fpg NBBY)
  | PostblFormat.FS_DYNAMICPOSTBLFMT =>
      (NBBY * howmany fs.fs_ipg NBBY,
       NBBY * howmany (fs.fs_cpg * fs.fs_spc / fs.fs_nspf) NBBY)

/-- The test `bcmp (&newcg->cg_cs, cs, sizeof (struct csum))` of line 248. -/
def csDiffer (a b : Csum) : Bool := decide (a ≠ b)

/-- The test `bcmp (cg_inosused (newcg), cg_inosused (cg), mapsize)` of line 261. -/
def mapsDiffer (fs : Fs) (a b : Cg) : Bool :=
  (List.range (mapDims fs).1).any (fun i => a.cg_inosused i != b.cg_inosused i)
  || (List.range (mapDims fs).2).any (fun i => a.cg_blksfree i != b.cg_blksfree i)
  || (fs.fs_postblformat == PostblFormat.FS_42POSTBLFMT && a.ocg_magic != b.ocg_magic)

/-- The copy `bcopy (cg_inosused (newcg), cg_inosused (cg), mapsize)` of line 268. -/
def mapsCopy (fs : Fs) (src dst : Cg) : Cg :=
  { dst with
    cg_inosused := fun i => if i < (mapDims fs).1 then src.cg_inosused i else dst.cg_inosused i
    cg_blksfree := fun i => if i < (mapDims fs).2 then src.cg_blksfree i else dst.cg_blksfree i
    ocg_magic := if fs.fs_postblformat = PostblFormat.FS_42POSTBLFMT then src.ocg_magic
                 else dst.ocg_magic }

/-- The test `bcmp (&cg_blktot(newcg)[0], &cg_blktot(cg)[0], sumsize)` of line 273. -/
def sumDiffer (fs : Fs) (a b : Cg) : Bool :=
  (List.range (sumDims fs).1).any (fun j =>
    a.cg_blktot j != b.cg_blktot j
    || (List.range (sumDims fs).2).any (fun p => a.cg_blks j p != b.cg_blks j p))

/-- The copy of line 280 (`sumsize` bytes from `cg_blktot (newcg)`). -/
def sumCopy (fs : Fs) (src dst : Cg) : Cg :=
  { dst with
    cg_blktot := fun j => if j < (sumDims fs).1 then src.cg_blktot j else dst.cg_blktot j
    cg_blks := fun j p =>
      if j < (sumDims fs).1 ∧ p < (sumDims fs).2 then src.cg_blks j p else dst.cg_blks j p }

/-- The test `bcmp (newcg, cg, basesize)` of line 285: the fixed fields up to
`cg_frsum`, and in the new format the offsets that follow. -/
def baseDiffer (fs : Fs) (a b : Cg) : Bool :=
  a.cg_magic != b.cg_magic || a.cg_time != b.cg_time || a.cg_cgx != b.cg_cgx
  || a.cg_ncyl != b.cg_ncyl || a.cg_niblk != b.cg_niblk || a.cg_ndblk != b.cg_ndblk
  || a.cg_cs != b.cg_cs || a.cg_rotor != b.cg_rotor || a.cg_frotor != b.cg_frotor
  || a.cg_irotor != b.cg_irotor
  || (List.range MAXFRAG).any (fun k => a.cg_frsum k != b.cg_frsum k)
  || (fs.fs_postblformat == PostblFormat.FS_DYNAMICPOSTBLFMT
      && (a.cg_btotoff != b.cg_btotoff || a.cg_boff != b.cg_boff
          || a.cg_iusedoff != b.cg_iusedoff || a.cg_freeoff != b.cg_freeoff
          || a.cg_nextfreeoff != b.cg_nextfreeoff))

/-- The copy `bcopy (newcg, cg, basesize)` of line 292. -/
def baseCopy (fs : Fs) (src dst : Cg) : Cg :=
  let dyn := fs.fs_postblformat = PostblFormat.FS_DYNAMICPOSTBLFMT
  { dst with
    cg_magic := src.cg_magic, cg_time := src.cg_time, cg_cgx := src.cg_cgx,
    cg_ncyl := src.cg_ncyl, cg_niblk := src.cg_niblk, cg_ndblk := src.cg_ndblk,
    cg_cs := src.cg_cs, cg_rotor := src.cg_rotor, cg_frotor := src.cg_frotor,
    cg_irotor := src.cg_irotor,
    cg_frsum := fun k => if k < MAXFRAG then src.cg_frsum k else dst.cg_frsum k,
    cg_btotoff := if dyn then src.cg_btotoff else dst.cg_btotoff,
    cg_boff := if dyn then src.cg_boff else dst.cg_boff,
    cg_iusedoff := if dyn then src.cg_iusedoff else dst.cg_iusedoff,
    cg_freeoff := if dyn then src.cg_freeoff else dst.cg_freeoff,
    cg_nextfreeoff := if dyn then src.cg_nextfreeoff else dst.cg_nextfreeoff }

/-- Modelled from the spec: the macro `cg_chkmagic (cg)` of fs.h (absent): the
magic-tag check of a group buffer, in either layout. -/
def cg_chkmagic (cg : Cg) : Bool :=
  cg.cg_magic == CG_MAGIC || cg.ocg_magic == CG_MAGIC

/-! ## One cylinder group (lines 101-298) -/

/-- The per-group working set: the computed `newcg`, the buffer `cg` read
from disk, the flag `writecg`, and the messages so far. -/
structure Work where
  newcg : Cg
  cg : Cg
  writecg : Bool
  reports : List Report

/-- Lines 116-136: `newcg` for group `c`, before the sanity checks.  `tmpl`
is the structure built once at lines 52-89. -/
def newcgGroup (fs : Fs) (tmpl cg : Cg) (c : Nat) : Cg :=
  { tmpl with
    cg_time := cg.cg_time
    cg_cgx := c
    cg_ncyl := if c + 1 = fs.fs_ncg then ((fs.fs_ncyl % fs.fs_cpg : Nat) : Int)
               else (fs.fs_cpg : Int)
    cg_ndblk := (cgdmax fs c : Int) - (cgbase fs c : Int)
    cg_cs := { cs_ndir := 0, cs_nffree := 0, cs_nbfree := 0, cs_nifree := fs.fs_ipg }
    cg_rotor := cg.cg_rotor
    cg_frotor := cg.cg_frotor
    cg_irotor := cg.cg_irotor }

/-- Lines 137-148: the check of `cg_rotor`. -/
def checkRotor (env : Env) (c : Nat) (w : Work) : Work :=
  if w.newcg.cg_rotor > w.newcg.cg_ndblk then
    let w1 := { w with reports := w.reports ++ [Report.illegalRotor c] }
    if env.fix c Prompt.rotor then
      { w1 with
        newcg := { w1.newcg with cg_rotor := 0 }
        cg := { w1.cg with cg_rotor := 0 }
        writecg := true }
    else w1
  else w

/-- Lines 149-160: the check of `cg_frotor`. -/
def checkFrotor (env : Env) (c : Nat) (w : Work) : Work :=
  if w.newcg.cg_frotor > w.newcg.cg_ndblk then
    let w1 := { w with reports := w.reports ++ [Report.illegalFrotor c] }
    if env.fix c Prompt.frotor then
      { w1 with
        newcg := { w1.newcg with cg_frotor := 0 }
        cg := { w1.cg with cg_frotor := 0 }
        writecg := true }
    else w1
  else w

/-- Lines 161-172: the check of `cg_irotor`. -/
def checkIrotor (env : Env) (c : Nat) (w : Work) : Work :=
  if w.newcg.cg_irotor > w.newcg.cg_niblk then
    let w1 := { w with reports := w.reports ++ [Report.illegalIrotor c] }
    if env.fix c Prompt.irotor then
      { w1 with
        newcg := { w1.newcg with cg_irotor := 0 }
        cg := { w1.cg with cg_irotor := 0 }
        writecg := true }
    else w1
  else w

/-- Lines 174-238: the zeroed summary areas and maps filled in by the two
walks; the old format gets its magic number. -/
def fillNewcg (fs : Fs) (n : Cg) (ino : InoAcc) (blk : BlkAcc) : Cg :=
  { n with
    cg_cs := { cs_ndir := ino.ndir, cs_nbfree := blk.nbfree, cs_nifree := ino.nifree,
               cs_nffree := blk.nffree }
    cg_frsum := blk.frsum
    cg_blktot := blk.blktot
    cg_blks := blk.blks
    cg_inosused := ino.inosused
    cg_blksfree := blk.blksfree
    ocg_magic := if fs.fs_postblformat = PostblFormat.FS_42POSTBLFMT then CG_MAGIC else 0 }

/-- Lines 260-271: the check of the inode and block maps. -/
def checkMaps (env : Env) (fs : Fs) (c : Nat) (w : Work) : Work :=
  if mapsDiffer fs w.newcg w.cg then
    let w1 := { w with reports := w.reports ++ [Report.mapsWrong c] }
    if env.fix c Prompt.maps then
      { w1 with cg := mapsCopy fs w1.newcg w1.cg, writecg := true }
    else w1
  else w

/-- Lines 273-283: the check of the summary tables. -/
def checkSummary (env : Env) (fs : Fs) (c : Nat) (w : Work) : Work :=
  if sumDiffer fs w.newcg w.cg then
    let w1 := { w with reports := w.reports ++ [Report.summaryBad c] }
    if env.fix c Prompt.summary then
      { w1 with cg := sumCopy fs w1.newcg w1.cg, writecg := true }
    else w1
  else w

/-- Lines 285-295: the check of the fixed part of the group. -/
def checkBase (env : Env) (fs : Fs) (c : Nat) (w : Work) : Work :=
  if baseDiffer fs w.newcg w.cg then
    let w1 := { w with reports := w.reports ++ [Report.cgBad c] }
    if env.fix c Prompt.base then
      { w1 with cg := baseCopy fs w1.newcg w1.cg, writecg := true }
    else w1
  else w

/-- Lines 242-245: a group's totals added into `cstotal`. -/
def addCsum (t g : Csum) : Csum :=
  { cs_ndir := t.cs_ndir + g.cs_ndir, cs_nbfree := t.cs_nbfree + g.cs_nbfree,
    cs_nifree := t.cs_nifree + g.cs_nifree, cs_nffree := t.cs_nffree + g.cs_nffree }

/-- Lines 116-238 for group `c`: the working set after the rotor checks and
the two walks (`blk` is the result of the block walk). -/
def computeWork (env : Env) (tmpl : Cg) (c : Nat) (s : St) (blk : BlkAcc) : Work :=
  let fs := s.sblock
  let w0 : Work :=
    { newcg := newcgGroup fs tmpl (s.cgs c) c, cg := s.cgs c, writecg := false,
      reports := s.reports }
  let w1 := checkIrotor env c (checkFrotor env c (checkRotor env c w0))
  { w1 with newcg := fillNewcg fs w1.newcg (inodePass fs env.inodestate c) blk }

/-- Lines 240-298 for group `c`: totals, the four checks, and the write. -/
def groupBody (env : Env) (tmpl : Cg) (c : Nat) (s : St) (blk : BlkAcc) : St :=
  let fs := s.sblock
  let w := computeWork env tmpl c s blk
  let cstotal := addCsum s.cstotal w.newcg.cg_cs
  let differ := csDiffer w.newcg.cg_cs (s.csumbuf c)
  let fixcs := differ && env.fix c Prompt.csum
  let w2 : Work := if differ then { w with reports := w.reports ++ [Report.csumWrong c] } else w
  let csumbuf := if fixcs then (fun k => if k = c then w.newcg.cg_cs else s.csumbuf k)
                 else s.csumbuf
  let w3 := checkBase env fs c (checkSummary env fs c (checkMaps env fs c w2))
  { s with
    cstotal := cstotal
    csumbuf := csumbuf
    writecsum := s.writecsum || fixcs
    reports := w3.reports
    cgs := if w3.writecg then (fun k => if k = c then w3.cg else s.cgs k) else s.cgs
    writes := if w3.writecg then s.writes ++ [WriteOp.cg c] else s.writes }

/-- Lines 107-108: the message of `pfatal` when the magic number is bad. -/
def checkMagic (c : Nat) (s : St) : St :=
  if cg_chkmagic (s.cgs c) then s
  else { s with reports := s.reports ++ [Report.badMagic c] }

/-- The body of the loop at line 99 for group `c`: the group is read, its
magic number checked (`pfatal` at line 108), then lines 110-298. -/
def group (env : Env) (tmpl : Cg) (c : Nat) (s : St) : Outcome St :=
  let s1 := checkMagic c s
  if !cg_chkmagic (s.cgs c) && !env.pfatalReturns then Outcome.exit s1
  else
    match blockPass s1.sblock env.cbtocylno (env.cktorpos s1.sblock.fs_nrpos) s1.bmap c with
    | none => Outcome.hang
    | some blk => Outcome.done (groupBody env tmpl c s1 blk)

/-- The loop at line 99 over the groups still to do. -/
def groupLoop (env : Env) (tmpl : Cg) : List Nat → St → Outcome St
  | [], s => Outcome.done s
  | c :: cs, s =>
      match group env tmpl c s with
      | Outcome.done s1 => groupLoop env tmpl cs s1
      | Outcome.exit s1 => Outcome.exit s1
      | Outcome.hang => Outcome.hang

/-! ## The whole pass -/

/-- Lines 301-323: `fs_nrpos` restored, the totals checked against the
superblock, and the superblock and the summary area written if changed. -/
def finish (env : Env) (savednrpos : Nat) (s : St) : St :=
  let sb0 : Fs :=
    match s.sblock.fs_postblformat with
    | PostblFormat.FS_42POSTBLFMT => { s.sblock with fs_nrpos := savednrpos }
    | PostblFormat.FS_DYNAMICPOSTBLFMT => s.sblock
  let differ := csDiffer s.cstotal s.fs_cstotal
  let fixit := differ && env.fix sb0.fs_ncg Prompt.total
  let writesb := s.writesb || fixit
  let w1 := if writesb then s.writes ++ [WriteOp.sb] else s.writes
  { s with
    sblock := sb0
    fs_cstotal := if fixit then s.cstotal else s.fs_cstotal
    fs_ronly := if fixit then 0 else s.fs_ronly
    fs_fmod := if fixit then 0 else s.fs_fmod
    writesb := writesb
    reports := if differ then s.reports ++ [Report.totalWrong] else s.reports
    csums := if s.writecsum then s.csumbuf else s.csums
    writes := if s.writecsum then w1 ++ [WriteOp.csum] else w1 }

/-- Lines 44-96: the flags cleared, the summary area read, `newcg` prepared,
`fs_nrpos` forced to 8 in the old format, `cstotal` zeroed, and the
fragments past the end of the filesystem marked in the block map.  The logs
start empty: they record this run. -/
def setup (s : St) : St :=
  { s with
    writesb := false
    writecsum := false
    csumbuf := s.csums
    sblock :=
      match s.sblock.fs_postblformat with
      | PostblFormat.FS_42POSTBLFMT => { s.sblock with fs_nrpos := 8 }
      | PostblFormat.FS_DYNAMICPOSTBLFMT => s.sblock
    cstotal := ⟨0, 0, 0, 0⟩
    bmap := markPastEnd s.sblock s.bmap
    reports := []
    writes := [] }

/-- The function `pass5`. -/
def pass5 (env : Env) (s : St) : Outcome St :=
  let tmpl := newcgInit env s.sblock
  let savednrpos := s.sblock.fs_nrpos
  let s0 := setup s
  match groupLoop env tmpl (List.range s0.sblock.fs_ncg) s0 with
  | Outcome.done s1 => Outcome.done (finish env savednrpos s1)
  | Outcome.exit s1 => Outcome.exit s1
  | Outcome.hang => Outcome.hang

/-! ## Definitions the theorems are stated with -/

/-- The inode states that the `switch` of line 184 counts as allocated. -/
def InodeState.isUsed : InodeState → Bool
  | InodeState.UNALLOC => false
  | _ => true

/-- The inode states that the `switch` of line 184 counts as directories. -/
def InodeState.isDir : InodeState → Bool
  | InodeState.DIR => true
  | InodeState.DIR_DIR_REF => true
  | _ => false

/-- Number of bits set in the inode map of a group: the map takes
`howmany (fs_ipg, NBBY)` bytes. -/
def usedInodeBits (fs : Fs) (m : Nat → Bool) : Nat :=
  (List.range (NBBY * howmany fs.fs_ipg NBBY)).countP m

/-- Fixture for C1: two groups of four inodes. -/
def fsC1 : Fs :=
  { fs_postblformat := PostblFormat.FS_DYNAMICPOSTBLFMT, fs_ncg := 2, fs_ipg := 4,
    fs_fpg := 16, fs_frag := 4, fs_size := 32, fs_ncyl := 2, fs_cpg := 1, fs_nrpos := 1,
    fs_spc := 16, fs_nspf := 1, fs_contigsumsize := 0 }

/-- Fixture for C1: only inode 2 (group 0) is allocated. -/
def isC1 : Nat → InodeState := fun k => if k = 2 then InodeState.REG else InodeState.UNALLOC

/-- Fixture for C2: one group of eight inodes. -/
def fsC2 : Fs := { fsC1 with fs_ncg := 1, fs_ipg := 8, fs_size := 16, fs_ncyl := 1 }

/-- Fixture for C2: the reserved inode 0 is classified as a regular file. -/
def isC2 : Nat → InodeState := fun k => if k = 0 then InodeState.REG else InodeState.UNALLOC

/-- Number of free fragments of the block that starts at fragment `d`,
according to the block map `bmap`. -/
def freeFrags (fs : Fs) (bmap : Nat → Bool) (d : Nat) : Nat :=
  (List.range fs.fs_frag).countP (fun j => !bmap (d + j))

/-- Number of blocks the walk of group `c` visits: the block starts
`dbase, dbase + fs_frag, ...` below `dmax`. -/
def blocksOf (fs : Fs) (c : Nat) : Nat :=
  howmany (cgdmax fs c - cgbase fs c) fs.fs_frag

/-- The block walk as an iteration over the block numbers `0 .. n - 1` of the
group, from the accumulator `a`. -/
def blockIter (fs : Fs) (cyl rpos : Nat → Nat) (bmap : Nat → Bool) (i d : Nat)
    (a : BlkAcc) (n : Nat) : BlkAcc :=
  (List.range n).foldl
    (fun b m => blockStep fs cyl rpos bmap b (i + m * fs.fs_frag) (d + m * fs.fs_frag)) a

/-- Number of fragments in the range `[lo, hi)` that are unoccupied in the
block map `bmap`. -/
def freeFragments (bmap : Nat → Bool) (lo hi : Nat) : Nat :=
  (List.range (hi - lo)).countP (fun x => !bmap (lo + x))

/-- Fixture: the spec's scenario, one group of 8 inodes and 16 fragments, 4
fragments to the block. -/
def fsScenario : Fs :=
  { fs_postblformat := PostblFormat.FS_DYNAMICPOSTBLFMT, fs_ncg := 1, fs_ipg := 8,
    fs_fpg := 16, fs_frag := 4, fs_size := 16, fs_ncyl := 1, fs_cpg := 1, fs_nrpos := 1,
    fs_spc := 16, fs_nspf := 1, fs_contigsumsize := 0 }

/-- Fixture: the block map of the spec's scenario: blocks 0 and 1 free, block
2 with fragments 9 and 10 free, block 3 occupied. -/
def bmapScenario : Nat → Bool := fun k => decide (k = 8 ∨ 11 ≤ k)

/-- Fixture: the inode states of the spec's scenario: inode 2 a directory,
inode 3 a regular file. -/
def isScenario : Nat → InodeState :=
  fun k => if k = 2 then InodeState.DIR else if k = 3 then InodeState.REG
    else InodeState.UNALLOC

/-- Whether all the fragments of the block that starts at `d` are unoccupied
in the block map `bmap`. -/
def blockAllFree (fs : Fs) (bmap : Nat → Bool) (d : Nat) : Bool :=
  (List.range fs.fs_frag).all (fun j => !bmap (d + j))

/-- Number of blocks of group `c` that lie in `[dbase, dmax)` and have all
their fragments unoccupied in `bmap`: block `m` of the group starts at
`dbase + m * fs_frag`. -/
def freeBlocks (fs : Fs) (bmap : Nat → Bool) (c : Nat) : Nat :=
  (List.range (cgdmax fs c - cgbase fs c)).countP (fun m =>
    decide (cgbase fs c + m * fs.fs_frag + fs.fs_frag ≤ cgdmax fs c)
      && blockAllFree fs bmap (cgbase fs c + m * fs.fs_frag))

/-- Whether a maximal run of exactly `k` free fragments starts at position `p`
of a block of `n` fragments: the `k` fragments from `p` are free, the one
before `p` (if any) and the one after the run (if any) are not. -/
def isRunAt (free : Nat → Bool) (n p k : Nat) : Bool :=
  decide (p + k ≤ n ∧ (∀ q, q < k → free (p + q) = true)
    ∧ (p = 0 ∨ free (p - 1) = false) ∧ (p + k = n ∨ free (p + k) = false))

/-- Number of maximal runs of exactly `k` free fragments in the block that
starts at fragment `d`. -/
def runsInBlock (fs : Fs) (bmap : Nat → Bool) (d k : Nat) : Nat :=
  (List.range fs.fs_frag).countP (fun p => isRunAt (fun j => !bmap (d + j)) fs.fs_frag p k)

/-- Whether the block that starts at `d` is partially free: some but not all
of its fragments are free. -/
def isPartial (fs : Fs) (bmap : Nat → Bool) (d : Nat) : Bool :=
  decide (freeFrags fs bmap d ≠ fs.fs_frag ∧ freeFrags fs bmap d ≠ 0)

/-- Number of maximal runs of exactly `k` free fragments inside the partially
free blocks of group `c`. -/
def fragRuns (fs : Fs) (bmap : Nat → Bool) (c k : Nat) : Nat :=
  ((List.range (blocksOf fs c)).map (fun m =>
    if isPartial fs bmap (cgbase fs c + m * fs.fs_frag) then
      runsInBlock fs bmap (cgbase fs c + m * fs.fs_frag) k
    else 0)).sum

/-- A run of exactly `k` free fragments that starts at `p` and is closed by a
fragment in use at `p + k`. -/
def endedAt (b : Nat → Bool) (k p : Nat) : Bool :=
  decide ((∀ q, q < k → b (p + q) = true) ∧ (p = 0 ∨ b (p - 1) = false)
    ∧ b (p + k) = false)

/-- The summary `cg_cs` the two walks compute for a group. -/
def summaryOf (ino : InoAcc) (blk : BlkAcc) : Csum :=
  { cs_ndir := ino.ndir, cs_nbfree := blk.nbfree, cs_nifree := ino.nifree,
    cs_nffree := blk.nffree }

/-- The summary computed for group `c`, when its block walk ends. -/
def computedCs (env : Env) (fs : Fs) (bmap : Nat → Bool) (c : Nat) : Option Csum :=
  (blockPass fs env.cbtocylno (env.cktorpos fs.fs_nrpos) bmap c).map
    (summaryOf (inodePass fs env.inodestate c))

/-- The state after the body of the loop for group `c`, when the body returns. -/
def stepG (env : Env) (tmpl : Cg) (c : Nat) (s : St) : St :=
  groupBody env tmpl c (checkMagic c s)
    ((blockPass s.sblock env.cbtocylno (env.cktorpos s.sblock.fs_nrpos) s.bmap c).getD blkAcc0)

/-- The body of the loop for group `c` returns: `pfatal` is not called or
hands control back, and the block walk ends. -/
def groupRuns (env : Env) (c : Nat) (s : St) : Prop :=
  (cg_chkmagic (s.cgs c) = true ∨ env.pfatalReturns = true)
  ∧ (blockPass s.sblock env.cbtocylno (env.cktorpos s.sblock.fs_nrpos) s.bmap c).isSome = true

/-- The sum of the summaries `g 0 .. g (n - 1)`, field by field. -/
def sumCsum (n : Nat) (g : Nat → Csum) : Csum :=
  { cs_ndir := ((List.range n).map (fun c => (g c).cs_ndir)).sum
    cs_nbfree := ((List.range n).map (fun c => (g c).cs_nbfree)).sum
    cs_nifree := ((List.range n).map (fun c => (g c).cs_nifree)).sum
    cs_nffree := ((List.range n).map (fun c => (g c).cs_nffree)).sum }

/-- The state after the bodies of the loop for groups `0 .. n - 1`, when they return. -/
def groupsDone (env : Env) (tmpl : Cg) (s : St) (n : Nat) : St :=
  (List.range n).foldl (fun t k => stepG env tmpl k t) s

/-- The summary computed for group `c`, with the zero accumulator standing in
for a block walk that does not end. -/
def csOf (env : Env) (fs : Fs) (bmap : Nat → Bool) (c : Nat) : Csum :=
  summaryOf (inodePass fs env.inodestate c)
    ((blockPass fs env.cbtocylno (env.cktorpos fs.fs_nrpos) bmap c).getD blkAcc0)

/-- Fixture: a state of the spec's scenario before `pass5`: the group buffer
and the summaries are all zero, the magic number is good. -/
def stScenario : St :=
  { sblock := fsScenario
    fs_cstotal := ⟨0, 0, 0, 0⟩
    fs_ronly := 1
    fs_fmod := 1
    bmap := bmapScenario
    cgs := fun _ =>
      { cg_magic := CG_MAGIC, cg_time := 7, cg_cgx := 0, cg_ncyl := 0, cg_niblk := 0,
        cg_ndblk := 0, cg_cs := ⟨0, 0, 0, 0⟩, cg_rotor := 100, cg_frotor := 0,
        cg_irotor := 0, cg_frsum := fun _ => 0, cg_btotoff := 0, cg_boff := 0,
        cg_iusedoff := 0, cg_freeoff := 0, cg_nextfreeoff := 0, cg_blktot := fun _ => 0,
        cg_blks := fun _ _ => 0, cg_inosused := fun _ => false, ocg_magic := 0,
        cg_blksfree := fun _ => false }
    csums := fun _ => ⟨0, 0, 0, 0⟩
    csumbuf := fun _ => ⟨0, 0, 0, 0⟩
    cstotal := ⟨0, 0, 0, 0⟩
    writesb := false
    writecsum := false
    reports := []
    writes := [] }

/-- Fixture: fsck in preen mode on the spec's scenario. -/
def envPreen : Env :=
  { preen := true, reply := fun _ _ => false, pfatalReturns := false,
    inodestate := isScenario, cbtocylno := fun _ => 0, cktorpos := fun _ _ => 0,
    cg_spaceoff := 168 }

/-- Fixture: an operator who declines every fix, on the spec's scenario. -/
def envDecline : Env := { envPreen with preen := false }

/-- The working set of group `c` after the four checks of lines 247-295. -/
def checkedWork (env : Env) (tmpl : Cg) (c : Nat) (s : St) (blk : BlkAcc) : Work :=
  let w := computeWork env tmpl c s blk
  let w2 : Work :=
    if csDiffer w.newcg.cg_cs (s.csumbuf c) then
      { w with reports := w.reports ++ [Report.csumWrong c] }
    else w
  checkBase env s.sblock c (checkSummary env s.sblock c (checkMaps env s.sblock c w2))

/-- The working set of group `c` after the rotor checks of lines 137-172. -/
def rotorWork (env : Env) (tmpl : Cg) (c : Nat) (s : St) : Work :=
  checkIrotor env c (checkFrotor env c (checkRotor env c
    { newcg := newcgGroup s.sblock tmpl (s.cgs c) c, cg := s.cgs c, writecg := false,
      reports := s.reports }))

/-- A group buffer that has not been touched is still the one read from disk. -/
def Work.clean (g0 : Cg) (w : Work) : Prop := w.writecg = false → w.cg = g0

/-- What a rotor check leaves in `newcg` (and in the buffer): an out-of-range
value is zeroed when the fix is made. -/
def clampRotor (fixit : Bool) (r bound : Int) : Int :=
  if r > bound ∧ fixit = true then 0 else r

/-- The data-block count `dmax - dbase` computed for group `c` (line 124). -/
def ndblkOf (fs : Fs) (c : Nat) : Int := (cgdmax fs c : Int) - (cgbase fs c : Int)

/-- The three next-allocation cursors of a group. -/
def rotors (g : Cg) : Int × Int × Int := (g.cg_rotor, g.cg_frotor, g.cg_irotor)

/-- The block accumulator of group `c`, with the zero accumulator standing in
for a block walk that does not end. -/
def blkOf (env : Env) (fs : Fs) (bmap : Nat → Bool) (c : Nat) : BlkAcc :=
  (blockPass fs env.cbtocylno (env.cktorpos fs.fs_nrpos) bmap c).getD blkAcc0

/-- The `newcg` that `pass5` builds for group `c` from a buffer `g` whose
cursors are in range (lines 116-136), given the results of the two walks. -/
def canonCg (fs : Fs) (tmpl : Cg) (c : Nat) (ino : InoAcc) (blk : BlkAcc) (g : Cg) : Cg :=
  fillNewcg fs (newcgGroup fs tmpl g c) ino blk

/-- A group buffer `g` in which `pass5` finds nothing to report: good magic
number, cursors in range, and all three regions equal to the computed ones. -/
def Settled (fs : Fs) (tmpl : Cg) (c : Nat) (ino : InoAcc) (blk : BlkAcc) (g : Cg) : Prop :=
  cg_chkmagic g = true
  ∧ ¬ g.cg_rotor > ndblkOf fs c ∧ ¬ g.cg_frotor > ndblkOf fs c ∧ ¬ g.cg_irotor > tmpl.cg_niblk
  ∧ mapsDiffer fs (canonCg fs tmpl c ino blk g) g = false
  ∧ sumDiffer fs (canonCg fs tmpl c ino blk g) g = false
  ∧ baseDiffer fs (canonCg fs tmpl c ino blk g) g = false

/-- Line 85, new format: `basesize`, the offset of `cg_space` in `struct cg`. -/
def basesize (env : Env) : Int := env.cg_spaceoff

/-- Line 86, new format: `sumsize = newcg->cg_iusedoff - newcg->cg_btotoff`. -/
def sumsize (newcg : Cg) : Int := newcg.cg_iusedoff - newcg.cg_btotoff

/-- Line 87, new format: `mapsize = newcg->cg_nextfreeoff - newcg->cg_iusedoff`. -/
def mapsize (newcg : Cg) : Int := newcg.cg_nextfreeoff - newcg.cg_iusedoff

/-- Fixture: every inode unallocated. -/
def isNone : Nat → InodeState := fun _ => InodeState.UNALLOC

/-- The state a piece of `pass5` ends in, by returning or by exiting; a
loop that never ends has none. -/
def Outcome.final : Outcome St → Option St
  | Outcome.done s => some s
  | Outcome.exit s => some s
  | Outcome.hang => none

/-- Fixture: the spec's scenario cut to 14 fragments, so that the filesystem
ends inside its last block, with an empty block map. -/
def stShort : St :=
  { stScenario with
    sblock := { fsScenario with fs_size := 14 }
    bmap := fun _ => false }

/-- Fixture: the spec's scenario in the old format, declaring 5 rotational positions. -/
def stLegacy : St :=
  { stScenario with
    sblock := { fsScenario with fs_postblformat := PostblFormat.FS_42POSTBLFMT, fs_nrpos := 5 } }

/-- The buffer that the fix offered with a warning touches, when the fix is
made (`preen || reply ("FIX")` holds at that warning): the group buffer for the
rotor, map, summary-table and base checks, the summary area for the check of
line 248, the superblock for the check of line 305 (asked with `c = fs_ncg`).
The message of `pfatal` offers no fix. -/
def Report.fixed (env : Env) (ncg : Nat) : Report → Option WriteOp
  | Report.badMagic _ => none
  | Report.illegalRotor c => if env.fix c Prompt.rotor then some (WriteOp.cg c) else none
  | Report.illegalFrotor c => if env.fix c Prompt.frotor then some (WriteOp.cg c) else none
  | Report.illegalIrotor c => if env.fix c Prompt.irotor then some (WriteOp.cg c) else none
  | Report.csumWrong c => if env.fix c Prompt.csum then some WriteOp.csum else none
  | Report.mapsWrong c => if env.fix c Prompt.maps then some (WriteOp.cg c) else none
  | Report.summaryBad c => if env.fix c Prompt.summary then some (WriteOp.cg c) else none
  | Report.cgBad c => if env.fix c Prompt.base then some (WriteOp.cg c) else none
  | Report.totalWrong => if env.fix ncg Prompt.total then some WriteOp.sb else none

/-- Some fix that touches buffer `y` has been made according to the log `l`. -/
def fixMade (env : Env) (ncg : Nat) (l : List Report) (y : WriteOp) : Prop :=
  ∃ r, r ∈ l ∧ Report.fixed env ncg r = some y

/-- The log of the working set of group `c` agrees with its flag `writecg`:
the fixes made since the log was `base` are those to the group buffer, made
exactly when `writecg` is set, and the one to the summary area when `b`. -/
def Work.logged (env : Env) (ncg c : Nat) (base : List Report) (b : Bool) (w : Work) : Prop :=
  ∀ y, fixMade env ncg w.reports y
    ↔ (fixMade env ncg base y ∨ (y = WriteOp.cg c ∧ w.writecg = true)
        ∨ (y = WriteOp.csum ∧ b = true))

/-- The write log of the loop agrees with its report log and flags. -/
def St.logged (env : Env) (ncg : Nat) (t : St) : Prop :=
  (∀ y, fixMade env ncg t.reports y
      ↔ (y ∈ t.writes ∨ (y = WriteOp.csum ∧ t.writecsum = true)))
  ∧ (∀ y, y ∈ t.writes → ∃ c, y = WriteOp.cg c)
  ∧ t.writesb = false

/-- Fixture: an operator who accepts the fix of the superblock totals and
declines every other fix, on the spec's scenario. -/
def envTotalOnly : Env :=
  { envPreen with
    preen := false
    reply := fun _ p =>
      match p with
      | Prompt.total => true
      | _ => false }

/-- Fixture: the spec's scenario with superblock totals that are already the
computed ones (1 directory, 2 free blocks, 4 free inodes, 2 free fragments)
and both flags set. -/
def stMatched : St := { stScenario with fs_cstotal := ⟨1, 2, 4, 2⟩ }

/-- The state `s` with the field `fs_contigsumsize` of its superblock set to `n`. -/
def St.withContig (n : Nat) (s : St) : St :=
  { s with sblock := { s.sblock with fs_contigsumsize := n } }

/-- The outcome with its state transformed. -/
def Outcome.map {σ τ : Type} (f : σ → τ) : Outcome σ → Outcome τ
  | Outcome.done s => Outcome.done (f s)
  | Outcome.exit s => Outcome.exit (f s)
  | Outcome.hang => Outcome.hang

/-- Fixture: the spec's scenario on a superblock that declares a cluster
summary (`fs_contigsumsize = 1`). -/
def stContig : St := St.withContig 1 stScenario

/-- Fixture: two groups of 16 cylinders each on a filesystem of exactly 32
cylinders (4 groups of fragments as in the spec's scenario). -/
def fsC25 : Fs :=
  { fs_postblformat := PostblFormat.FS_DYNAMICPOSTBLFMT, fs_ncg := 2, fs_ipg := 8,
    fs_fpg := 16, fs_frag := 4, fs_size := 32, fs_ncyl := 32, fs_cpg := 16, fs_nrpos := 1,
    fs_spc := 16, fs_nspf := 1, fs_contigsumsize := 0 }

/-- The cylinder count `cg_ncyl` that lines 120-123 compute for group `c`. -/
def ncylOf (fs : Fs) (c : Nat) : Int :=
  (newcgGroup fs (newcgInit envPreen fs) (stScenario.cgs c) c).cg_ncyl

/-- The sum of the first `n` entries of a table of counters. -/
def tableSum (n : Nat) (tbl : Nat → Int) : Int := ((List.range n).map tbl).sum

/-- The cylinder group a message is about; the message about the superblock
totals is about none. -/
def Report.group : Report → Option Nat
  | Report.badMagic c => some c
  | Report.illegalRotor c => some c
  | Report.illegalFrotor c => some c
  | Report.illegalIrotor c => some c
  | Report.csumWrong c => some c
  | Report.mapsWrong c => some c
  | Report.summaryBad c => some c
  | Report.cgBad c => some c
  | Report.totalWrong => none

/-- Fixture: an operator who accepts every fix, with a `pfatal` that prints
its message and returns, on the spec's scenario. -/
def envYes : Env :=
  { envPreen with preen := false, reply := fun _ _ => true, pfatalReturns := true }

/-- Fixture: the spec's scenario with a group buffer whose magic number is bad. -/
def stBadMagic : St :=
  { stScenario with cgs := fun _ => { stScenario.cgs 0 with cg_magic := 0 } }

end Pass5

/-!
# vmstat: the terse output loop and the computed fields

A shallow embedding of src/utils/vmstat.c.  The statistics are `integer_t`
(32 bits, signed) and printed values are `val_t` (`long long`); both are
modelled by `Int`, with `wrap32` applied where the C expression is evaluated
in 32 bits.  Standard output is modelled by the list of the lines written;
the kernel is an oracle that gives the result of each `vm_state_refresh`.
-/

namespace Vmstat

/-! ## Values and fields -/

/-- The value of a 32-bit signed expression whose exact result is `x`, on a
two's-complement machine. -/
def wrap32 (x : Int) : Int := (x + 2 ^ 31) % 2 ^ 32 - 2 ^ 31

/-- The value of `x` converted to `unsigned` (32 bits). -/
def wrapU32 (x : Int) : Nat := (x % 2 ^ 32).toNat

/-- The `enum val_type`. -/
inductive val_type
  | COUNT
  | SIZE
  | PAGESZ
  | PCENT
deriving DecidableEq, Repr

/-- The `enum field_change_type`. -/
inductive field_change_type
  | VARY
  | CONST
  | CUMUL
deriving DecidableEq, Repr

/-- Modelled from its use in vmstat.c: the `struct vm_statistics` of
mach/vm_statistics.h (not under src/), with the members that the table
`fields` names; each is an `integer_t` (line 141). -/
structure vm_statistics where
  pagesize : Int
  free_count : Int
  active_count : Int
  inactive_count : Int
  wire_count : Int
  zero_fill_count : Int
  reactivations : Int
  pageins : Int
  pageouts : Int
  faults : Int
  cow_faults : Int
  lookups : Int
  hits : Int

/-- Modelled from its use in vmstat.c: the members of `struct
default_pager_info` (mach/default_pager.h, not under src/) that the functions
`get_swap_size` to `get_swap_active` read. -/
structure default_pager_info where
  dpi_total_space : Int
  dpi_free_space : Int
  dpi_page_size : Int

/-- The `struct vm_state`.  The member `def_pager_info` holds what
`ensure_def_pager_info` obtains for this state: `none` when it returns 0 (no
privileged port, or the call to the default pager fails). -/
structure vm_state where
  vmstats : vm_statistics
  def_pager_info : Option default_pager_info

/-- The `struct field`.  `offs` is the member of `vm_statistics` that the
offset `_F (member)` designates, `none` for the computed fields (whose entry
holds 0 or -1); `compute` is `none` for a null pointer.  A computation gives
`none` when it traps (integer division by zero). -/
structure field where
  name : String
  desc : String
  hdr : String
  change_type : field_change_type
  type : val_type
  standard : Bool
  offs : Option (vm_statistics → Int)
  compute : Option (vm_state → Option Int)

/-- The function `get_vmstats_field`: the member at `offs`, widened to
`val_t`, and multiplied by the page size for a `SIZE`. -/
def get_vmstats_field (state : vm_state) (f : field) : Option Int :=
  let val : Int :=
    match f.offs with
    | some sel => sel state.vmstats
    | none => 0
  if f.type = val_type.SIZE then some (val * state.vmstats.pagesize) else some val

/-- The function `get_size`: the sum of the four page counts times the page
size, evaluated in `integer_t`. -/
def get_size (state : vm_state) : Option Int :=
  some (wrap32 ((state.vmstats.free_count + state.vmstats.active_count
    + state.vmstats.inactive_count + state.vmstats.wire_count) * state.vmstats.pagesize))

/-- The function `get_cache_hit_ratio`: `hits * 100 / lookups`, evaluated in
`integer_t`: the product wraps at 32 bits, the division truncates toward zero
and traps for a zero divisor (and for `INT_MIN / -1`). -/
def get_cache_hit_ratio (state : vm_state) : Option Int :=
  let prod := wrap32 (state.vmstats.hits * 100)
  if state.vmstats.lookups = 0 then none
  else if prod = -(2 ^ 31) ∧ state.vmstats.lookups = -1 then none
  else some (Int.tdiv prod state.vmstats.lookups)

/-- The function `get_swap_size`. -/
def get_swap_size (state : vm_state) : Option Int :=
  match state.def_pager_info with
  | some i => some i.dpi_total_space
  | none => some (-1)

/-- The function `get_swap_free`. -/
def get_swap_free (state : vm_state) : Option Int :=
  match state.def_pager_info with
  | some i => some i.dpi_free_space
  | none => some (-1)

/-- The function `get_swap_page_size`. -/
def get_swap_page_size (state : vm_state) : Option Int :=
  match state.def_pager_info with
  | some i => some i.dpi_page_size
  | none => some (-1)

/-- The function `get_swap_active`. -/
def get_swap_active (state : vm_state) : Option Int :=
  match state.def_pager_info with
  | some i => some (i.dpi_total_space - i.dpi_free_space)
  | none => some (-1)

/-- The function `vm_state_get_field`: `compute` when there is one,
`get_vmstats_field` otherwise. -/
def vm_state_get_field (state : vm_state) (f : field) : Option Int :=
  match f.compute with
  | some g => g state
  | none => get_vmstats_field state f

open field_change_type val_type in
/-- The table `fields`. -/
def fields : List field :=
  [ ⟨"pagesize", "Pagesize", " pgsz", CONST, PAGESZ, true, some (·.pagesize), none⟩,
    ⟨"size", "Size", " size", CONST, SIZE, true, none, some get_size⟩,
    ⟨"free", "Free", " free", VARY, SIZE, true, some (·.free_count), none⟩,
    ⟨"active", "Active", " actv", VARY, SIZE, true, some (·.active_count), none⟩,
    ⟨"inactive", "Inactive", "inact", VARY, SIZE, true, some (·.inactive_count), none⟩,
    ⟨"wired", "Wired", "wired", VARY, SIZE, true, some (·.wire_count), none⟩,
    ⟨"zero-filled", "Zeroed", "zeroed", CUMUL, SIZE, true, some (·.zero_fill_count), none⟩,
    ⟨"reactivated", "Reactivated", "react", CUMUL, SIZE, true, some (·.reactivations), none⟩,
    ⟨"pageins", "Pageins", "pgins", CUMUL, SIZE, true, some (·.pageins), none⟩,
    ⟨"pageouts", "Pageouts", "pgouts", CUMUL, SIZE, true, some (·.pageouts), none⟩,
    ⟨"faults", "Faults", "pfaults", CUMUL, COUNT, true, some (·.faults), none⟩,
    ⟨"cow-faults", "Cow faults", "cowpfs", CUMUL, COUNT, true, some (·.cow_faults), none⟩,
    ⟨"cache-lookups", "Cache lookups", "clkups", CUMUL, COUNT, false, some (·.lookups), none⟩,
    ⟨"cache-hits", "Cache hits", "chits", CUMUL, COUNT, false, some (·.hits), none⟩,
    ⟨"cache-hit-ratio", "Cache hit ratio", "chrat", VARY, PCENT, true, none,
      some get_cache_hit_ratio⟩,
    ⟨"swap-size", "Swap size", "swsize", CONST, SIZE, true, none, some get_swap_size⟩,
    ⟨"swap-active", "Swap active", "swactv", VARY, SIZE, false, none, some get_swap_active⟩,
    ⟨"swap-free", "Swap free", "swfree", VARY, SIZE, true, none, some get_swap_free⟩,
    ⟨"swap-pagesize", "Swap pagesize", "swpgsz", CONST, PAGESZ, false, none,
      some get_swap_page_size⟩ ]

/-! ## Options -/

/-- A bit mask with one bit per field (`unsigned long`, 32 bits), modelled by
the set of its bits. -/
abbrev Mask := Nat → Bool

/-- The test `mask == 0`. -/
def Mask.isZero (m : Mask) : Bool := (List.range 32).all (fun k => !m k)

/-- The locals of `main` that `parse_opt` assigns. -/
structure Opts where
  output_fields : Mask
  count : Int
  period : Nat
  hdr_interval : Nat
  size_units : Int
  terse : Bool
  print_heading : Bool
  print_prefix : Int

/-- The initial values of the locals (lines 309-315). -/
def Opts.init : Opts :=
  { output_fields := fun _ => false, count := 1, period := 0, hdr_interval := 22,
    size_units := 0, terse := false, print_heading := true, print_prefix := -1 }

/-- The key `ARGP_KEY_ARG` of argp.h. -/
def ARGP_KEY_ARG : Int := 0

/-- The function `parse_opt` of `main`, for the key `key`; `arg` is the value
`atoi (arg)` and `arg_num` is `state->arg_num`.  The result `none` stands for
`ARGP_ERR_UNKNOWN`. -/
def parse_opt (key : Int) (arg : Int) (arg_num : Nat) (o : Opts) : Option Opts :=
  if key < 0 then
    some { o with output_fields := fun k => o.output_fields k || decide ((k : Int) = -1 - key) }
  else if key = 't'.toNat then some { o with terse := true }
  else if key = 'p'.toNat then some { o with print_prefix := 1 }
  else if key = 'P'.toNat then some { o with print_prefix := 0 }
  else if key = 'H'.toNat then some { o with print_heading := false }
  else if key = 'b'.toNat then some { o with size_units := 1 }
  else if key = 'v'.toNat then some { o with size_units := -1 }
  else if key = 'k'.toNat then some { o with size_units := 1024 }
  else if key = ARGP_KEY_ARG then
    match arg_num with
    | 0 => some { o with terse := true, period := wrapU32 arg, count := 0 }
    | 1 => some { o with terse := true, count := wrap32 arg }
    | 2 => some { o with terse := true, hdr_interval := wrapU32 arg }
    | _ => none
  else none

/-- An element of the command line as `argp_parse` hands it to `parse_opt`:
an option with its key, or a positional argument with its `atoi` value. -/
inductive Arg
  | opt (key : Int)
  | pos (val : Int)

/-- Modelled from its use in vmstat.c: the library function `argp_parse`
(argp.h, not under src/), which calls `parse_opt` on each element of the
command line in turn, numbering the positional arguments from 0, and gives up
at the first `ARGP_ERR_UNKNOWN`. -/
def argp_parse : List Arg → Nat → Opts → Option Opts
  | [], _, o => some o
  | Arg.opt key :: rest, n, o =>
      match parse_opt key 0 n o with
      | some o1 => argp_parse rest n o1
      | none => none
  | Arg.pos val :: rest, n, o =>
      match parse_opt ARGP_KEY_ARG val n o with
      | some o1 => argp_parse rest (n + 1) o1
      | none => none

/-! ## Output -/

/-- A line written to standard output: the empty line between pages, the
line of the constant fields, the header, a row of statistics, or a line of the
verbose format.  A value is kept with the index of its field; its formatting
by `print_val` is not modelled. -/
inductive Line
  | blank
  | consts (vals : List (Nat × Int))
  | heading (cols : List Nat)
  | stats (vals : List (Nat × Int))
  | verbose (k : Nat) (val : Int)
deriving DecidableEq, Repr

/-- How a run of `main` stands: it has called `exit (0)`, it has left through
`error (2, ...)` after a failed `vm_state_refresh`, `argp_parse` has rejected
the command line, it has trapped on a division, or it is still in its loop
when the observation ends. -/
inductive Status
  | exit0
  | exit2
  | usage
  | trap
  | running
deriving DecidableEq, Repr

/-- What a run has written, and how it stands. -/
structure Run where
  out : List Line
  status : Status

/-- The kernel as seen by `vm_state_refresh`: the state its `n`-th call
leaves, `none` when the call fails. -/
structure Env where
  refresh : Nat → Option vm_state

/-- The locals of the terse branch that change in its loops. -/
structure Loop where
  count : Int
  const_fields : Mask
  first_hdr : Bool
  refreshes : Nat
  state : vm_state
  prev_state : vm_state
  out : List Line

/-- The result of a piece of the terse branch: control goes on with the
locals `l`, or the process has ended. -/
inductive Step
  | next (l : Loop)
  | stop (r : Run)

/-- The index of each entry of `fields` (`field - fields`). -/
def fieldIndex : List (Nat × field) := fields.enum

/-- Lines 445-461: the constant fields still in `const_fields` are fetched in
turn; one that cannot be fetched (negative value) is dropped from the mask,
the others are printed.  The result is the new mask and the values printed,
or `none` when a fetch traps. -/
def constLine (state : vm_state) :
    List (Nat × field) → Mask → List (Nat × Int) → Option (Mask × List (Nat × Int))
  | [], m, acc => some (m, acc)
  | (k, f) :: rest, m, acc =>
      if m k then
        match vm_state_get_field state f with
        | none => none
        | some val =>
            if val < 0 then constLine state rest (fun j => m j && !decide (j = k)) acc
            else constLine state rest m (acc ++ [(k, val)])
      else constLine state rest m acc

/-- Lines 481-495: the values of one row: each selected field, less its
value in `prev_state` for a cumulative field after the first row of a page.
`none` when a fetch traps. -/
def statsRow (output_fields : Mask) (state prev_state : vm_state) (repeats : Nat) :
    List (Nat × field) → List (Nat × Int) → Option (List (Nat × Int))
  | [], acc => some acc
  | (k, f) :: rest, acc =>
      if output_fields k then
        match vm_state_get_field state f with
        | none => none
        | some val =>
            if repeats ≠ 0 ∧ f.change_type = field_change_type.CUMUL then
              match vm_state_get_field prev_state f with
              | none => none
              | some pv => statsRow output_fields state prev_state repeats rest
                  (acc ++ [(k, val - pv)])
            else statsRow output_fields state prev_state repeats rest (acc ++ [(k, val)])
      else statsRow output_fields state prev_state repeats rest acc

/-- Lines 475-507, the loop `for (repeats = 0; count && repeats < hdr_interval
&& count; repeats++, count--)`, with `n = hdr_interval - repeats` iterations
still allowed by the second test. -/
def rowLoop (env : Env) (output_fields : Mask) (period : Nat) :
    Nat → Nat → Loop → Step
  | 0, _, l => Step.next l
  | n + 1, repeats, l =>
      if l.count = 0 then Step.next l
      else
        match statsRow output_fields l.state l.prev_state repeats fieldIndex [] with
        | none => Step.stop { out := l.out, status := Status.trap }
        | some vals =>
            let l1 := { l with out := l.out ++ [Line.stats vals], prev_state := l.state }
            if period ≠ 0 then
              match env.refresh l1.refreshes with
              | none => Step.stop { out := l1.out, status := Status.exit2 }
              | some st =>
                  rowLoop env output_fields period n (repeats + 1)
                    { l1 with state := st, refreshes := l1.refreshes + 1,
                              count := wrap32 (l1.count - 1) }
            else
              rowLoop env output_fields period n (repeats + 1)
                { l1 with count := wrap32 (l1.count - 1) }

/-- Lines 434-473: the head of a page: the empty line (not before the first
page), the line of the constant fields, the header, and `prev_state = state`. -/
def pageHead (output_fields : Mask) (print_heading : Bool) (l : Loop) : Step :=
  let out1 := if l.first_hdr then l.out else l.out ++ [Line.blank]
  let l1 := { l with first_hdr := false, out := out1 }
  let r :=
    if l1.const_fields.isZero then some (l1.const_fields, ([] : List (Nat × Int)))
    else constLine l1.state fieldIndex l1.const_fields []
  match r with
  | none => Step.stop { out := l1.out, status := Status.trap }
  | some (m, vals) =>
      let out2 := if vals = [] then l1.out else l1.out ++ [Line.consts vals]
      let out3 :=
        if print_heading then
          out2 ++ [Line.heading ((fieldIndex.filter (fun p => output_fields p.1)).map (·.1))]
        else out2
      Step.next { l1 with const_fields := m, out := out3, prev_state := l1.state }

/-- Lines 432-509: the loop `do ... while (count)`, observed for at most
`fuel` pages. -/
def pageLoop (env : Env) (output_fields : Mask) (print_heading : Bool) (period hdr_interval : Nat) :
    Nat → Loop → Run
  | 0, l => { out := l.out, status := Status.running }
  | fuel + 1, l =>
      match pageHead output_fields print_heading l with
      | Step.stop r => r
      | Step.next l1 =>
          match rowLoop env output_fields period hdr_interval 0 l1 with
          | Step.stop r => r
          | Step.next l2 =>
              if l2.count ≠ 0 then
                pageLoop env output_fields print_heading period hdr_interval fuel l2
              else { out := l2.out, status := Status.exit0 }

/-- The mask of the selected fields that are `CONST` (lines 425-428). -/
def constFields (output_fields : Mask) : Mask :=
  fun k => fieldIndex.any (fun p => decide (p.1 = k) && output_fields k
    && decide (p.2.change_type = field_change_type.CONST))

/-- Lines 413-509: the terse branch, from the options and the state that the
first `vm_state_refresh` gave. -/
def terse (env : Env) (o : Opts) (state : vm_state) (fuel : Nat) : Run :=
  let count := if o.count = 0 then -1 else o.count
  let const_fields := constFields o.output_fields
  let output_fields : Mask := fun k => o.output_fields k && !const_fields k
  let hdr_interval :=
    if const_fields.isZero then o.hdr_interval else wrapU32 ((o.hdr_interval : Int) - 1)
  pageLoop env output_fields o.print_heading o.period hdr_interval fuel
    { count := count, const_fields := const_fields, first_hdr := true, refreshes := 1,
      state := state, prev_state := state, out := [] }

/-- Lines 510-541: the verbose branch: one line for each selected field. -/
def verboseLines (output_fields : Mask) (state : vm_state) :
    List (Nat × field) → List Line → Run
  | [], out => { out := out, status := Status.exit0 }
  | (k, f) :: rest, out =>
      if output_fields k then
        match vm_state_get_field state f with
        | none => { out := out, status := Status.trap }
        | some val => verboseLines output_fields state rest (out ++ [Line.verbose k val])
      else verboseLines output_fields state rest out

/-- The function `main`, on the command line `args`, observed for at most
`fuel` pages of terse output. -/
def main (env : Env) (args : List Arg) (fuel : Nat) : Run :=
  match argp_parse args 0 Opts.init with
  | none => { out := [], status := Status.usage }
  | some o =>
      let output_fields : Mask :=
        if o.output_fields.isZero then
          fun k => fieldIndex.any (fun p => decide (p.1 = k) && p.2.standard)
        else o.output_fields
      let o1 := { o with output_fields := output_fields }
      match env.refresh 0 with
      | none => { out := [], status := Status.exit2 }
      | some state =>
          if o1.terse then terse env o1 state fuel
          else verboseLines o1.output_fields state fieldIndex []

/-! ## Definitions the theorems about vmstat are stated with -/

/-- The rows of statistics of each page so far, latest page first: a header
opens a page, a row of statistics is counted on the page that is open. -/
def pageStep (acc : List Nat) : Line → List Nat
  | Line.heading _ => 0 :: acc
  | Line.stats _ =>
      match acc with
      | [] => []
      | n :: rest => (n + 1) :: rest
  | _ => acc

/-- The number of rows of statistics under each header of an output, in the
order of the pages. -/
def pageRows (out : List Line) : List Nat := (out.foldl pageStep []).reverse

/-- The number of rows of statistics in an output. -/
def rowCount (out : List Line) : Nat :=
  out.countP (fun l => match l with | Line.stats _ => true | _ => false)

/-- The number of headers in an output. -/
def headingCount (out : List Line) : Nat :=
  out.countP (fun l => match l with | Line.heading _ => true | _ => false)

/-- Fixture: a state of the kernel: 4096-byte pages, 1000 free pages, 40
cache hits in 50 lookups, no default pager. -/
def stSample : vm_state :=
  { vmstats :=
      { pagesize := 4096, free_count := 1000, active_count := 2000, inactive_count := 500,
        wire_count := 300, zero_fill_count := 10, reactivations := 1, pageins := 7,
        pageouts := 3, faults := 100, cow_faults := 20, lookups := 50, hits := 40 }
    def_pager_info := none }

/-- Fixture: a kernel whose statistics never change and never fail. -/
def envSteady : Env := { refresh := fun _ => some stSample }

/-- The key of the option that selects field number `which` (`-1 - which`). -/
def fieldKey (which : Nat) : Int := -1 - (which : Int)

/-- No fetch of a field selected in `sel` traps in the state `st`. -/
def safe (sel : Mask) (st : vm_state) : Bool :=
  fieldIndex.all (fun p => !sel p.1 || (vm_state_get_field st p.2).isSome)

/-- The rows the inner loop prints on one page, from the value of `count` at
the head of the page and the header interval `n` in force: `count` of them
when `count` is positive and below `n`, and `n` otherwise. -/
def rowsOf (count : Int) (n : Nat) : Nat :=
  if 0 ≤ count ∧ count < n then count.toNat else n

/-- The pages of `N` rows at `n` rows to the page: as many full pages as
fit, then the rows left over. -/
def chunks (n N : Nat) : List Nat :=
  List.replicate (N / n) n ++ (if N % n = 0 then [] else [N % n])

/-- The fields `main` displays: the selected ones, or the standard ones when
none is selected (lines 403-407). -/
def shown (o : Opts) : Mask :=
  if o.output_fields.isZero then
    fun k => fieldIndex.any (fun p => decide (p.1 = k) && p.2.standard)
  else o.output_fields

/-- The rows between two headers: the header interval, less one line when a
constant field is displayed. -/
def rowsPerPage (o : Opts) : Nat :=
  o.hdr_interval - (if (constFields (shown o)).isZero then 0 else 1)

/-- Fixture: a state of the kernel after 30 000 000 cache lookups that all hit. -/
def stManyHits : vm_state :=
  { stSample with vmstats := { stSample.vmstats with lookups := 30000000, hits := 30000000 } }

/-- Fixture: a state of the kernel before the first cache lookup. -/
def stNoLookups : vm_state :=
  { stSample with vmstats := { stSample.vmstats with lookups := 0, hits := 0 } }

/-- Fixture: the command line `vmstat --free 1 5 0`: the field `free` alone,
PERIOD 1, COUNT 5, HEADER_INTERVAL 0. -/
def argsFree0 : List Arg := [Arg.opt (fieldKey 2), Arg.pos 1, Arg.pos 5, Arg.pos 0]

/-- Fixture: the command line `vmstat 1 5 1`: the standard fields, PERIOD 1,
COUNT 5, HEADER_INTERVAL 1. -/
def argsStd1 : List Arg := [Arg.pos 1, Arg.pos 5, Arg.pos 1]

end Vmstat

namespace Pass5

/-! ## Theorems -/

theorem inodeStep_inosused (inodestate : Nat → InodeState) (a : InoAcc) (i k : Nat) :
    (inodeStep inodestate a i).inosused k
      = (a.inosused k || (decide (k = i) && (inodestate i).isUsed)) := by
  unfold inodeStep
  cases hs : inodestate i <;> by_cases hk : k = i <;> simp [setbit, InodeState.isUsed, hk]

theorem inodeStep_nifree (inodestate : Nat → InodeState) (a : InoAcc) (i : Nat) :
    (inodeStep inodestate a i).nifree
      = a.nifree - (if (inodestate i).isUsed then 1 else 0) := by
  unfold inodeStep
  cases hs : inodestate i <;> simp [InodeState.isUsed]

theorem inodeStep_ndir (inodestate : Nat → InodeState) (a : InoAcc) (i : Nat) :
    (inodeStep inodestate a i).ndir
      = a.ndir + (if (inodestate i).isDir then 1 else 0) := by
  unfold inodeStep
  cases hs : inodestate i <;> simp [InodeState.isDir]

theorem foldl_inodeStep_inosused (inodestate : Nat → InodeState) (a : InoAcc) (n k : Nat) :
    ((List.range n).foldl (inodeStep inodestate) a).inosused k
        = (a.inosused k || (decide (k < n) && (inodestate k).isUsed)) := by
  induction n with
  | zero => simp
  | succ n ih =>
    rw [List.range_succ, List.foldl_append]
    simp only [List.foldl_cons, List.foldl_nil]
    rw [inodeStep_inosused, ih]
    by_cases hk : k = n
    · subst hk; simp
    · have h1 : (k < n + 1) = (k < n) := by
        apply propext; omega
      simp [hk, h1]

theorem foldl_inodeStep_nifree (inodestate : Nat → InodeState) (a : InoAcc) (n : Nat) :
    ((List.range n).foldl (inodeStep inodestate) a).nifree
        = a.nifree - ((List.range n).countP (fun k => (inodestate k).isUsed) : Nat) := by
  induction n with
  | zero => simp
  | succ n ih =>
    rw [List.range_succ, List.foldl_append, List.countP_append]
    simp only [List.foldl_cons, List.foldl_nil]
    rw [inodeStep_nifree, ih]
    by_cases hu : (inodestate n).isUsed = true
    · simp [List.countP_cons, hu]; omega
    · simp [List.countP_cons, hu]

theorem foldl_inodeStep_ndir (inodestate : Nat → InodeState) (a : InoAcc) (n : Nat) :
    ((List.range n).foldl (inodeStep inodestate) a).ndir
        = a.ndir + ((List.range n).countP (fun k => (inodestate k).isDir) : Nat) := by
  induction n with
  | zero => simp
  | succ n ih =>
    rw [List.range_succ, List.foldl_append, List.countP_append]
    simp only [List.foldl_cons, List.foldl_nil]
    rw [inodeStep_ndir, ih]
    by_cases hu : (inodestate n).isDir = true
    · simp [List.countP_cons, hu]; omega
    · simp [List.countP_cons, hu]

/-- What the inode walk leaves in the inode map of group `c`. -/
theorem inodePass_inosused (fs : Fs) (inodestate : Nat → InodeState) (c k : Nat) :
    (inodePass fs inodestate c).inosused k
      = ((decide (k < fs.fs_ipg) && (inodestate k).isUsed)
          || (decide (c = 0) && decide (k < ROOTINO))) := by
  unfold inodePass
  by_cases hc : c = 0
  · simp only [hc, if_true, ROOTINO]
    have : List.range 2 = [0, 1] := by decide
    rw [this]
    simp only [List.foldl_cons, List.foldl_nil, rootStep, setbit]
    rw [foldl_inodeStep_inosused]
    by_cases h0 : k = 0
    · simp [h0]
    · by_cases h1 : k = 1
      · simp [h1]
      · have : ¬ k < 2 := by omega
        simp [h0, h1, this]
  · simp only [hc, if_false]
    rw [foldl_inodeStep_inosused]
    simp

/-- What the inode walk leaves in `cs_nifree` of group `c`. -/
theorem inodePass_nifree (fs : Fs) (inodestate : Nat → InodeState) (c : Nat) :
    (inodePass fs inodestate c).nifree
      = (fs.fs_ipg : Int)
        - ((List.range fs.fs_ipg).countP (fun k => (inodestate k).isUsed) : Nat)
        - (if c = 0 then 2 else 0) := by
  unfold inodePass
  by_cases hc : c = 0
  · simp only [hc, if_true, ROOTINO]
    have : List.range 2 = [0, 1] := by decide
    rw [this]
    simp only [List.foldl_cons, List.foldl_nil, rootStep]
    rw [foldl_inodeStep_nifree]
    dsimp only
    omega
  · simp only [hc, if_false]
    rw [foldl_inodeStep_nifree]
    dsimp only
    omega

theorem countP_range_guard (f : Nat → Bool) (n N : Nat) (h : n ≤ N) :
    (List.range N).countP (fun k => decide (k < n) && f k) = (List.range n).countP f := by
  obtain ⟨m, rfl⟩ := Nat.exists_eq_add_of_le h
  rw [List.range_add, List.countP_append]
  have h1 : (List.range n).countP (fun k => decide (k < n) && f k) = (List.range n).countP f := by
    apply List.countP_congr
    intro x hx
    have : x < n := List.mem_range.mp hx
    simp [this]
  have h2 : ((List.range m).map (fun x => n + x)).countP (fun k => decide (k < n) && f k) = 0 := by
    rw [List.countP_eq_zero]
    intro x hx
    obtain ⟨y, _, rfl⟩ := List.mem_map.mp hx
    simp
  rw [h1, h2, Nat.add_zero]

theorem countP_or_disjoint {α : Type} (p q : α → Bool) (l : List α)
    (h : ∀ x ∈ l, ¬ (p x = true ∧ q x = true)) :
    l.countP (fun x => p x || q x) = l.countP p + l.countP q := by
  induction l with
  | nil => simp
  | cons a l ih =>
    have ih1 := ih (fun x hx => h x (List.mem_cons_of_mem a hx))
    have ha := h a (List.mem_cons_self a l)
    simp only [List.countP_cons, ih1]
    cases hp : p a <;> cases hq : q a <;> simp_all <;> omega

/-- C1 (code_bug): the inode walk switches on `inodestate[i]` with the local
index `i`, not on the inode number `j = fs_ipg * c + i` it keeps alongside.
With two groups of four inodes and only inode 2 allocated, the walk of group
1 sets bit 2 although inode `1 * 4 + 2 = 6` is unallocated, and the map of
group 1 is that of group 0 but for the reserved inodes. -/
theorem C1_inode_walk_uses_local_index :
    isC1 (1 * fsC1.fs_ipg + 2) = InodeState.UNALLOC
    ∧ (inodePass fsC1 isC1 1).inosused 2 = true
    ∧ (inodePass fsC1 isC1 1).nifree = 3 := by
  decide

/-- C2 (counterexample): with inode 0 of group 0 classified `REG`, the walk
subtracts it at line 191 and again at line 199: `cs_nifree` is 5 although
only bits 0 and 1 are set among 8 inodes. -/
theorem C2_reserved_inode_subtracted_twice :
    (inodePass fsC2 isC2 0).nifree
      ≠ (fsC2.fs_ipg : Int) - (usedInodeBits fsC2 (inodePass fsC2 isC2 0).inosused : Nat) := by
  decide

/-- C2 (amended): the computed free-inode count is `fs_ipg` minus the number
of bits set in the computed inode map, for every group other than group 0,
and for group 0 when it has an inode and the states consulted for the
reserved inodes (below `ROOTINO`) are unallocated. -/
theorem C2_free_inode_count (fs : Fs) (inodestate : Nat → InodeState) (c : Nat)
    (h : c = 0 → 0 < fs.fs_ipg
      ∧ ∀ i, i < ROOTINO → i < fs.fs_ipg → inodestate i = InodeState.UNALLOC) :
    (inodePass fs inodestate c).nifree
      = (fs.fs_ipg : Int) - (usedInodeBits fs (inodePass fs inodestate c).inosused : Nat) := by
  have hN : fs.fs_ipg ≤ NBBY * howmany fs.fs_ipg NBBY := by
    unfold NBBY howmany; omega
  rw [inodePass_nifree]
  unfold usedInodeBits
  have hfun : (inodePass fs inodestate c).inosused
      = fun k => ((decide (k < fs.fs_ipg) && (inodestate k).isUsed)
          || (decide (c = 0) && decide (k < ROOTINO))) := by
    funext k; exact inodePass_inosused fs inodestate c k
  rw [hfun]
  by_cases hc : c = 0
  · obtain ⟨hpos, hres⟩ := h hc
    have hN2 : ROOTINO ≤ NBBY * howmany fs.fs_ipg NBBY := by
      unfold NBBY howmany ROOTINO; omega
    rw [countP_or_disjoint]
    · rw [countP_range_guard _ _ _ hN]
      have h2 : (List.range (NBBY * howmany fs.fs_ipg NBBY)).countP
          (fun k => decide (c = 0) && decide (k < ROOTINO)) = 2 := by
        have := countP_range_guard (fun _ => true) ROOTINO _ hN2
        simp only [Bool.and_true] at this
        simp only [hc, decide_True, Bool.true_and]
        rw [this]
        decide
      rw [h2]
      simp only [hc, if_true]
      push_cast
      ring
    · intro x _ hx
      simp only [Bool.and_eq_true, decide_eq_true_eq] at hx
      obtain ⟨⟨hx1, hx2⟩, _, hx3⟩ := hx
      have := hres x hx3 hx1
      rw [this] at hx2
      simp [InodeState.isUsed] at hx2
  · simp only [hc, decide_False, Bool.false_and, Bool.or_false, if_false]
    rw [countP_range_guard _ _ _ hN]
    ring

/-- C2 (witness): group 0 of the spec's scenario, 8 inodes with inode 2 a
directory and inode 3 a regular file: 4 inodes are free. -/
theorem C2_free_inode_count_witness :
    (inodePass fsScenario isScenario 0).nifree
        = (fsScenario.fs_ipg : Int)
          - (usedInodeBits fsScenario (inodePass fsScenario isScenario 0).inosused : Nat)
    ∧ (inodePass fsScenario isScenario 0).nifree = 4 :=
  ⟨C2_free_inode_count fsScenario isScenario 0 (fun _ => ⟨by decide, by
    intro i hi _
    have : i = 0 ∨ i = 1 := by unfold ROOTINO at hi; omega
    rcases this with rfl | rfl <;> rfl⟩), by decide⟩

theorem fragStep_snd (bmap : Nat → Bool) (d i : Nat) (p : (Nat → Bool) × Nat) (j : Nat) :
    (fragStep bmap d i p j).2 = p.2 + (if bmap (d + j) = true then 0 else 1) := by
  unfold fragStep
  by_cases hb : bmap (d + j) = true <;> simp [hb]

theorem fragStep_fst (bmap : Nat → Bool) (d i : Nat) (p : (Nat → Bool) × Nat) (j x : Nat) :
    (fragStep bmap d i p j).1 x = (p.1 x || (decide (x = i + j) && !bmap (d + j))) := by
  unfold fragStep
  by_cases hb : bmap (d + j) = true <;> by_cases hx : x = i + j <;> simp [hb, hx, setbit]

theorem foldl_fragStep_snd (bmap : Nat → Bool) (d i : Nat) (p : (Nat → Bool) × Nat) (n : Nat) :
    ((List.range n).foldl (fragStep bmap d i) p).2
      = p.2 + (List.range n).countP (fun j => !bmap (d + j)) := by
  induction n with
  | zero => simp
  | succ n ih =>
    rw [List.range_succ, List.foldl_append, List.countP_append]
    simp only [List.foldl_cons, List.foldl_nil]
    rw [fragStep_snd, ih]
    by_cases hb : bmap (d + n) = true
    · simp [hb]
    · simp [hb]; omega

theorem foldl_fragStep_fst (bmap : Nat → Bool) (d i : Nat) (p : (Nat → Bool) × Nat)
    (n x : Nat) :
    ((List.range n).foldl (fragStep bmap d i) p).1 x
      = (p.1 x || (decide (i ≤ x ∧ x < i + n) && !bmap (d + (x - i)))) := by
  induction n with
  | zero => simp
  | succ n ih =>
    rw [List.range_succ, List.foldl_append]
    simp only [List.foldl_cons, List.foldl_nil]
    rw [fragStep_fst, ih]
    by_cases hx : x = i + n
    · subst hx
      have h1 : ¬ (i + n < i + n) := by omega
      simp
    · have h1 : (i ≤ x ∧ x < i + (n + 1)) = (i ≤ x ∧ x < i + n) := by
        apply propext; omega
      simp [hx, h1]

theorem fragLoop_snd (fs : Fs) (bmap : Nat → Bool) (d i : Nat) (free : Nat → Bool) :
    (fragLoop fs bmap d i free).2 = freeFrags fs bmap d := by
  unfold fragLoop freeFrags
  rw [foldl_fragStep_snd]
  simp

theorem fragLoop_fst (fs : Fs) (bmap : Nat → Bool) (d i : Nat) (free : Nat → Bool) (x : Nat) :
    (fragLoop fs bmap d i free).1 x
      = (free x || (decide (i ≤ x ∧ x < i + fs.fs_frag) && !bmap (d + (x - i)))) := by
  unfold fragLoop
  rw [foldl_fragStep_fst]

theorem freeFrags_le (fs : Fs) (bmap : Nat → Bool) (d : Nat) :
    freeFrags fs bmap d ≤ fs.fs_frag := by
  unfold freeFrags
  have := List.countP_le_length (fun j => !bmap (d + j)) (l := List.range fs.fs_frag)
  simpa using this

theorem freeFrags_eq_zero (fs : Fs) (bmap : Nat → Bool) (d : Nat) :
    freeFrags fs bmap d = 0 ↔ ∀ j, j < fs.fs_frag → bmap (d + j) = true := by
  unfold freeFrags
  rw [List.countP_eq_zero]
  constructor
  · intro h j hj
    have := h j (List.mem_range.mpr hj)
    simpa using this
  · intro h j hj
    simp [h j (List.mem_range.mp hj)]

theorem freeFrags_eq_frag (fs : Fs) (bmap : Nat → Bool) (d : Nat) :
    freeFrags fs bmap d = fs.fs_frag ↔ ∀ j, j < fs.fs_frag → bmap (d + j) = false := by
  unfold freeFrags
  have hlen : (List.range fs.fs_frag).length = fs.fs_frag := List.length_range _
  constructor
  · intro h j hj
    have h2 : (List.range fs.fs_frag).countP (fun j => !bmap (d + j))
        = (List.range fs.fs_frag).length := by rw [hlen]; exact h
    rw [List.countP_eq_length] at h2
    have := h2 j (List.mem_range.mpr hj)
    simpa using this
  · intro h
    have h2 : (List.range fs.fs_frag).countP (fun j => !bmap (d + j))
        = (List.range fs.fs_frag).length := by
      rw [List.countP_eq_length]
      intro j hj
      simp [h j (List.mem_range.mp hj)]
    rw [h2, hlen]
theorem howmany_zero (f : Nat) (hf : 0 < f) : howmany 0 f = 0 := by
  unfold howmany
  apply Nat.div_eq_of_lt
  omega

theorem howmany_pos_eq (x f : Nat) (hf : 0 < f) (hx : 0 < x) :
    howmany x f = (x - 1) / f + 1 := by
  unfold howmany
  have : x + (f - 1) = (x - 1) + f := by omega
  rw [this, Nat.add_div_right _ hf]

theorem howmany_step (x f : Nat) (hf : 0 < f) (hx : 0 < x) :
    howmany x f = howmany (x - f) f + 1 := by
  rw [howmany_pos_eq x f hf hx]
  congr 1
  unfold howmany
  by_cases h : f ≤ x
  · have : x - f + (f - 1) = x - 1 := by omega
    rw [this]
  · have h1 : x - f = 0 := by omega
    rw [h1, Nat.zero_add, Nat.div_eq_of_lt (by omega), Nat.div_eq_of_lt (by omega)]

theorem blockIter_succ_left (fs : Fs) (cyl rpos : Nat → Nat) (bmap : Nat → Bool) (i d : Nat)
    (a : BlkAcc) (n : Nat) :
    blockIter fs cyl rpos bmap i d a (n + 1)
      = blockIter fs cyl rpos bmap (i + fs.fs_frag) (d + fs.fs_frag)
          (blockStep fs cyl rpos bmap a i d) n := by
  unfold blockIter
  rw [List.range_succ_eq_map, List.foldl_cons, List.foldl_map]
  simp only [Nat.zero_mul, Nat.add_zero]
  congr 1
  funext b m
  have h1 : i + (m + 1) * fs.fs_frag = i + fs.fs_frag + m * fs.fs_frag := by ring
  have h2 : d + (m + 1) * fs.fs_frag = d + fs.fs_frag + m * fs.fs_frag := by ring
  rw [Nat.succ_eq_add_one, h1, h2]

theorem blockIter_succ (fs : Fs) (cyl rpos : Nat → Nat) (bmap : Nat → Bool) (i d : Nat)
    (a : BlkAcc) (n : Nat) :
    blockIter fs cyl rpos bmap i d a (n + 1)
      = blockStep fs cyl rpos bmap (blockIter fs cyl rpos bmap i d a n)
          (i + n * fs.fs_frag) (d + n * fs.fs_frag) := by
  unfold blockIter
  rw [List.range_succ, List.foldl_append]
  rfl

/-- With a positive block size the walk ends, after `howmany (dmax - d, fs_frag)` blocks. -/
theorem blockLoop_eq (fs : Fs) (cyl rpos : Nat → Nat) (bmap : Nat → Bool) (dmax : Nat)
    (hf : 0 < fs.fs_frag) :
    ∀ (fuel i d : Nat) (a : BlkAcc), dmax - d ≤ fuel →
      blockLoop fs cyl rpos bmap dmax fuel i d a
        = some (blockIter fs cyl rpos bmap i d a (howmany (dmax - d) fs.fs_frag)) := by
  intro fuel
  induction fuel with
  | zero =>
    intro i d a h
    have h0 : dmax - d = 0 := by omega
    have h1 : ¬ d < dmax := by omega
    simp [blockLoop, h1, h0, howmany_zero _ hf, blockIter]
  | succ fuel ih =>
    intro i d a h
    by_cases h1 : d < dmax
    · have h2 : dmax - (d + fs.fs_frag) ≤ fuel := by omega
      have h3 : dmax - (d + fs.fs_frag) = dmax - d - fs.fs_frag := by omega
      simp only [blockLoop, h1, if_true]
      rw [ih _ _ _ h2, howmany_step (dmax - d) _ hf (by omega), blockIter_succ_left, h3]
    · have h0 : dmax - d = 0 := by omega
      simp [blockLoop, h1, h0, howmany_zero _ hf, blockIter]

theorem blockPass_eq (fs : Fs) (cyl rpos : Nat → Nat) (bmap : Nat → Bool) (c : Nat)
    (hf : 0 < fs.fs_frag) :
    blockPass fs cyl rpos bmap c
      = some (blockIter fs cyl rpos bmap 0 (cgbase fs c) blkAcc0 (blocksOf fs c)) := by
  unfold blockPass blocksOf
  exact blockLoop_eq fs cyl rpos bmap _ hf _ _ _ _ (le_refl _)

theorem blockStep_nbfree (fs : Fs) (cyl rpos : Nat → Nat) (bmap : Nat → Bool) (a : BlkAcc)
    (i d : Nat) :
    (blockStep fs cyl rpos bmap a i d).nbfree
      = a.nbfree + (if freeFrags fs bmap d = fs.fs_frag then 1 else 0) := by
  unfold blockStep
  simp only [fragLoop_snd]
  split_ifs <;> simp

theorem blockStep_nffree (fs : Fs) (cyl rpos : Nat → Nat) (bmap : Nat → Bool) (a : BlkAcc)
    (i d : Nat) :
    (blockStep fs cyl rpos bmap a i d).nffree
      = a.nffree + (if freeFrags fs bmap d = fs.fs_frag then 0 else (freeFrags fs bmap d : Int)) := by
  unfold blockStep
  simp only [fragLoop_snd]
  split_ifs <;> simp_all

theorem blockStep_blksfree (fs : Fs) (cyl rpos : Nat → Nat) (bmap : Nat → Bool) (a : BlkAcc)
    (i d x : Nat) :
    (blockStep fs cyl rpos bmap a i d).blksfree x
      = (a.blksfree x || (decide (i ≤ x ∧ x < i + fs.fs_frag) && !bmap (d + (x - i)))) := by
  unfold blockStep
  simp only [fragLoop_snd]
  split_ifs <;> simp only [fragLoop_fst]

theorem blockStep_frsum (fs : Fs) (cyl rpos : Nat → Nat) (bmap : Nat → Bool) (a : BlkAcc)
    (i d : Nat) :
    (blockStep fs cyl rpos bmap a i d).frsum
      = if freeFrags fs bmap d ≠ fs.fs_frag ∧ freeFrags fs bmap d ≠ 0 then
          ffs_fragacct fs (blkmap fs (fragLoop fs bmap d i a.blksfree).1 i) a.frsum 1
        else a.frsum := by
  unfold blockStep
  simp only [fragLoop_snd]
  split_ifs <;> simp_all

theorem blockIter_nbfree (fs : Fs) (cyl rpos : Nat → Nat) (bmap : Nat → Bool) (i d : Nat)
    (a : BlkAcc) (n : Nat) :
    (blockIter fs cyl rpos bmap i d a n).nbfree
      = a.nbfree + ((List.range n).countP
          (fun m => decide (freeFrags fs bmap (d + m * fs.fs_frag) = fs.fs_frag)) : Nat) := by
  induction n with
  | zero => simp [blockIter]
  | succ n ih =>
    rw [blockIter_succ, blockStep_nbfree, ih, List.range_succ, List.countP_append]
    by_cases h : freeFrags fs bmap (d + n * fs.fs_frag) = fs.fs_frag
    · simp [List.countP_cons, h]; omega
    · simp [List.countP_cons, h]

theorem blockIter_weighted (fs : Fs) (cyl rpos : Nat → Nat) (bmap : Nat → Bool) (i d : Nat)
    (a : BlkAcc) (n : Nat) :
    (blockIter fs cyl rpos bmap i d a n).nbfree * fs.fs_frag
        + (blockIter fs cyl rpos bmap i d a n).nffree
      = a.nbfree * fs.fs_frag + a.nffree
        + ((List.range (n * fs.fs_frag)).countP (fun x => !bmap (d + x)) : Nat) := by
  induction n with
  | zero => simp [blockIter]
  | succ n ih =>
    rw [blockIter_succ, blockStep_nbfree, blockStep_nffree]
    have hsplit : (List.range ((n + 1) * fs.fs_frag)).countP (fun x => !bmap (d + x))
        = (List.range (n * fs.fs_frag)).countP (fun x => !bmap (d + x))
          + freeFrags fs bmap (d + n * fs.fs_frag) := by
      have : (n + 1) * fs.fs_frag = n * fs.fs_frag + fs.fs_frag := by ring
      rw [this, List.range_add, List.countP_append, List.countP_map]
      unfold freeFrags
      congr 1
      apply List.countP_congr
      intro x _
      simp [Function.comp, Nat.add_assoc]
    rw [hsplit]
    by_cases h : freeFrags fs bmap (d + n * fs.fs_frag) = fs.fs_frag
    · simp only [h, if_true]
      push_cast
      linarith
    · simp only [h, if_false]
      push_cast
      linarith

theorem blockIter_blksfree (fs : Fs) (cyl rpos : Nat → Nat) (bmap : Nat → Bool) (i d : Nat)
    (a : BlkAcc) (n x : Nat) :
    (blockIter fs cyl rpos bmap i d a n).blksfree x
      = (a.blksfree x
          || (decide (i ≤ x ∧ x < i + n * fs.fs_frag) && !bmap (d + (x - i)))) := by
  induction n with
  | zero => simp [blockIter]
  | succ n ih =>
    rw [blockIter_succ, blockStep_blksfree, ih]
    by_cases h1 : i ≤ x ∧ x < i + n * fs.fs_frag
    · have h2 : i ≤ x ∧ x < i + (n + 1) * fs.fs_frag := by
        refine ⟨h1.1, ?_⟩
        have : (n + 1) * fs.fs_frag = n * fs.fs_frag + fs.fs_frag := by ring
        omega
      simp [h1, h2]
    · by_cases h3 : i + n * fs.fs_frag ≤ x ∧ x < i + n * fs.fs_frag + fs.fs_frag
      · have h2 : i ≤ x ∧ x < i + (n + 1) * fs.fs_frag := by
          have : (n + 1) * fs.fs_frag = n * fs.fs_frag + fs.fs_frag := by ring
          omega
        have h4 : d + n * fs.fs_frag + (x - (i + n * fs.fs_frag)) = d + (x - i) := by omega
        have h5 : ¬ x < i + n * fs.fs_frag := by omega
        simp [h2, h3, h4, h5]
      · have h2 : ¬ (i ≤ x ∧ x < i + (n + 1) * fs.fs_frag) := by
          have : (n + 1) * fs.fs_frag = n * fs.fs_frag + fs.fs_frag := by ring
          omega
        simp [h1, h2, h3]

theorem howmany_mul (f t : Nat) (hf : 0 < f) : howmany (f * t) f = t := by
  unfold howmany
  rw [Nat.mul_add_div hf, Nat.div_eq_of_lt (by omega), Nat.add_zero]

theorem roundup_aligned (f q size : Nat) (hf : 0 < f) (hq : f * q ≤ size) :
    f * q + howmany (size - f * q) f * f = (size + f - 1) / f * f := by
  unfold howmany
  have h1 : size - f * q + (f - 1) = (size + f - 1) - f * q := by omega
  have h2 : f * q ≤ size + f - 1 := by omega
  rw [h1, Nat.sub_mul_div _ _ _ h2]
  have h3 : q ≤ (size + f - 1) / f := by
    rw [Nat.le_div_iff_mul_le hf, Nat.mul_comm]; exact h2
  rw [Nat.sub_mul, Nat.mul_comm f q]
  have h4 : q * f ≤ (size + f - 1) / f * f := Nat.mul_le_mul_right f h3
  omega

/-- In a group that starts on a block boundary, the block map consulted by
the walk (after lines 93-96) shows as free exactly the fragments below `dmax`
that are free in the map the earlier passes produced. -/
theorem markPastEnd_aligned (fs : Fs) (bmap : Nat → Bool) (c : Nat)
    (hf : 0 < fs.fs_frag) (hdiv : fs.fs_frag ∣ fs.fs_fpg) (x : Nat)
    (hx : x < blocksOf fs c * fs.fs_frag) :
    (!(markPastEnd fs bmap (cgbase fs c + x)))
      = (decide (cgbase fs c + x < cgdmax fs c) && !bmap (cgbase fs c + x)) := by
  obtain ⟨t, ht⟩ := hdiv
  unfold blocksOf at hx
  by_cases hbig : cgbase fs c + fs.fs_fpg > fs.fs_size
  · have hdm : cgdmax fs c = fs.fs_size := by simp [cgdmax, hbig]
    rw [hdm] at hx ⊢
    by_cases hA : cgbase fs c + x < fs.fs_size
    · have : ¬ fs.fs_size ≤ cgbase fs c + x := by omega
      simp [markPastEnd, this, hA]
    · have hlt : cgbase fs c < fs.fs_size := by
        by_contra hcon
        have h0 : fs.fs_size - cgbase fs c = 0 := by omega
        rw [h0, howmany_zero _ hf] at hx
        omega
      have hbase : cgbase fs c = fs.fs_frag * (t * c) := by
        unfold cgbase; rw [ht, Nat.mul_assoc]
      have hr := roundup_aligned fs.fs_frag (t * c) fs.fs_size hf (by rw [← hbase]; omega)
      rw [← hbase] at hr
      have hmark : fs.fs_size ≤ cgbase fs c + x
          ∧ cgbase fs c + x < blknum fs (fs.fs_size + fs.fs_frag - 1) := by
        refine ⟨by omega, ?_⟩
        unfold blknum
        omega
      simp [markPastEnd, hmark, hA]
  · have hdm : cgdmax fs c = cgbase fs c + fs.fs_fpg := by simp [cgdmax, hbig]
    rw [hdm] at hx ⊢
    have h1 : cgbase fs c + fs.fs_fpg - cgbase fs c = fs.fs_frag * t := by omega
    rw [h1, howmany_mul _ _ hf] at hx
    have hx2 : x < fs.fs_fpg := by rw [ht, Nat.mul_comm]; exact hx
    have h2 : ¬ fs.fs_size ≤ cgbase fs c + x := by omega
    have h3 : cgbase fs c + x < cgbase fs c + fs.fs_fpg := by omega
    simp [markPastEnd, h2, h3]

/-- The last block visited ends at or after `dmax`. -/
theorem le_blocksOf_mul (fs : Fs) (c : Nat) (hf : 0 < fs.fs_frag) :
    cgdmax fs c - cgbase fs c ≤ blocksOf fs c * fs.fs_frag := by
  unfold blocksOf howmany
  have h := Nat.div_add_mod (cgdmax fs c - cgbase fs c + (fs.fs_frag - 1)) fs.fs_frag
  have h2 := Nat.mod_lt (cgdmax fs c - cgbase fs c + (fs.fs_frag - 1)) hf
  rw [Nat.mul_comm] at h
  omega

theorem cgdmax_eq_min (fs : Fs) (c : Nat) :
    cgdmax fs c = min (cgbase fs c + fs.fs_fpg) fs.fs_size := by
  unfold cgdmax
  split_ifs with h
  · rw [Nat.min_eq_right (by omega)]
  · rw [Nat.min_eq_left (by omega)]

/-- The aligned block walk: it ends, its weighted counters count the free
fragments of the group's range, and its free map holds them. -/
theorem blockPass_aligned (fs : Fs) (cyl rpos : Nat → Nat) (bmap : Nat → Bool) (c : Nat)
    (hf : 0 < fs.fs_frag) (hdiv : fs.fs_frag ∣ fs.fs_fpg) :
    ∃ a, blockPass fs cyl rpos (markPastEnd fs bmap) c = some a
      ∧ a.nbfree * fs.fs_frag + a.nffree
          = (freeFragments bmap (cgbase fs c) (cgdmax fs c) : Nat)
      ∧ ∀ x, a.blksfree x
          = (decide (x < cgdmax fs c - cgbase fs c) && !bmap (cgbase fs c + x)) := by
  refine ⟨_, blockPass_eq fs cyl rpos _ c hf, ?_, ?_⟩
  · rw [blockIter_weighted]
    have hc : (List.range (blocksOf fs c * fs.fs_frag)).countP
          (fun x => !(markPastEnd fs bmap (cgbase fs c + x)))
        = (List.range (blocksOf fs c * fs.fs_frag)).countP
          (fun x => decide (x < cgdmax fs c - cgbase fs c) && !bmap (cgbase fs c + x)) := by
      apply List.countP_congr
      intro x hx
      have hx2 := List.mem_range.mp hx
      rw [markPastEnd_aligned fs bmap c hf hdiv x hx2]
      have hd : decide (cgbase fs c + x < cgdmax fs c)
          = decide (x < cgdmax fs c - cgbase fs c) :=
        decide_eq_decide.mpr (by omega)
      rw [hd]
    rw [hc, countP_range_guard _ _ _ (le_blocksOf_mul fs c hf)]
    simp [blkAcc0, freeFragments]
  · intro x
    rw [blockIter_blksfree]
    simp only [blkAcc0, Bool.false_or, Nat.zero_add, Nat.sub_zero, Nat.zero_le, true_and]
    by_cases hx : x < blocksOf fs c * fs.fs_frag
    · rw [markPastEnd_aligned fs bmap c hf hdiv x hx]
      have hd : decide (cgbase fs c + x < cgdmax fs c)
          = decide (x < cgdmax fs c - cgbase fs c) :=
        decide_eq_decide.mpr (by omega)
      rw [hd]
      simp [hx]
    · have h1 := le_blocksOf_mul fs c hf
      have h2 : ¬ x < cgdmax fs c - cgbase fs c := by omega
      simp [hx, h2]

/-- C4: in a group whose `fs_fpg` is a multiple of `fs_frag`, the block walk
ends and `cs_nbfree * fs_frag + cs_nffree` is the number of fragments of
`[base, min (base + fs_fpg, fs_size))` that are unoccupied in the block map
handed to `pass5`. -/
theorem C4_weighted_free_count (fs : Fs) (cyl rpos : Nat → Nat) (bmap : Nat → Bool) (c : Nat)
    (hdiv : fs.fs_frag ∣ fs.fs_fpg) :
    ∃ a, blockPass fs cyl rpos (markPastEnd fs bmap) c = some a
      ∧ a.nbfree * fs.fs_frag + a.nffree
          = (freeFragments bmap (cgbase fs c)
              (min (cgbase fs c + fs.fs_fpg) fs.fs_size) : Nat) := by
  by_cases hf : 0 < fs.fs_frag
  · obtain ⟨a, h1, h2, _⟩ := blockPass_aligned fs cyl rpos bmap c hf hdiv
    exact ⟨a, h1, by rw [← cgdmax_eq_min]; exact h2⟩
  · have hf0 : fs.fs_frag = 0 := by omega
    have hfpg : fs.fs_fpg = 0 := by
      rw [hf0] at hdiv
      exact Nat.eq_zero_of_zero_dvd hdiv
    have hd : cgdmax fs c - cgbase fs c = 0 := by
      rw [cgdmax_eq_min, hfpg]
      omega
    have hlt : ¬ cgbase fs c < cgdmax fs c := by omega
    refine ⟨blkAcc0, ?_, ?_⟩
    · simp [blockPass, hd, blockLoop, hlt]
    · rw [← cgdmax_eq_min]
      simp [blkAcc0, freeFragments, hd]

/-- C4 (witness): the spec's scenario, where 4 divides 16. -/
theorem C4_weighted_free_count_witness :
    fsScenario.fs_frag ∣ fsScenario.fs_fpg
    ∧ ∃ a, blockPass fsScenario (fun _ => 0) (fun _ => 0)
          (markPastEnd fsScenario bmapScenario) 0 = some a
      ∧ a.nbfree * fsScenario.fs_frag + a.nffree
          = (freeFragments bmapScenario (cgbase fsScenario 0)
              (min (cgbase fsScenario 0 + fsScenario.fs_fpg) fsScenario.fs_size) : Nat) :=
  ⟨by decide, C4_weighted_free_count fsScenario _ _ bmapScenario 0 (by decide)⟩

/-- C5: in a group whose `fs_fpg` is a multiple of `fs_frag`, bit `i` of the
computed block-free map (`i < fs_fpg`) is set exactly when fragment
`dbase + i` lies below `fs_size` and is unoccupied in the block map handed to
`pass5`; and the free counters count exactly the bits set in that map, so no
fragment at or past `fs_size` is recorded free or counted. -/
theorem C5_block_free_map (fs : Fs) (cyl rpos : Nat → Nat) (bmap : Nat → Bool) (c i : Nat)
    (hdiv : fs.fs_frag ∣ fs.fs_fpg) (hi : i < fs.fs_fpg) :
    ∃ a, blockPass fs cyl rpos (markPastEnd fs bmap) c = some a
      ∧ (a.blksfree i = true
          ↔ cgbase fs c + i < fs.fs_size ∧ bmap (cgbase fs c + i) = false)
      ∧ a.nbfree * fs.fs_frag + a.nffree
          = ((List.range fs.fs_fpg).countP a.blksfree : Nat) := by
  have hf : 0 < fs.fs_frag := by
    rcases Nat.eq_zero_or_pos fs.fs_frag with h0 | h0
    · rw [h0] at hdiv
      have := Nat.eq_zero_of_zero_dvd hdiv
      omega
    · exact h0
  obtain ⟨a, h1, h2, h3⟩ := blockPass_aligned fs cyl rpos bmap c hf hdiv
  have hmin := cgdmax_eq_min fs c
  refine ⟨a, h1, ?_, ?_⟩
  · rw [h3]
    simp only [Bool.and_eq_true, decide_eq_true_eq, Bool.not_eq_true']
    constructor
    · rintro ⟨hx, hb⟩
      exact ⟨by omega, hb⟩
    · rintro ⟨hx, hb⟩
      exact ⟨by omega, hb⟩
  · rw [h2]
    have hfun : a.blksfree
        = fun x => decide (x < cgdmax fs c - cgbase fs c) && !bmap (cgbase fs c + x) := by
      funext x; exact h3 x
    rw [hfun, countP_range_guard _ _ _ (by omega)]
    rfl

/-- C5 (witness): fragment 9 of the spec's scenario. -/
theorem C5_block_free_map_witness :
    ∃ a, blockPass fsScenario (fun _ => 0) (fun _ => 0)
          (markPastEnd fsScenario bmapScenario) 0 = some a
      ∧ (a.blksfree 9 = true
          ↔ cgbase fsScenario 0 + 9 < fsScenario.fs_size
            ∧ bmapScenario (cgbase fsScenario 0 + 9) = false)
      ∧ a.nbfree * fsScenario.fs_frag + a.nffree
          = ((List.range fsScenario.fs_fpg).countP a.blksfree : Nat) :=
  C5_block_free_map fsScenario _ _ bmapScenario 0 9 (by decide) (by decide)

theorem blockAllFree_iff (fs : Fs) (bmap : Nat → Bool) (d : Nat) :
    blockAllFree fs bmap d = true ↔ ∀ j, j < fs.fs_frag → bmap (d + j) = false := by
  unfold blockAllFree
  rw [List.all_eq_true]
  constructor
  · intro h j hj
    have := h j (List.mem_range.mpr hj)
    simpa using this
  · intro h j hj
    simp [h j (List.mem_range.mp hj)]

/-- A block without a free fragment leaves the accumulator as it is. -/
theorem blockStep_none_free (fs : Fs) (cyl rpos : Nat → Nat) (bmap : Nat → Bool)
    (hf : 0 < fs.fs_frag) (b : BlkAcc) (i d : Nat) (h0 : freeFrags fs bmap d = 0) :
    blockStep fs cyl rpos bmap b i d = b := by
  have hall := (freeFrags_eq_zero fs bmap d).mp h0
  have hmap : (fragLoop fs bmap d i b.blksfree).1 = b.blksfree := by
    funext x
    rw [fragLoop_fst]
    by_cases hx : i ≤ x ∧ x < i + fs.fs_frag
    · have := hall (x - i) (by omega)
      simp [this]
    · simp [hx]
  unfold blockStep
  simp only [fragLoop_snd, h0, hmap]
  have hne : ¬ (0 = fs.fs_frag) := by omega
  simp [hne]

/-- C3: in a group whose `fs_fpg` is a multiple of the (positive) `fs_frag`,
the block walk ends and `cs_nbfree` is the number of blocks of `[dbase, dmax)`
all of whose fragments are unoccupied in the block map handed to `pass5`; and
a block without a free fragment changes nothing in the accumulator (no
counter, table or histogram entry, nor the map). -/
theorem C3_free_block_count (fs : Fs) (cyl rpos : Nat → Nat) (bmap : Nat → Bool) (c : Nat)
    (hf : 0 < fs.fs_frag) (hdiv : fs.fs_frag ∣ fs.fs_fpg) :
    (∃ a, blockPass fs cyl rpos (markPastEnd fs bmap) c = some a
      ∧ a.nbfree = (freeBlocks fs bmap c : Nat))
    ∧ ∀ (bm : Nat → Bool) (b : BlkAcc) (i d : Nat),
        (∀ j, j < fs.fs_frag → bm (d + j) = true) →
        blockStep fs cyl rpos bm b i d = b := by
  constructor
  · refine ⟨_, blockPass_eq fs cyl rpos _ c hf, ?_⟩
    rw [blockIter_nbfree]
    simp only [blkAcc0, Int.zero_add, Nat.cast_inj]
    unfold freeBlocks
    have hle : blocksOf fs c ≤ cgdmax fs c - cgbase fs c := by
      unfold blocksOf
      rcases Nat.eq_zero_or_pos (cgdmax fs c - cgbase fs c) with h0 | h0
      · rw [h0, howmany_zero _ hf]
      · rw [howmany_pos_eq _ _ hf h0]
        have := Nat.div_le_self (cgdmax fs c - cgbase fs c - 1) fs.fs_frag
        omega
    rw [← countP_range_guard _ _ _ hle]
    apply List.countP_congr
    intro m _
    by_cases hm : m < blocksOf fs c
    · simp only [hm, decide_True, Bool.true_and, decide_eq_true_eq, Bool.and_eq_true]
      rw [freeFrags_eq_frag, blockAllFree_iff]
      have hmf : m * fs.fs_frag + fs.fs_frag ≤ blocksOf fs c * fs.fs_frag := by
        have := Nat.mul_le_mul_right fs.fs_frag (Nat.succ_le_of_lt hm)
        rw [Nat.succ_mul] at this
        exact this
      have key : ∀ j, j < fs.fs_frag →
          ((markPastEnd fs bmap (cgbase fs c + m * fs.fs_frag + j) = false)
            ↔ (cgbase fs c + (m * fs.fs_frag + j) < cgdmax fs c
                ∧ bmap (cgbase fs c + m * fs.fs_frag + j) = false)) := by
        intro j hj
        have h := markPastEnd_aligned fs bmap c hf hdiv (m * fs.fs_frag + j) (by omega)
        rw [← Nat.add_assoc] at h
        constructor
        · intro hm0
          rw [hm0] at h
          simp only [Bool.not_false] at h
          have h2 := h.symm
          simp only [Bool.and_eq_true, decide_eq_true_eq, Bool.not_eq_true'] at h2
          exact ⟨by omega, h2.2⟩
        · rintro ⟨hlt, hb⟩
          have hd : decide (cgbase fs c + m * fs.fs_frag + j < cgdmax fs c) = true := by
            simp; omega
          rw [hd, hb] at h
          simpa using h
      constructor
      · intro h
        refine ⟨?_, fun j hj => ((key j hj).mp (h j hj)).2⟩
        have := ((key (fs.fs_frag - 1) (by omega)).mp (h _ (by omega))).1
        omega
      · rintro ⟨hle2, h⟩ j hj
        exact (key j hj).mpr ⟨by omega, h j hj⟩
    · have h1 := le_blocksOf_mul fs c hf
      have h2 : blocksOf fs c * fs.fs_frag ≤ m * fs.fs_frag :=
        Nat.mul_le_mul_right _ (by omega)
      have h3 : ¬ (cgbase fs c + m * fs.fs_frag + fs.fs_frag ≤ cgdmax fs c) := by omega
      simp [hm, h3]
  · intro bm b i d h
    exact blockStep_none_free fs cyl rpos bm hf b i d ((freeFrags_eq_zero fs bm d).mpr h)

/-- C3 (witness): the spec's scenario, with two free blocks. -/
theorem C3_free_block_count_witness :
    (∃ a, blockPass fsScenario (fun _ => 0) (fun _ => 0)
          (markPastEnd fsScenario bmapScenario) 0 = some a
      ∧ a.nbfree = (freeBlocks fsScenario bmapScenario 0 : Nat))
    ∧ ∀ (bm : Nat → Bool) (b : BlkAcc) (i d : Nat),
        (∀ j, j < fsScenario.fs_frag → bm (d + j) = true) →
        blockStep fsScenario (fun _ => 0) (fun _ => 0) bm b i d = b :=
  C3_free_block_count fsScenario _ _ bmapScenario 0 (by decide) (by decide)

theorem countP_range_succ_sub (P : Nat → Bool) (m k : Nat) :
    (List.range (m + 1 - k)).countP P
      = (List.range (m - k)).countP P + (if k ≤ m ∧ P (m - k) = true then 1 else 0) := by
  by_cases h : k ≤ m
  · have : m + 1 - k = (m - k) + 1 := by omega
    rw [this, List.range_succ, List.countP_append]
    by_cases hp : P (m - k) = true <;> simp [List.countP_cons, h, hp]
  · have h1 : m + 1 - k = 0 := by omega
    have h2 : m - k = 0 := by omega
    simp [h1, h2, h]

/-- When position `m` is in use, a run of exactly `k` ends there if and only
if the run the scan is in has length `k`. -/
theorem close_iff (b : Nat → Bool) (m r k : Nat) (hk : 1 ≤ k) (hr : r ≤ m)
    (hfree : ∀ q, m - r ≤ q → q < m → b q = true)
    (hleft : r = m ∨ b (m - r - 1) = false) (hm : b m = false) :
    (k ≤ m ∧ endedAt b k (m - k) = true) ↔ r = k := by
  unfold endedAt
  simp only [decide_eq_true_eq]
  constructor
  · rintro ⟨hkm, hall, hl, _⟩
    by_contra hne
    rcases Nat.lt_or_gt_of_ne hne with hlt | hgt
    · -- r < k: the fragment before the scan's run is in use but inside the k-run
      rcases hleft with h1 | h1
      · omega
      · have := hall (m - r - 1 - (m - k)) (by omega)
        have h2 : m - k + (m - r - 1 - (m - k)) = m - r - 1 := by omega
        rw [h2, h1] at this
        exact Bool.noConfusion this
    · -- k < r: the fragment before the k-run is free
      rcases hl with h1 | h1
      · omega
      · have := hfree (m - k - 1) (by omega) (by omega)
        rw [h1] at this
        exact Bool.noConfusion this
  · intro h
    subst h
    refine ⟨hr, ?_, ?_, ?_⟩
    · intro q hq
      exact hfree (m - r + q) (by omega) (by omega)
    · rcases hleft with h1 | h1
      · left; omega
      · right; exact h1
    · have : m - r + r = m := by omega
      rw [this]; exact hm

theorem fragacctStep_fst (b : Nat → Bool) (cnt : Int) (st : Nat × (Nat → Int)) (j : Nat) :
    (fragacctStep b cnt st j).1 = if b j = true then st.1 + 1 else 0 := by
  unfold fragacctStep
  by_cases h : b j = true <;> simp [h]

theorem fragacctStep_snd (b : Nat → Bool) (cnt : Int) (st : Nat × (Nat → Int)) (j k : Nat)
    (hk : 1 ≤ k) :
    (fragacctStep b cnt st j).2 k
      = st.2 k + (if b j = false ∧ st.1 = k then cnt else 0) := by
  unfold fragacctStep
  by_cases h : b j = true
  · simp [h]
  · have hb : b j = false := by simpa using h
    by_cases h0 : st.1 = 0
    · have : ¬ st.1 = k := by omega
      simp [hb, h0, this]
      intro h; omega
    · by_cases h1 : st.1 = k
      · simp only [hb, Bool.false_eq_true, if_false, h0]
        simp [bump, h1]
      · have h2 : ¬ k = st.1 := fun h => h1 h.symm
        simp [hb, h0, h1, h2, bump]

/-- The invariant of the scan of `ffs_fragacct` after `m` positions. -/
theorem fragacct_scan (b : Nat → Bool) (fl : Nat → Int) (cnt : Int) (k : Nat) (hk : 1 ≤ k) :
    ∀ m,
      ((List.range m).foldl (fragacctStep b cnt) (0, fl)).1 ≤ m
      ∧ (∀ q, m - ((List.range m).foldl (fragacctStep b cnt) (0, fl)).1 ≤ q → q < m →
          b q = true)
      ∧ (((List.range m).foldl (fragacctStep b cnt) (0, fl)).1 = m
          ∨ b (m - ((List.range m).foldl (fragacctStep b cnt) (0, fl)).1 - 1) = false)
      ∧ ((List.range m).foldl (fragacctStep b cnt) (0, fl)).2 k
          = fl k + cnt * ((List.range (m - k)).countP (endedAt b k) : Nat) := by
  intro m
  induction m with
  | zero => simp
  | succ m ih =>
    obtain ⟨h1, h2, h3, h4⟩ := ih
    rw [List.range_succ, List.foldl_append]
    simp only [List.foldl_cons, List.foldl_nil]
    generalize (List.range m).foldl (fragacctStep b cnt) (0, fl) = st at h1 h2 h3 h4 ⊢
    rw [fragacctStep_fst, fragacctStep_snd _ _ _ _ _ hk, h4, countP_range_succ_sub]
    by_cases hb : b m = true
    · have hnot : ¬ (k ≤ m ∧ endedAt b k (m - k) = true) := by
        rintro ⟨hkm, he⟩
        unfold endedAt at he
        simp only [decide_eq_true_eq] at he
        have h5 := he.2.2
        have : m - k + k = m := by omega
        rw [this, hb] at h5
        exact Bool.noConfusion h5
      simp only [hb, if_true, hnot, if_false]
      refine ⟨by omega, ?_, ?_, by simp⟩
      · intro q hq1 hq2
        by_cases hqm : q = m
        · rw [hqm]; exact hb
        · exact h2 q (by omega) (by omega)
      · rcases h3 with h3 | h3
        · left; omega
        · right
          have : m + 1 - (st.1 + 1) - 1 = m - st.1 - 1 := by omega
          rw [this]; exact h3
    · have hbf : b m = false := by simpa using hb
      have hc := close_iff b m st.1 k hk h1 h2 h3 hbf
      simp only [hbf, Bool.false_eq_true, if_false]
      refine ⟨by omega, ?_, ?_, ?_⟩
      · intro q hq1 hq2; omega
      · right; simpa using hbf
      · by_cases hr : st.1 = k
        · have := hc.mpr hr
          simp only [hbf, hr, this, and_self, if_true]
          push_cast
          ring
        · have : ¬ (k ≤ m ∧ endedAt b k (m - k) = true) := fun h => hr (hc.mp h)
          simp [hbf, hr, this]

/-- What `ffs_fragacct` adds to bucket `k`: `cnt` for every maximal run of
exactly `k` free fragments of the block. -/
theorem ffs_fragacct_eq (fs : Fs) (b : Nat → Bool) (fl : Nat → Int) (cnt : Int) (k : Nat)
    (hk : 1 ≤ k) (hend : b fs.fs_frag = false) :
    ffs_fragacct fs b fl cnt k
      = fl k + cnt * ((List.range fs.fs_frag).countP
          (fun p => isRunAt b fs.fs_frag p k) : Nat) := by
  obtain ⟨h1, h2, h3, h4⟩ := fragacct_scan b fl cnt k hk fs.fs_frag
  unfold ffs_fragacct
  generalize (List.range fs.fs_frag).foldl (fragacctStep b cnt) (0, fl) = st at h1 h2 h3 h4 ⊢
  have hc := close_iff b fs.fs_frag st.1 k hk h1 h2 h3 hend
  have hruns : (List.range fs.fs_frag).countP (fun p => isRunAt b fs.fs_frag p k)
      = (List.range (fs.fs_frag + 1 - k)).countP (endedAt b k) := by
    rw [← countP_range_guard (endedAt b k) (fs.fs_frag + 1 - k) fs.fs_frag (by omega)]
    apply List.countP_congr
    intro p _
    unfold isRunAt endedAt
    simp only [decide_eq_true_eq, Bool.and_eq_true]
    constructor
    · rintro ⟨ha, hb, hc, hd⟩
      refine ⟨by omega, hb, hc, ?_⟩
      rcases hd with hd | hd
      · rw [hd]; exact hend
      · exact hd
    · rintro ⟨ha, hb, hc, hd⟩
      exact ⟨by omega, hb, hc, Or.inr hd⟩
  rw [hruns, countP_range_succ_sub]
  by_cases h0 : st.1 = 0
  · have hne : ¬ st.1 = k := by omega
    have : ¬ (k ≤ fs.fs_frag ∧ endedAt b k (fs.fs_frag - k) = true) := fun h => hne (hc.mp h)
    simp [h0, h4, this]
  · by_cases hr : st.1 = k
    · have := hc.mpr hr
      have hk0 : ¬ k = 0 := by omega
      simp only [h0, if_false, this, and_self, if_true]
      rw [hr]
      simp only [bump, if_true, h4]
      push_cast
      ring
    · have : ¬ (k ≤ fs.fs_frag ∧ endedAt b k (fs.fs_frag - k) = true) := fun h => hr (hc.mp h)
      have h5 : ¬ k = st.1 := fun h => hr h.symm
      simp [h0, bump, h5, h4, this]

theorem isRunAt_congr (b1 b2 : Nat → Bool) (n p k : Nat)
    (h : ∀ j, j < n → b1 j = b2 j) (hp : p < n) :
    isRunAt b1 n p k = isRunAt b2 n p k := by
  unfold isRunAt
  apply decide_eq_decide.mpr
  constructor
  · rintro ⟨ha, hb, hc, hd⟩
    refine ⟨ha, ?_, ?_, ?_⟩
    · intro q hq; rw [← h _ (by omega)]; exact hb q hq
    · rcases hc with hc | hc
      · exact Or.inl hc
      · right; rw [← h _ (by omega)]; exact hc
    · rcases hd with hd | hd
      · exact Or.inl hd
      · by_cases he : p + k = n
        · exact Or.inl he
        · right; rw [← h _ (by omega)]; exact hd
  · rintro ⟨ha, hb, hc, hd⟩
    refine ⟨ha, ?_, ?_, ?_⟩
    · intro q hq; rw [h _ (by omega)]; exact hb q hq
    · rcases hc with hc | hc
      · exact Or.inl hc
      · right; rw [h _ (by omega)]; exact hc
    · rcases hd with hd | hd
      · exact Or.inl hd
      · by_cases he : p + k = n
        · exact Or.inl he
        · right; rw [h _ (by omega)]; exact hd

theorem blockIter_frsum (fs : Fs) (cyl rpos : Nat → Nat) (bmap : Nat → Bool) (d k : Nat)
    (hk : 1 ≤ k) (n : Nat) :
    (blockIter fs cyl rpos bmap 0 d blkAcc0 n).frsum k
      = ((((List.range n).map (fun m =>
          if isPartial fs bmap (d + m * fs.fs_frag) then
            runsInBlock fs bmap (d + m * fs.fs_frag) k
          else 0)).sum : Nat) : Int) := by
  induction n with
  | zero => simp [blockIter, blkAcc0]
  | succ n ih =>
    rw [blockIter_succ, blockStep_frsum, List.range_succ, List.map_append, List.sum_append]
    simp only [List.map_cons, List.map_nil, List.sum_cons, List.sum_nil, Nat.add_zero]
    by_cases hp : freeFrags fs bmap (d + n * fs.fs_frag) ≠ fs.fs_frag
        ∧ freeFrags fs bmap (d + n * fs.fs_frag) ≠ 0
    · have hp2 : isPartial fs bmap (d + n * fs.fs_frag) = true := by
        unfold isPartial; exact decide_eq_true hp
      rw [if_pos hp, if_pos hp2, ffs_fragacct_eq _ _ _ _ _ hk (by simp [blkmap]), ih]
      have hcong : (List.range fs.fs_frag).countP
            (fun p => isRunAt (blkmap fs (fragLoop fs bmap (d + n * fs.fs_frag)
                (0 + n * fs.fs_frag)
                (blockIter fs cyl rpos bmap 0 d blkAcc0 n).blksfree).1
                (0 + n * fs.fs_frag)) fs.fs_frag p k)
          = runsInBlock fs bmap (d + n * fs.fs_frag) k := by
        unfold runsInBlock
        apply List.countP_congr
        intro p hp3
        have hp4 := List.mem_range.mp hp3
        have := isRunAt_congr
          (blkmap fs (fragLoop fs bmap (d + n * fs.fs_frag) (0 + n * fs.fs_frag)
            (blockIter fs cyl rpos bmap 0 d blkAcc0 n).blksfree).1 (0 + n * fs.fs_frag))
          (fun j => !bmap (d + n * fs.fs_frag + j)) fs.fs_frag p k ?_ hp4
        · rw [this]
        · intro j hj
          unfold blkmap
          rw [fragLoop_fst, blockIter_blksfree]
          have h1 : ¬ (0 + n * fs.fs_frag + j < 0 + n * fs.fs_frag) := by omega
          have h2 : 0 + n * fs.fs_frag ≤ 0 + n * fs.fs_frag + j
              ∧ 0 + n * fs.fs_frag + j < 0 + n * fs.fs_frag + fs.fs_frag := by omega
          have h3 : 0 + n * fs.fs_frag + j - (0 + n * fs.fs_frag) = j := by omega
          simp [blkAcc0, hj, h1, h2, h3]
      rw [hcong]
      push_cast
      ring
    · have hp2 : isPartial fs bmap (d + n * fs.fs_frag) = false := by
        unfold isPartial; exact decide_eq_false hp
      rw [if_neg hp, ih]
      simp [hp2]

/-- C6: for a run length `k` with `1 <= k < fs_frag`, the block walk ends and
entry `k` of the fragment histogram `cg_frsum` is the number of maximal runs
of exactly `k` free fragments inside the partially free blocks of the group,
free meaning clear in the block map the walk consults (the map of the earlier
passes with the fragments past `fs_size` marked by lines 93-96).  In the
spec's scenario bucket 2 is 1 and the other buckets are 0. -/
theorem C6_fragment_histogram (fs : Fs) (cyl rpos : Nat → Nat) (bmap : Nat → Bool) (c k : Nat)
    (hk1 : 1 ≤ k) (hk2 : k < fs.fs_frag) :
    (∃ a, blockPass fs cyl rpos (markPastEnd fs bmap) c = some a
      ∧ a.frsum k = (fragRuns fs (markPastEnd fs bmap) c k : Nat))
    ∧ (∃ a, blockPass fsScenario cyl rpos (markPastEnd fsScenario bmapScenario) 0 = some a
      ∧ a.frsum 1 = 0 ∧ a.frsum 2 = 1 ∧ a.frsum 3 = 0) := by
  constructor
  · refine ⟨_, blockPass_eq fs cyl rpos _ c (by omega), ?_⟩
    rw [blockIter_frsum _ _ _ _ _ _ hk1]
    rfl
  · refine ⟨_, blockPass_eq fsScenario cyl rpos _ 0 (by decide), ?_, ?_, ?_⟩
    · rw [blockIter_frsum _ _ _ _ _ _ (by decide)]; decide
    · rw [blockIter_frsum _ _ _ _ _ _ (by decide)]; decide
    · rw [blockIter_frsum _ _ _ _ _ _ (by decide)]; decide

/-- C6 (witness): bucket 2 of the spec's scenario. -/
theorem C6_fragment_histogram_witness :
    (∃ a, blockPass fsScenario (fun _ => 0) (fun _ => 0)
          (markPastEnd fsScenario bmapScenario) 0 = some a
      ∧ a.frsum 2 = (fragRuns fsScenario (markPastEnd fsScenario bmapScenario) 0 2 : Nat))
    ∧ (∃ a, blockPass fsScenario (fun _ => 0) (fun _ => 0)
          (markPastEnd fsScenario bmapScenario) 0 = some a
      ∧ a.frsum 1 = 0 ∧ a.frsum 2 = 1 ∧ a.frsum 3 = 0) :=
  C6_fragment_histogram fsScenario _ _ bmapScenario 0 2 (by decide) (by decide)

theorem checkMagic_frame (c : Nat) (s : St) :
    (checkMagic c s).sblock = s.sblock ∧ (checkMagic c s).bmap = s.bmap
    ∧ (checkMagic c s).cgs = s.cgs ∧ (checkMagic c s).csums = s.csums
    ∧ (checkMagic c s).csumbuf = s.csumbuf ∧ (checkMagic c s).cstotal = s.cstotal
    ∧ (checkMagic c s).writesb = s.writesb ∧ (checkMagic c s).writecsum = s.writecsum
    ∧ (checkMagic c s).writes = s.writes ∧ (checkMagic c s).fs_cstotal = s.fs_cstotal
    ∧ (checkMagic c s).fs_ronly = s.fs_ronly ∧ (checkMagic c s).fs_fmod = s.fs_fmod := by
  unfold checkMagic
  split_ifs <;> simp

theorem checkMagic_reports (c : Nat) (s : St) (h : cg_chkmagic (s.cgs c) = true) :
    (checkMagic c s).reports = s.reports := by
  unfold checkMagic
  simp [h]

theorem group_of_runs (env : Env) (tmpl : Cg) (c : Nat) (s : St) (h : groupRuns env c s) :
    group env tmpl c s = Outcome.done (stepG env tmpl c s) := by
  obtain ⟨hm, hb⟩ := h
  obtain ⟨blk, hblk⟩ := Option.isSome_iff_exists.mp hb
  have hfr := checkMagic_frame c s
  unfold group stepG
  have hcond : (!cg_chkmagic (s.cgs c) && !env.pfatalReturns) = false := by
    rcases hm with hm | hm <;> simp [hm]
  simp only [hcond, hfr.1, hfr.2.1, hblk, Option.getD_some]
  rfl

theorem group_done_inv (env : Env) (tmpl : Cg) (c : Nat) (s s1 : St)
    (h : group env tmpl c s = Outcome.done s1) :
    groupRuns env c s ∧ s1 = stepG env tmpl c s := by
  have hfr := checkMagic_frame c s
  unfold group at h
  by_cases hcond : (!cg_chkmagic (s.cgs c) && !env.pfatalReturns) = true
  · simp [hcond] at h
  · simp only [hcond, hfr.1, hfr.2.1] at h
    cases hblk : blockPass s.sblock env.cbtocylno (env.cktorpos s.sblock.fs_nrpos) s.bmap c with
    | none => simp [hblk] at h
    | some blk =>
      simp only [hblk] at h
      have hm : cg_chkmagic (s.cgs c) = true ∨ env.pfatalReturns = true := by
        by_cases h1 : cg_chkmagic (s.cgs c) = true
        · exact Or.inl h1
        · by_cases h2 : env.pfatalReturns = true
          · exact Or.inr h2
          · simp [h1, h2] at hcond
      have hruns : groupRuns env c s := ⟨hm, by simp [hblk]⟩
      refine ⟨hruns, ?_⟩
      have := group_of_runs env tmpl c s hruns
      unfold group at this
      simp only [hcond, hfr.1, hfr.2.1, hblk] at this
      injection h with h
      injection this with this
      rw [← h, this]

theorem groupLoop_of_runs (env : Env) (tmpl : Cg) :
    ∀ (l : List Nat) (s : St),
      (∀ (pre : List Nat) (c : Nat) (post : List Nat), l = pre ++ c :: post →
        groupRuns env c (pre.foldl (fun t k => stepG env tmpl k t) s)) →
      groupLoop env tmpl l s = Outcome.done (l.foldl (fun t k => stepG env tmpl k t) s) := by
  intro l
  induction l with
  | nil => intro s _; rfl
  | cons c cs ih =>
    intro s h
    have h0 := h [] c cs rfl
    simp only [List.foldl_nil] at h0
    simp only [groupLoop, group_of_runs env tmpl c s h0, List.foldl_cons]
    apply ih
    intro pre k post hl
    have := h (c :: pre) k post (by rw [hl]; rfl)
    simpa using this

theorem groupLoop_done_inv (env : Env) (tmpl : Cg) :
    ∀ (l : List Nat) (s s1 : St), groupLoop env tmpl l s = Outcome.done s1 →
      s1 = l.foldl (fun t k => stepG env tmpl k t) s
      ∧ ∀ (pre : List Nat) (c : Nat) (post : List Nat), l = pre ++ c :: post →
        groupRuns env c (pre.foldl (fun t k => stepG env tmpl k t) s) := by
  intro l
  induction l with
  | nil =>
    intro s s1 h
    simp only [groupLoop] at h
    injection h with h
    refine ⟨h.symm, ?_⟩
    intro pre c post hl
    simp at hl
  | cons c cs ih =>
    intro s s1 h
    simp only [groupLoop] at h
    cases hg : group env tmpl c s with
    | hang => simp [hg] at h
    | exit s2 => simp [hg] at h
    | done s2 =>
      simp only [hg] at h
      obtain ⟨hr, hs2⟩ := group_done_inv env tmpl c s s2 hg
      obtain ⟨h1, h2⟩ := ih s2 s1 h
      subst hs2
      refine ⟨by simpa using h1, ?_⟩
      intro pre k post hl
      cases pre with
      | nil =>
        simp only [List.nil_append, List.cons.injEq] at hl
        obtain ⟨rfl, _⟩ := hl
        simpa using hr
      | cons p pre =>
        simp only [List.cons_append, List.cons.injEq] at hl
        obtain ⟨rfl, hl⟩ := hl
        simpa using h2 pre k post hl

theorem range_split (n : Nat) (pre : List Nat) (c : Nat) (post : List Nat)
    (h : List.range n = pre ++ c :: post) : pre = List.range c ∧ c < n := by
  have hlen : n = pre.length + (post.length + 1) := by
    have := congrArg List.length h
    simpa using this
  have hc : c = pre.length := by
    have h1 : (List.range n)[pre.length]? = some c := by
      rw [h, List.getElem?_append_right (le_refl _), Nat.sub_self]
      exact List.getElem?_cons_zero
    rw [List.getElem?_range (by omega)] at h1
    injection h1 with h1
    exact h1.symm
  have hpre : pre = List.range pre.length := by
    have h2 : (List.range n).take pre.length = pre := by
      rw [h]; simp
    rw [List.take_range] at h2
    rw [Nat.min_eq_left (by omega)] at h2
    exact h2.symm
  rw [hc]
  exact ⟨hpre, by omega⟩

theorem range_split_at (n c : Nat) (h : c < n) :
    ∃ post, List.range n = List.range c ++ c :: post := by
  obtain ⟨m, rfl⟩ : ∃ m, n = c + (m + 1) := ⟨n - c - 1, by omega⟩
  refine ⟨(List.range m).map (fun x => c + (x + 1)), ?_⟩
  rw [List.range_add, List.range_succ_eq_map]
  simp [Function.comp]

theorem groupsDone_succ (env : Env) (tmpl : Cg) (s : St) (n : Nat) :
    groupsDone env tmpl s (n + 1) = stepG env tmpl n (groupsDone env tmpl s n) := by
  unfold groupsDone
  rw [List.range_succ, List.foldl_append]
  rfl

/-- The loop over all groups returns exactly when every body returns, and
then leaves the state `groupsDone`. -/
theorem groupLoop_range (env : Env) (tmpl : Cg) (s s1 : St) (n : Nat) :
    groupLoop env tmpl (List.range n) s = Outcome.done s1
      ↔ (∀ c, c < n → groupRuns env c (groupsDone env tmpl s c))
        ∧ s1 = groupsDone env tmpl s n := by
  constructor
  · intro h
    obtain ⟨h1, h2⟩ := groupLoop_done_inv env tmpl _ s s1 h
    refine ⟨?_, h1⟩
    intro c hc
    obtain ⟨post, hp⟩ := range_split_at n c hc
    exact h2 (List.range c) c post hp
  · rintro ⟨h1, h2⟩
    rw [h2]
    apply groupLoop_of_runs
    intro pre c post hl
    obtain ⟨hpre, hc⟩ := range_split n pre c post hl
    rw [hpre]
    exact h1 c hc

theorem stepG_frame (env : Env) (tmpl : Cg) (c : Nat) (s : St) :
    (stepG env tmpl c s).sblock = s.sblock ∧ (stepG env tmpl c s).bmap = s.bmap
    ∧ (stepG env tmpl c s).csums = s.csums ∧ (stepG env tmpl c s).writesb = s.writesb
    ∧ (stepG env tmpl c s).fs_cstotal = s.fs_cstotal
    ∧ (stepG env tmpl c s).fs_ronly = s.fs_ronly
    ∧ (stepG env tmpl c s).fs_fmod = s.fs_fmod := by
  have h := checkMagic_frame c s
  unfold stepG groupBody
  simp only [h.1, h.2.1, h.2.2.2.1, h.2.2.2.2.2.2.1, h.2.2.2.2.2.2.2.2.2.1,
    h.2.2.2.2.2.2.2.2.2.2.1, h.2.2.2.2.2.2.2.2.2.2.2, and_self]

theorem stepG_cstotal (env : Env) (tmpl : Cg) (c : Nat) (s : St) :
    (stepG env tmpl c s).cstotal
      = addCsum s.cstotal (summaryOf (inodePass s.sblock env.inodestate c)
          ((blockPass s.sblock env.cbtocylno (env.cktorpos s.sblock.fs_nrpos) s.bmap c).getD
            blkAcc0)) := by
  have h := checkMagic_frame c s
  unfold stepG groupBody
  simp only [h.2.2.2.2.2.1]
  unfold computeWork fillNewcg summaryOf
  simp only [h.1]

theorem stepG_cgs_ne (env : Env) (tmpl : Cg) (c : Nat) (s : St) (k : Nat) (hk : k ≠ c) :
    (stepG env tmpl c s).cgs k = s.cgs k := by
  have h := checkMagic_frame c s
  unfold stepG groupBody
  simp only [h.2.2.1]
  split_ifs <;> simp [hk]

theorem stepG_csumbuf_ne (env : Env) (tmpl : Cg) (c : Nat) (s : St) (k : Nat) (hk : k ≠ c) :
    (stepG env tmpl c s).csumbuf k = s.csumbuf k := by
  have h := checkMagic_frame c s
  unfold stepG groupBody
  simp only [h.2.2.2.2.1]
  split_ifs <;> simp [hk]

theorem groupsDone_frame (env : Env) (tmpl : Cg) (s : St) (n : Nat) :
    (groupsDone env tmpl s n).sblock = s.sblock ∧ (groupsDone env tmpl s n).bmap = s.bmap
    ∧ (groupsDone env tmpl s n).csums = s.csums
    ∧ (groupsDone env tmpl s n).writesb = s.writesb
    ∧ (groupsDone env tmpl s n).fs_cstotal = s.fs_cstotal
    ∧ (groupsDone env tmpl s n).fs_ronly = s.fs_ronly
    ∧ (groupsDone env tmpl s n).fs_fmod = s.fs_fmod := by
  induction n with
  | zero => simp [groupsDone]
  | succ n ih =>
    rw [groupsDone_succ]
    have h := stepG_frame env tmpl n (groupsDone env tmpl s n)
    obtain ⟨a1, a2, a3, a4, a5, a6, a7⟩ := ih
    obtain ⟨b1, b2, b3, b4, b5, b6, b7⟩ := h
    exact ⟨b1.trans a1, b2.trans a2, b3.trans a3, b4.trans a4, b5.trans a5, b6.trans a6,
      b7.trans a7⟩

theorem groupsDone_later (env : Env) (tmpl : Cg) (s : St) (n k : Nat) (hk : n ≤ k) :
    (groupsDone env tmpl s n).cgs k = s.cgs k
    ∧ (groupsDone env tmpl s n).csumbuf k = s.csumbuf k := by
  induction n with
  | zero => simp [groupsDone]
  | succ n ih =>
    rw [groupsDone_succ]
    obtain ⟨a1, a2⟩ := ih (by omega)
    rw [stepG_cgs_ne _ _ _ _ _ (by omega), stepG_csumbuf_ne _ _ _ _ _ (by omega)]
    exact ⟨a1, a2⟩

theorem groupsDone_earlier (env : Env) (tmpl : Cg) (s : St) (c n : Nat) (hc : c < n) :
    (groupsDone env tmpl s n).cgs c = (groupsDone env tmpl s (c + 1)).cgs c
    ∧ (groupsDone env tmpl s n).csumbuf c = (groupsDone env tmpl s (c + 1)).csumbuf c := by
  induction n with
  | zero => omega
  | succ n ih =>
    by_cases h : c = n
    · subst h; exact ⟨rfl, rfl⟩
    · obtain ⟨a1, a2⟩ := ih (by omega)
      rw [groupsDone_succ, stepG_cgs_ne _ _ _ _ _ h, stepG_csumbuf_ne _ _ _ _ _ h]
      exact ⟨a1, a2⟩

/-- Whether the body of the loop returns for group `c` depends on the
initial state only: earlier groups leave the superblock, the block map and
the buffer of group `c` alone. -/
theorem groupRuns_groupsDone (env : Env) (tmpl : Cg) (s : St) (c : Nat) :
    groupRuns env c (groupsDone env tmpl s c) ↔ groupRuns env c s := by
  have h1 := groupsDone_frame env tmpl s c
  have h2 := groupsDone_later env tmpl s c c (le_refl _)
  unfold groupRuns
  rw [h1.1, h1.2.1, h2.1]

theorem setup_sblock (s : St) :
    (setup s).sblock.fs_postblformat = s.sblock.fs_postblformat
    ∧ (setup s).sblock.fs_ncg = s.sblock.fs_ncg
    ∧ (setup s).sblock.fs_ipg = s.sblock.fs_ipg
    ∧ (setup s).sblock.fs_fpg = s.sblock.fs_fpg
    ∧ (setup s).sblock.fs_frag = s.sblock.fs_frag
    ∧ (setup s).sblock.fs_size = s.sblock.fs_size := by
  unfold setup
  cases h : s.sblock.fs_postblformat <;> simp [h]

theorem computedCs_of_isSome (env : Env) (fs : Fs) (bmap : Nat → Bool) (c : Nat)
    (h : (blockPass fs env.cbtocylno (env.cktorpos fs.fs_nrpos) bmap c).isSome = true) :
    computedCs env fs bmap c = some (csOf env fs bmap c) := by
  obtain ⟨blk, hblk⟩ := Option.isSome_iff_exists.mp h
  simp [computedCs, csOf, hblk]

theorem sumCsum_succ (n : Nat) (g : Nat → Csum) :
    sumCsum (n + 1) g = addCsum (sumCsum n g) (g n) := by
  simp [sumCsum, addCsum, List.range_succ]

theorem groupsDone_cstotal (env : Env) (tmpl : Cg) (s : St) (n : Nat)
    (h0 : s.cstotal = ⟨0, 0, 0, 0⟩) :
    (groupsDone env tmpl s n).cstotal = sumCsum n (csOf env s.sblock s.bmap) := by
  induction n with
  | zero => simp [groupsDone, h0, sumCsum]
  | succ n ih =>
    have h := groupsDone_frame env tmpl s n
    rw [groupsDone_succ, stepG_cstotal, ih, h.1, h.2.1, sumCsum_succ]
    rfl

theorem finish_cstotal (env : Env) (nr : Nat) (s : St) : (finish env nr s).cstotal = s.cstotal := by
  rfl

theorem finish_cgs (env : Env) (nr : Nat) (s : St) : (finish env nr s).cgs = s.cgs := by
  rfl

/-- `pass5` returns exactly when the body of the loop returns for every
group, and then its result is `finish` of the state the loop leaves. -/
theorem pass5_done_iff (env : Env) (s s1 : St) :
    pass5 env s = Outcome.done s1
      ↔ (∀ c, c < s.sblock.fs_ncg → groupRuns env c (setup s))
        ∧ s1 = finish env s.sblock.fs_nrpos
            (groupsDone env (newcgInit env s.sblock) (setup s) s.sblock.fs_ncg) := by
  have hncg := (setup_sblock s).2.1
  unfold pass5
  simp only [hncg]
  constructor
  · intro h
    cases hg : groupLoop env (newcgInit env s.sblock) (List.range s.sblock.fs_ncg) (setup s) with
    | hang => simp [hg] at h
    | exit s2 => simp [hg] at h
    | done s2 =>
      simp only [hg] at h
      injection h with h
      obtain ⟨h1, h2⟩ := (groupLoop_range env _ _ _ _).mp hg
      refine ⟨fun c hc => (groupRuns_groupsDone env _ _ c).mp (h1 c hc), ?_⟩
      rw [← h, h2]
  · rintro ⟨h1, h2⟩
    have := (groupLoop_range env (newcgInit env s.sblock) (setup s) _ s.sblock.fs_ncg).mpr
      ⟨fun c hc => (groupRuns_groupsDone env _ _ c).mpr (h1 c hc), rfl⟩
    simp only [this, h2]

/-- On a valid input (positive block size, and good magic numbers or a
`pfatal` that returns) the body of the loop returns for every group. -/
theorem groupRuns_of_valid (env : Env) (s : St) (hf : 0 < s.sblock.fs_frag)
    (hm : env.pfatalReturns = true ∨ ∀ c, c < s.sblock.fs_ncg → cg_chkmagic (s.cgs c) = true)
    (c : Nat) (hc : c < s.sblock.fs_ncg) : groupRuns env c (setup s) := by
  have hfr := (setup_sblock s).2.2.2.2.1
  refine ⟨?_, ?_⟩
  · rcases hm with hm | hm
    · exact Or.inr hm
    · exact Or.inl (hm c hc)
  · rw [blockPass_eq _ _ _ _ _ (by rw [hfr]; exact hf)]
    rfl

/-- The group buffer of the scenario fixture carries the magic number. -/
theorem stScenario_magic :
    ∀ c, c < stScenario.sblock.fs_ncg → cg_chkmagic (stScenario.cgs c) = true := by
  intro c _
  simp [cg_chkmagic, stScenario]

/-- C7: on a valid input (positive block size; good magic numbers, or a
`pfatal` that returns) `pass5` returns, and the totals `cstotal` it has
accumulated are, field by field (directories, free blocks, free inodes, free
fragments), the sums over all groups of the summaries computed for the
groups; with no group they are zero. -/
theorem C7_totals_are_sums (env : Env) (s : St) (hf : 0 < s.sblock.fs_frag)
    (hm : env.pfatalReturns = true
      ∨ ∀ c, c < s.sblock.fs_ncg → cg_chkmagic (s.cgs c) = true) :
    ∃ s1 cs, pass5 env s = Outcome.done s1
      ∧ (∀ c, c < s.sblock.fs_ncg →
          computedCs env (setup s).sblock (setup s).bmap c = some (cs c))
      ∧ s1.cstotal = sumCsum s.sblock.fs_ncg cs
      ∧ sumCsum 0 cs = ⟨0, 0, 0, 0⟩ := by
  have hruns := groupRuns_of_valid env s hf hm
  refine ⟨_, csOf env (setup s).sblock (setup s).bmap,
    (pass5_done_iff env s _).mpr ⟨hruns, rfl⟩, ?_, ?_, rfl⟩
  · intro c hc
    exact computedCs_of_isSome env _ _ c (hruns c hc).2
  · rw [finish_cstotal, groupsDone_cstotal _ _ _ _ rfl]

/-- C7 (witness): the spec's scenario in preen mode: one group, whose
summary is 1 directory, 2 free blocks, 4 free inodes and 2 free fragments. -/
theorem C7_totals_are_sums_witness :
    ∃ s1 cs, pass5 envPreen stScenario = Outcome.done s1
      ∧ (∀ c, c < stScenario.sblock.fs_ncg →
          computedCs envPreen (setup stScenario).sblock (setup stScenario).bmap c
            = some (cs c))
      ∧ s1.cstotal = sumCsum stScenario.sblock.fs_ncg cs
      ∧ sumCsum 0 cs = ⟨0, 0, 0, 0⟩ :=
  C7_totals_are_sums envPreen stScenario (by decide) (Or.inr stScenario_magic)

theorem checkRotor_clean (env : Env) (c : Nat) (g0 : Cg) (w : Work) (h : w.clean g0) :
    (checkRotor env c w).clean g0 := by
  unfold checkRotor Work.clean at *
  split_ifs <;> simp_all

theorem checkFrotor_clean (env : Env) (c : Nat) (g0 : Cg) (w : Work) (h : w.clean g0) :
    (checkFrotor env c w).clean g0 := by
  unfold checkFrotor Work.clean at *
  split_ifs <;> simp_all

theorem checkIrotor_clean (env : Env) (c : Nat) (g0 : Cg) (w : Work) (h : w.clean g0) :
    (checkIrotor env c w).clean g0 := by
  unfold checkIrotor Work.clean at *
  split_ifs <;> simp_all

theorem checkMaps_clean (env : Env) (fs : Fs) (c : Nat) (g0 : Cg) (w : Work) (h : w.clean g0) :
    (checkMaps env fs c w).clean g0 := by
  unfold checkMaps Work.clean at *
  split_ifs <;> simp_all

theorem checkSummary_clean (env : Env) (fs : Fs) (c : Nat) (g0 : Cg) (w : Work)
    (h : w.clean g0) : (checkSummary env fs c w).clean g0 := by
  unfold checkSummary Work.clean at *
  split_ifs <;> simp_all

theorem checkBase_clean (env : Env) (fs : Fs) (c : Nat) (g0 : Cg) (w : Work) (h : w.clean g0) :
    (checkBase env fs c w).clean g0 := by
  unfold checkBase Work.clean at *
  split_ifs <;> simp_all

theorem checkMaps_newcg (env : Env) (fs : Fs) (c : Nat) (w : Work) :
    (checkMaps env fs c w).newcg = w.newcg := by
  unfold checkMaps
  split_ifs <;> rfl

theorem checkSummary_newcg (env : Env) (fs : Fs) (c : Nat) (w : Work) :
    (checkSummary env fs c w).newcg = w.newcg := by
  unfold checkSummary
  split_ifs <;> rfl

theorem checkBase_newcg (env : Env) (fs : Fs) (c : Nat) (w : Work) :
    (checkBase env fs c w).newcg = w.newcg := by
  unfold checkBase
  split_ifs <;> rfl

theorem computeWork_eq (env : Env) (tmpl : Cg) (c : Nat) (s : St) (blk : BlkAcc) :
    computeWork env tmpl c s blk
      = { rotorWork env tmpl c s with
          newcg := fillNewcg s.sblock (rotorWork env tmpl c s).newcg
            (inodePass s.sblock env.inodestate c) blk } := by
  rfl

theorem rotorWork_clean (env : Env) (tmpl : Cg) (c : Nat) (s : St) :
    (rotorWork env tmpl c s).clean (s.cgs c) := by
  unfold rotorWork
  apply checkIrotor_clean
  apply checkFrotor_clean
  apply checkRotor_clean
  intro _
  rfl

theorem checkedWork_newcg (env : Env) (tmpl : Cg) (c : Nat) (s : St) (blk : BlkAcc) :
    (checkedWork env tmpl c s blk).newcg = (computeWork env tmpl c s blk).newcg := by
  unfold checkedWork
  simp only [checkBase_newcg, checkSummary_newcg, checkMaps_newcg]
  split_ifs <;> rfl

theorem checkedWork_clean (env : Env) (tmpl : Cg) (c : Nat) (s : St) (blk : BlkAcc) :
    (checkedWork env tmpl c s blk).clean (s.cgs c) := by
  unfold checkedWork
  apply checkBase_clean
  apply checkSummary_clean
  apply checkMaps_clean
  have h := rotorWork_clean env tmpl c s
  rw [computeWork_eq]
  unfold Work.clean at *
  split_ifs <;> exact h

theorem groupBody_cgs_self (env : Env) (tmpl : Cg) (c : Nat) (s : St) (blk : BlkAcc) :
    (groupBody env tmpl c s blk).cgs c = (checkedWork env tmpl c s blk).cg := by
  have h := checkedWork_clean env tmpl c s blk
  have h2 : (groupBody env tmpl c s blk).cgs
      = if (checkedWork env tmpl c s blk).writecg = true then
          (fun k => if k = c then (checkedWork env tmpl c s blk).cg else s.cgs k)
        else s.cgs := rfl
  rw [h2]
  by_cases hw : (checkedWork env tmpl c s blk).writecg = true
  · simp [hw]
  · have hw2 : (checkedWork env tmpl c s blk).writecg = false := by simpa using hw
    simp [hw2, h hw2]

theorem any_range_eq_false (n : Nat) (p : Nat → Bool) :
    (List.range n).any p = false ↔ ∀ i, i < n → p i = false := by
  rw [List.any_eq_false]
  constructor
  · intro h i hi
    have := h i (List.mem_range.mpr hi)
    simpa using this
  · intro h i hi
    simp [h i (List.mem_range.mp hi)]

theorem mapsDiffer_eq_false_iff (fs : Fs) (a b : Cg) :
    mapsDiffer fs a b = false
      ↔ (∀ i, i < (mapDims fs).1 → a.cg_inosused i = b.cg_inosused i)
        ∧ (∀ i, i < (mapDims fs).2 → a.cg_blksfree i = b.cg_blksfree i)
        ∧ (fs.fs_postblformat = PostblFormat.FS_42POSTBLFMT → a.ocg_magic = b.ocg_magic) := by
  unfold mapsDiffer
  simp only [Bool.or_eq_false_iff, any_range_eq_false, Bool.and_eq_false_imp, bne_eq_false_iff_eq,
    beq_iff_eq]
  tauto

theorem sumDiffer_eq_false_iff (fs : Fs) (a b : Cg) :
    sumDiffer fs a b = false
      ↔ ∀ j, j < (sumDims fs).1 → a.cg_blktot j = b.cg_blktot j
          ∧ ∀ p, p < (sumDims fs).2 → a.cg_blks j p = b.cg_blks j p := by
  unfold sumDiffer
  simp only [any_range_eq_false, Bool.or_eq_false_iff, bne_eq_false_iff_eq]

theorem baseDiffer_eq_false_iff (fs : Fs) (a b : Cg) :
    baseDiffer fs a b = false
      ↔ a.cg_magic = b.cg_magic ∧ a.cg_time = b.cg_time ∧ a.cg_cgx = b.cg_cgx
        ∧ a.cg_ncyl = b.cg_ncyl ∧ a.cg_niblk = b.cg_niblk ∧ a.cg_ndblk = b.cg_ndblk
        ∧ a.cg_cs = b.cg_cs ∧ a.cg_rotor = b.cg_rotor ∧ a.cg_frotor = b.cg_frotor
        ∧ a.cg_irotor = b.cg_irotor
        ∧ (∀ k, k < MAXFRAG → a.cg_frsum k = b.cg_frsum k)
        ∧ (fs.fs_postblformat = PostblFormat.FS_DYNAMICPOSTBLFMT →
            a.cg_btotoff = b.cg_btotoff ∧ a.cg_boff = b.cg_boff
            ∧ a.cg_iusedoff = b.cg_iusedoff ∧ a.cg_freeoff = b.cg_freeoff
            ∧ a.cg_nextfreeoff = b.cg_nextfreeoff) := by
  unfold baseDiffer
  simp only [Bool.or_eq_false_iff, any_range_eq_false, Bool.and_eq_false_imp,
    bne_eq_false_iff_eq, beq_iff_eq]
  tauto

theorem mapsDiffer_copy (fs : Fs) (a b : Cg) : mapsDiffer fs a (mapsCopy fs a b) = false := by
  rw [mapsDiffer_eq_false_iff]
  unfold mapsCopy
  refine ⟨?_, ?_, ?_⟩
  · intro i hi; simp [hi]
  · intro i hi; simp [hi]
  · intro h; simp [h]

theorem sumDiffer_copy (fs : Fs) (a b : Cg) : sumDiffer fs a (sumCopy fs a b) = false := by
  rw [sumDiffer_eq_false_iff]
  unfold sumCopy
  intro j hj
  refine ⟨by simp [hj], ?_⟩
  intro p hp
  simp [hj, hp]

theorem baseDiffer_copy (fs : Fs) (a b : Cg) : baseDiffer fs a (baseCopy fs a b) = false := by
  rw [baseDiffer_eq_false_iff]
  unfold baseCopy
  refine ⟨rfl, rfl, rfl, rfl, rfl, rfl, rfl, rfl, rfl, rfl, ?_, ?_⟩
  · intro k hk; simp [hk]
  · intro h; simp [h]

theorem mapsDiffer_sumCopy (fs : Fs) (a a1 b : Cg) :
    mapsDiffer fs a (sumCopy fs a1 b) = mapsDiffer fs a b := rfl

theorem mapsDiffer_baseCopy (fs : Fs) (a a1 b : Cg) :
    mapsDiffer fs a (baseCopy fs a1 b) = mapsDiffer fs a b := rfl

theorem sumDiffer_baseCopy (fs : Fs) (a a1 b : Cg) :
    sumDiffer fs a (baseCopy fs a1 b) = sumDiffer fs a b := rfl

/-- After a check whose fix is accepted, the region of the buffer agrees with `newcg`. -/
theorem checkMaps_agree (env : Env) (fs : Fs) (c : Nat) (w : Work)
    (h : env.fix c Prompt.maps = true) :
    mapsDiffer fs (checkMaps env fs c w).newcg (checkMaps env fs c w).cg = false := by
  unfold checkMaps
  by_cases hd : mapsDiffer fs w.newcg w.cg = true
  · simp [hd, h, mapsDiffer_copy]
  · simp only [hd]
    simpa using hd

theorem checkSummary_agree (env : Env) (fs : Fs) (c : Nat) (w : Work)
    (h : env.fix c Prompt.summary = true) :
    sumDiffer fs (checkSummary env fs c w).newcg (checkSummary env fs c w).cg = false := by
  unfold checkSummary
  by_cases hd : sumDiffer fs w.newcg w.cg = true
  · simp [hd, h, sumDiffer_copy]
  · simp only [hd]
    simpa using hd

theorem checkBase_agree (env : Env) (fs : Fs) (c : Nat) (w : Work)
    (h : env.fix c Prompt.base = true) :
    baseDiffer fs (checkBase env fs c w).newcg (checkBase env fs c w).cg = false := by
  unfold checkBase
  by_cases hd : baseDiffer fs w.newcg w.cg = true
  · simp [hd, h, baseDiffer_copy]
  · simp only [hd]
    simpa using hd

theorem checkSummary_keeps_maps (env : Env) (fs : Fs) (c : Nat) (w : Work)
    (h : mapsDiffer fs w.newcg w.cg = false) :
    mapsDiffer fs (checkSummary env fs c w).newcg (checkSummary env fs c w).cg = false := by
  unfold checkSummary
  split_ifs <;> simp [h, mapsDiffer_sumCopy]

theorem checkBase_keeps_maps (env : Env) (fs : Fs) (c : Nat) (w : Work)
    (h : mapsDiffer fs w.newcg w.cg = false) :
    mapsDiffer fs (checkBase env fs c w).newcg (checkBase env fs c w).cg = false := by
  unfold checkBase
  split_ifs <;> simp [h, mapsDiffer_baseCopy]

theorem checkBase_keeps_sum (env : Env) (fs : Fs) (c : Nat) (w : Work)
    (h : sumDiffer fs w.newcg w.cg = false) :
    sumDiffer fs (checkBase env fs c w).newcg (checkBase env fs c w).cg = false := by
  unfold checkBase
  split_ifs <;> simp [h, sumDiffer_baseCopy]

/-- With every fix of the three group checks accepted, the buffer agrees
with `newcg` in all three regions. -/
theorem checkedWork_agree (env : Env) (tmpl : Cg) (c : Nat) (s : St) (blk : BlkAcc)
    (h1 : env.fix c Prompt.maps = true) (h2 : env.fix c Prompt.summary = true)
    (h3 : env.fix c Prompt.base = true) :
    mapsDiffer s.sblock (computeWork env tmpl c s blk).newcg
        (checkedWork env tmpl c s blk).cg = false
    ∧ sumDiffer s.sblock (computeWork env tmpl c s blk).newcg
        (checkedWork env tmpl c s blk).cg = false
    ∧ baseDiffer s.sblock (computeWork env tmpl c s blk).newcg
        (checkedWork env tmpl c s blk).cg = false := by
  rw [← checkedWork_newcg]
  unfold checkedWork
  refine ⟨?_, ?_, ?_⟩
  · apply checkBase_keeps_maps
    apply checkSummary_keeps_maps
    exact checkMaps_agree env _ c _ h1
  · apply checkBase_keeps_sum
    exact checkSummary_agree env _ c _ h2
  · exact checkBase_agree env _ c _ h3

theorem fix_of_preen (env : Env) (hp : env.preen = true) (c : Nat) (p : Prompt) :
    env.fix c p = true := by
  simp [Env.fix, hp]

theorem csDiffer_eq_false_iff (a b : Csum) : csDiffer a b = false ↔ a = b := by
  simp [csDiffer]

theorem computeWork_cs (env : Env) (tmpl : Cg) (c : Nat) (s : St) (blk : BlkAcc) :
    (computeWork env tmpl c s blk).newcg.cg_cs
      = summaryOf (inodePass s.sblock env.inodestate c) blk := rfl

theorem stepG_cgs_self (env : Env) (tmpl : Cg) (c : Nat) (s : St) :
    (stepG env tmpl c s).cgs c
      = (checkedWork env tmpl c (checkMagic c s)
          ((blockPass s.sblock env.cbtocylno (env.cktorpos s.sblock.fs_nrpos) s.bmap c).getD
            blkAcc0)).cg := by
  unfold stepG
  rw [groupBody_cgs_self]

/-- With the fix of the summary accepted, the entry of group `c` in the
summary array is the computed summary after the body of the loop. -/
theorem stepG_csumbuf_self (env : Env) (tmpl : Cg) (c : Nat) (s : St)
    (h : env.fix c Prompt.csum = true) :
    (stepG env tmpl c s).csumbuf c = csOf env s.sblock s.bmap c := by
  have hfr := checkMagic_frame c s
  unfold stepG groupBody
  simp only [computeWork_cs, hfr.1, hfr.2.2.2.2.1, h, Bool.and_true]
  unfold csOf
  by_cases hd : csDiffer (summaryOf (inodePass s.sblock env.inodestate c)
      ((blockPass s.sblock env.cbtocylno (env.cktorpos s.sblock.fs_nrpos) s.bmap c).getD
        blkAcc0)) (s.csumbuf c) = true
  · simp [hd]
  · have hd2 := (csDiffer_eq_false_iff _ _).mp (by simpa using hd)
    rw [if_neg hd]
    exact hd2.symm

/-- With the fix of the fixed part accepted, the summary in the buffer of
group `c` is the computed summary after the body of the loop. -/
theorem stepG_cg_cs_self (env : Env) (tmpl : Cg) (c : Nat) (s : St)
    (h1 : env.fix c Prompt.maps = true) (h2 : env.fix c Prompt.summary = true)
    (h3 : env.fix c Prompt.base = true) :
    ((stepG env tmpl c s).cgs c).cg_cs = csOf env s.sblock s.bmap c := by
  have hfr := checkMagic_frame c s
  rw [stepG_cgs_self]
  have hag := (checkedWork_agree env tmpl c (checkMagic c s)
    ((blockPass s.sblock env.cbtocylno (env.cktorpos s.sblock.fs_nrpos) s.bmap c).getD
      blkAcc0) h1 h2 h3).2.2
  rw [baseDiffer_eq_false_iff] at hag
  rw [← hag.2.2.2.2.2.2.1, computeWork_cs, hfr.1]
  rfl

theorem stepG_writecsum (env : Env) (tmpl : Cg) (c : Nat) (s : St)
    (h : (stepG env tmpl c s).writecsum = false) :
    s.writecsum = false ∧ (stepG env tmpl c s).csumbuf = s.csumbuf := by
  have hfr := checkMagic_frame c s
  unfold stepG groupBody at h ⊢
  simp only [hfr.2.2.2.2.1, hfr.2.2.2.2.2.2.2.1, Bool.or_eq_false_iff] at h ⊢
  obtain ⟨h1, h2⟩ := h
  simp [h1, h2]

theorem groupsDone_writecsum (env : Env) (tmpl : Cg) (s : St) (n : Nat)
    (h : (groupsDone env tmpl s n).writecsum = false) :
    (groupsDone env tmpl s n).csumbuf = s.csumbuf := by
  induction n with
  | zero => rfl
  | succ n ih =>
    rw [groupsDone_succ] at h ⊢
    obtain ⟨h1, h2⟩ := stepG_writecsum env tmpl n _ h
    rw [h2, ih h1]

theorem sumCsum_congr (n : Nat) (g1 g2 : Nat → Csum) (h : ∀ c, c < n → g1 c = g2 c) :
    sumCsum n g1 = sumCsum n g2 := by
  induction n with
  | zero => rfl
  | succ n ih =>
    rw [sumCsum_succ, sumCsum_succ, ih (fun c hc => h c (by omega)), h n (by omega)]

/-- After `pass5` the summary area on disk is the summary array in core: it
is written when it was changed. -/
theorem finish_csums (env : Env) (tmpl : Cg) (nr : Nat) (s : St) (n : Nat) :
    (finish env nr (groupsDone env tmpl (setup s) n)).csums
      = (groupsDone env tmpl (setup s) n).csumbuf := by
  have h0 : (finish env nr (groupsDone env tmpl (setup s) n)).csums
      = if (groupsDone env tmpl (setup s) n).writecsum = true then
          (groupsDone env tmpl (setup s) n).csumbuf
        else (groupsDone env tmpl (setup s) n).csums := rfl
  rw [h0]
  by_cases hw : (groupsDone env tmpl (setup s) n).writecsum = true
  · simp [hw]
  · have hw2 : (groupsDone env tmpl (setup s) n).writecsum = false := by simpa using hw
    rw [if_neg hw, groupsDone_writecsum _ _ _ _ hw2, (groupsDone_frame _ _ _ _).2.2.1]
    rfl

theorem finish_fs_cstotal (env : Env) (nr : Nat) (s : St)
    (h : env.fix (finish env nr s).sblock.fs_ncg Prompt.total = true) :
    (finish env nr s).fs_cstotal = s.cstotal := by
  have hn : (finish env nr s).sblock.fs_ncg
      = (match s.sblock.fs_postblformat with
          | PostblFormat.FS_42POSTBLFMT => { s.sblock with fs_nrpos := nr }
          | PostblFormat.FS_DYNAMICPOSTBLFMT => s.sblock).fs_ncg := rfl
  rw [hn] at h
  have h0 : (finish env nr s).fs_cstotal
      = if (csDiffer s.cstotal s.fs_cstotal
            && env.fix (match s.sblock.fs_postblformat with
                | PostblFormat.FS_42POSTBLFMT => { s.sblock with fs_nrpos := nr }
                | PostblFormat.FS_DYNAMICPOSTBLFMT => s.sblock).fs_ncg Prompt.total) = true
        then s.cstotal else s.fs_cstotal := rfl
  rw [h0, h, Bool.and_true]
  by_cases hd : csDiffer s.cstotal s.fs_cstotal = true
  · simp [hd]
  · have := (csDiffer_eq_false_iff _ _).mp (by simpa using hd)
    simp [hd, this]

/-- C8: on a valid input (positive block size; good magic numbers, or a
`pfatal` that returns) a run in preen mode returns, and afterwards the
cumulative totals `fs_cstotal` of the superblock are, field by field, the sum
over all groups of the summaries in the summary area on disk, and also the
sum of the summaries `cg_cs` in the group buffers on disk. -/
theorem C8_preen_conservation (env : Env) (s : St) (hp : env.preen = true)
    (hf : 0 < s.sblock.fs_frag)
    (hm : env.pfatalReturns = true
      ∨ ∀ c, c < s.sblock.fs_ncg → cg_chkmagic (s.cgs c) = true) :
    ∃ s1, pass5 env s = Outcome.done s1
      ∧ s1.fs_cstotal = sumCsum s.sblock.fs_ncg s1.csums
      ∧ s1.fs_cstotal = sumCsum s.sblock.fs_ncg (fun c => (s1.cgs c).cg_cs) := by
  have hruns := groupRuns_of_valid env s hf hm
  refine ⟨_, (pass5_done_iff env s _).mpr ⟨hruns, rfl⟩, ?_, ?_⟩
  · rw [finish_fs_cstotal _ _ _ (fix_of_preen env hp _ _), finish_csums,
      groupsDone_cstotal _ _ _ _ rfl]
    apply sumCsum_congr
    intro c hc
    rw [(groupsDone_earlier env _ _ c _ hc).2, groupsDone_succ,
      stepG_csumbuf_self _ _ _ _ (fix_of_preen env hp _ _),
      (groupsDone_frame _ _ _ _).1, (groupsDone_frame _ _ _ _).2.1]
  · rw [finish_fs_cstotal _ _ _ (fix_of_preen env hp _ _), finish_cgs,
      groupsDone_cstotal _ _ _ _ rfl]
    apply sumCsum_congr
    intro c hc
    rw [(groupsDone_earlier env _ _ c _ hc).1, groupsDone_succ,
      stepG_cg_cs_self _ _ _ _ (fix_of_preen env hp _ _) (fix_of_preen env hp _ _)
        (fix_of_preen env hp _ _),
      (groupsDone_frame _ _ _ _).1, (groupsDone_frame _ _ _ _).2.1]

/-- C8 (witness): the spec's scenario in preen mode. -/
theorem C8_preen_conservation_witness :
    ∃ s1, pass5 envPreen stScenario = Outcome.done s1
      ∧ s1.fs_cstotal = sumCsum stScenario.sblock.fs_ncg s1.csums
      ∧ s1.fs_cstotal = sumCsum stScenario.sblock.fs_ncg (fun c => (s1.cgs c).cg_cs) :=
  C8_preen_conservation envPreen stScenario rfl (by decide) (Or.inr stScenario_magic)

theorem checkRotor_newcg (env : Env) (c : Nat) (w : Work) :
    (checkRotor env c w).newcg
      = { w.newcg with
          cg_rotor := clampRotor (env.fix c Prompt.rotor) w.newcg.cg_rotor w.newcg.cg_ndblk } := by
  unfold checkRotor clampRotor
  by_cases h1 : w.newcg.cg_rotor > w.newcg.cg_ndblk
  <;> by_cases f1 : env.fix c Prompt.rotor = true
  <;> simp [h1, f1]

theorem checkRotor_cg (env : Env) (c : Nat) (w : Work) :
    (checkRotor env c w).cg
      = { w.cg with
          cg_rotor := if w.newcg.cg_rotor > w.newcg.cg_ndblk ∧ env.fix c Prompt.rotor = true
            then 0 else w.cg.cg_rotor } := by
  unfold checkRotor
  by_cases h1 : w.newcg.cg_rotor > w.newcg.cg_ndblk
  <;> by_cases f1 : env.fix c Prompt.rotor = true
  <;> simp [h1, f1]

theorem checkFrotor_newcg (env : Env) (c : Nat) (w : Work) :
    (checkFrotor env c w).newcg
      = { w.newcg with
          cg_frotor :=
            clampRotor (env.fix c Prompt.frotor) w.newcg.cg_frotor w.newcg.cg_ndblk } := by
  unfold checkFrotor clampRotor
  by_cases h1 : w.newcg.cg_frotor > w.newcg.cg_ndblk
  <;> by_cases f1 : env.fix c Prompt.frotor = true
  <;> simp [h1, f1]

theorem checkFrotor_cg (env : Env) (c : Nat) (w : Work) :
    (checkFrotor env c w).cg
      = { w.cg with
          cg_frotor := if w.newcg.cg_frotor > w.newcg.cg_ndblk ∧ env.fix c Prompt.frotor = true
            then 0 else w.cg.cg_frotor } := by
  unfold checkFrotor
  by_cases h1 : w.newcg.cg_frotor > w.newcg.cg_ndblk
  <;> by_cases f1 : env.fix c Prompt.frotor = true
  <;> simp [h1, f1]

theorem checkIrotor_newcg (env : Env) (c : Nat) (w : Work) :
    (checkIrotor env c w).newcg
      = { w.newcg with
          cg_irotor :=
            clampRotor (env.fix c Prompt.irotor) w.newcg.cg_irotor w.newcg.cg_niblk } := by
  unfold checkIrotor clampRotor
  by_cases h1 : w.newcg.cg_irotor > w.newcg.cg_niblk
  <;> by_cases f1 : env.fix c Prompt.irotor = true
  <;> simp [h1, f1]

theorem checkIrotor_cg (env : Env) (c : Nat) (w : Work) :
    (checkIrotor env c w).cg
      = { w.cg with
          cg_irotor := if w.newcg.cg_irotor > w.newcg.cg_niblk ∧ env.fix c Prompt.irotor = true
            then 0 else w.cg.cg_irotor } := by
  unfold checkIrotor
  by_cases h1 : w.newcg.cg_irotor > w.newcg.cg_niblk
  <;> by_cases f1 : env.fix c Prompt.irotor = true
  <;> simp [h1, f1]

theorem rotorWork_newcg (env : Env) (tmpl : Cg) (c : Nat) (s : St) :
    (rotorWork env tmpl c s).newcg
      = { newcgGroup s.sblock tmpl (s.cgs c) c with
          cg_rotor := clampRotor (env.fix c Prompt.rotor) (s.cgs c).cg_rotor (ndblkOf s.sblock c)
          cg_frotor :=
            clampRotor (env.fix c Prompt.frotor) (s.cgs c).cg_frotor (ndblkOf s.sblock c)
          cg_irotor := clampRotor (env.fix c Prompt.irotor) (s.cgs c).cg_irotor tmpl.cg_niblk } := by
  unfold rotorWork
  rw [checkIrotor_newcg, checkFrotor_newcg, checkRotor_newcg]
  rfl

theorem rotorWork_cg (env : Env) (tmpl : Cg) (c : Nat) (s : St) :
    (rotorWork env tmpl c s).cg
      = { s.cgs c with
          cg_rotor := clampRotor (env.fix c Prompt.rotor) (s.cgs c).cg_rotor (ndblkOf s.sblock c)
          cg_frotor :=
            clampRotor (env.fix c Prompt.frotor) (s.cgs c).cg_frotor (ndblkOf s.sblock c)
          cg_irotor := clampRotor (env.fix c Prompt.irotor) (s.cgs c).cg_irotor tmpl.cg_niblk } := by
  unfold rotorWork
  rw [checkIrotor_cg, checkFrotor_cg, checkFrotor_newcg, checkRotor_cg, checkRotor_newcg]
  rfl

theorem checkMaps_rotors (env : Env) (fs : Fs) (c : Nat) (w : Work) :
    rotors (checkMaps env fs c w).cg = rotors w.cg := by
  unfold checkMaps
  split_ifs <;> rfl

theorem checkSummary_rotors (env : Env) (fs : Fs) (c : Nat) (w : Work) :
    rotors (checkSummary env fs c w).cg = rotors w.cg := by
  unfold checkSummary
  split_ifs <;> rfl

theorem checkBase_rotors (env : Env) (fs : Fs) (c : Nat) (w : Work)
    (h : rotors w.cg = rotors w.newcg) :
    rotors (checkBase env fs c w).cg = rotors w.cg := by
  unfold checkBase
  split_ifs
  · rw [h]; rfl
  · rfl
  · rfl

/-- Whatever the operator answers to the later prompts, the cursors left in
the buffer of group `c` are those the rotor checks left. -/
theorem checkedWork_rotors (env : Env) (tmpl : Cg) (c : Nat) (s : St) (blk : BlkAcc) :
    rotors (checkedWork env tmpl c s blk).cg
      = (clampRotor (env.fix c Prompt.rotor) (s.cgs c).cg_rotor (ndblkOf s.sblock c),
         clampRotor (env.fix c Prompt.frotor) (s.cgs c).cg_frotor (ndblkOf s.sblock c),
         clampRotor (env.fix c Prompt.irotor) (s.cgs c).cg_irotor tmpl.cg_niblk) := by
  have hcg : (computeWork env tmpl c s blk).cg = (rotorWork env tmpl c s).cg := rfl
  have hnew : rotors (computeWork env tmpl c s blk).newcg
      = rotors (rotorWork env tmpl c s).newcg := rfl
  have hlink : rotors (rotorWork env tmpl c s).cg = rotors (rotorWork env tmpl c s).newcg := by
    rw [rotorWork_cg, rotorWork_newcg]; rfl
  unfold checkedWork
  rw [checkBase_rotors, checkSummary_rotors, checkMaps_rotors]
  · have : rotors (if csDiffer (computeWork env tmpl c s blk).newcg.cg_cs (s.csumbuf c) = true
          then { computeWork env tmpl c s blk with
                 reports := (computeWork env tmpl c s blk).reports ++ [Report.csumWrong c] }
          else computeWork env tmpl c s blk).cg = rotors (rotorWork env tmpl c s).cg := by
      split_ifs <;> rw [← hcg]
    rw [this, rotorWork_cg]
    rfl
  · rw [checkSummary_rotors, checkMaps_rotors, checkSummary_newcg, checkMaps_newcg]
    split_ifs
    · show rotors (computeWork env tmpl c s blk).cg = rotors (computeWork env tmpl c s blk).newcg
      rw [hcg, hnew, hlink]
    · rw [hcg, hnew, hlink]

theorem clampRotor_le (r b : Int) (hb : 0 ≤ b) : clampRotor true r b ≤ b := by
  unfold clampRotor
  split_ifs with h
  · exact hb
  · simp only [and_true, not_lt] at h
    exact h

theorem clampRotor_reset (r b : Int) (h : r > b) : clampRotor true r b = 0 := by
  unfold clampRotor
  simp [h]

theorem ndblkOf_nonneg (fs : Fs) (c : Nat) (h : cgbase fs c ≤ fs.fs_size) :
    0 ≤ ndblkOf fs c := by
  unfold ndblkOf cgdmax
  split_ifs <;> omega

theorem ndblkOf_setup (s : St) (c : Nat) : ndblkOf (setup s).sblock c = ndblkOf s.sblock c := by
  unfold ndblkOf cgdmax cgbase setup
  cases h : s.sblock.fs_postblformat <;> simp [h]

theorem newcgInit_niblk (env : Env) (fs : Fs) : (newcgInit env fs).cg_niblk = fs.fs_ipg := by
  unfold newcgInit
  cases h : fs.fs_postblformat <;> simp

theorem checkedWork_base (env : Env) (tmpl : Cg) (c : Nat) (s : St) (blk : BlkAcc)
    (h : env.fix c Prompt.base = true) :
    baseDiffer s.sblock (computeWork env tmpl c s blk).newcg
      (checkedWork env tmpl c s blk).cg = false := by
  rw [← checkedWork_newcg]
  unfold checkedWork
  exact checkBase_agree env _ c _ h

/-- The buffer of group `c` on disk after `pass5` is the one the body of the
loop for `c` left. -/
theorem pass5_cgs (env : Env) (s : St) (c : Nat) (hc : c < s.sblock.fs_ncg) :
    (finish env s.sblock.fs_nrpos
        (groupsDone env (newcgInit env s.sblock) (setup s) s.sblock.fs_ncg)).cgs c
      = (checkedWork env (newcgInit env s.sblock) c
          (checkMagic c (groupsDone env (newcgInit env s.sblock) (setup s) c))
          ((blockPass (setup s).sblock env.cbtocylno (env.cktorpos (setup s).sblock.fs_nrpos)
            (setup s).bmap c).getD blkAcc0)).cg := by
  rw [finish_cgs, (groupsDone_earlier env _ _ c _ hc).1, groupsDone_succ, stepG_cgs_self,
    (groupsDone_frame _ _ _ _).1, (groupsDone_frame _ _ _ _).2.1]

theorem checkMagic_groupsDone_cgs (env : Env) (tmpl : Cg) (s : St) (c : Nat) :
    (checkMagic c (groupsDone env tmpl s c)).cgs c = s.cgs c
    ∧ (checkMagic c (groupsDone env tmpl s c)).sblock = s.sblock := by
  rw [(checkMagic_frame _ _).2.2.1, (checkMagic_frame _ _).1,
    (groupsDone_later env tmpl s c c (le_refl _)).1, (groupsDone_frame _ _ _ _).1]
  exact ⟨rfl, rfl⟩

theorem clampRotor_false (r b : Int) : clampRotor false r b = r := by
  simp [clampRotor]

theorem checkMaps_cg_declined (env : Env) (fs : Fs) (c : Nat) (w : Work)
    (h : env.fix c Prompt.maps = false) : (checkMaps env fs c w).cg = w.cg := by
  unfold checkMaps
  simp only [h, Bool.false_eq_true, if_false]
  split_ifs <;> rfl

theorem checkSummary_cg_declined (env : Env) (fs : Fs) (c : Nat) (w : Work)
    (h : env.fix c Prompt.summary = false) : (checkSummary env fs c w).cg = w.cg := by
  unfold checkSummary
  simp only [h, Bool.false_eq_true, if_false]
  split_ifs <;> rfl

theorem checkBase_cg_declined (env : Env) (fs : Fs) (c : Nat) (w : Work)
    (h : env.fix c Prompt.base = false) : (checkBase env fs c w).cg = w.cg := by
  unfold checkBase
  simp only [h, Bool.false_eq_true, if_false]
  split_ifs <;> rfl

/-- When the operator declines every fix for group `c`, the buffer of the
group stays as it was read. -/
theorem checkedWork_cg_declined (env : Env) (tmpl : Cg) (c : Nat) (s : St) (blk : BlkAcc)
    (hd : ∀ p, env.fix c p = false) :
    (checkedWork env tmpl c s blk).cg = s.cgs c := by
  have hcg : (computeWork env tmpl c s blk).cg = s.cgs c := by
    show (rotorWork env tmpl c s).cg = s.cgs c
    rw [rotorWork_cg, hd, hd, hd, clampRotor_false, clampRotor_false, clampRotor_false]
  unfold checkedWork
  rw [checkBase_cg_declined _ _ _ _ (hd _), checkSummary_cg_declined _ _ _ _ (hd _),
    checkMaps_cg_declined _ _ _ _ (hd _)]
  split_ifs <;> exact hcg

theorem computeWork_ndblk (env : Env) (tmpl : Cg) (c : Nat) (s : St) (blk : BlkAcc) :
    (computeWork env tmpl c s blk).newcg.cg_ndblk = ndblkOf s.sblock c := by
  rw [computeWork_eq]
  simp only [fillNewcg, rotorWork_newcg, newcgGroup, ndblkOf]

theorem computeWork_niblk (env : Env) (tmpl : Cg) (c : Nat) (s : St) (blk : BlkAcc) :
    (computeWork env tmpl c s blk).newcg.cg_niblk = tmpl.cg_niblk := by
  rw [computeWork_eq]
  simp only [fillNewcg, rotorWork_newcg, newcgGroup]

/-- C10 (counterexample): the operator declines every fix on the spec's
scenario, whose group buffer has `cg_rotor = 100`: the run returns and the
rotor on disk is still 100, above the 16 data blocks of the group (and above
the `cg_ndblk` on disk, which stays 0). -/
theorem C10_declined_rotor_stays :
    ∃ s1, pass5 envDecline stScenario = Outcome.done s1
      ∧ (s1.cgs 0).cg_rotor = 100
      ∧ ndblkOf stScenario.sblock 0 = 16
      ∧ ¬ ((s1.cgs 0).cg_rotor ≤ ndblkOf stScenario.sblock 0)
      ∧ ¬ ((s1.cgs 0).cg_rotor ≤ (s1.cgs 0).cg_ndblk) := by
  refine ⟨_, (pass5_done_iff envDecline stScenario _).mpr
    ⟨groupRuns_of_valid envDecline stScenario (by decide) (Or.inr stScenario_magic), rfl⟩, ?_⟩
  have hcg : (finish envDecline stScenario.sblock.fs_nrpos
      (groupsDone envDecline (newcgInit envDecline stScenario.sblock) (setup stScenario)
        stScenario.sblock.fs_ncg)).cgs 0 = stScenario.cgs 0 := by
    rw [pass5_cgs envDecline stScenario 0 (by decide),
      checkedWork_cg_declined _ _ _ _ _ (fun p => by simp [Env.fix, envDecline, envPreen]),
      (checkMagic_groupsDone_cgs _ _ _ _).1]
    rfl
  rw [hcg]
  decide

/-- C10 (amended): on a valid input (positive block size; good magic numbers,
or a `pfatal` that returns; every group starting inside the filesystem), in
preen mode or with an operator who accepts every rotor fix, `pass5` returns and
for every group the rotor and frotor on disk are at most the data-block count
`dmax - dbase` of the group and the irotor at most `fs_ipg`; a value that was
out of range is zero; and where the fix of the fixed part is accepted (as in
preen mode) `cg_ndblk` and `cg_niblk` on disk are these two counts. -/
theorem C10_rotor_bounds (env : Env) (s : St) (hf : 0 < s.sblock.fs_frag)
    (hm : env.pfatalReturns = true
      ∨ ∀ c, c < s.sblock.fs_ncg → cg_chkmagic (s.cgs c) = true)
    (hgeo : ∀ c, c < s.sblock.fs_ncg → cgbase s.sblock c ≤ s.sblock.fs_size)
    (hacc : ∀ c, env.fix c Prompt.rotor = true ∧ env.fix c Prompt.frotor = true
      ∧ env.fix c Prompt.irotor = true) :
    ∃ s1, pass5 env s = Outcome.done s1
      ∧ ∀ c, c < s.sblock.fs_ncg →
        (s1.cgs c).cg_rotor ≤ ndblkOf s.sblock c
        ∧ (s1.cgs c).cg_frotor ≤ ndblkOf s.sblock c
        ∧ (s1.cgs c).cg_irotor ≤ s.sblock.fs_ipg
        ∧ ((s.cgs c).cg_rotor > ndblkOf s.sblock c → (s1.cgs c).cg_rotor = 0)
        ∧ ((s.cgs c).cg_frotor > ndblkOf s.sblock c → (s1.cgs c).cg_frotor = 0)
        ∧ ((s.cgs c).cg_irotor > s.sblock.fs_ipg → (s1.cgs c).cg_irotor = 0)
        ∧ (env.fix c Prompt.base = true →
            (s1.cgs c).cg_ndblk = ndblkOf s.sblock c
            ∧ (s1.cgs c).cg_niblk = s.sblock.fs_ipg) := by
  have hruns := groupRuns_of_valid env s hf hm
  refine ⟨_, (pass5_done_iff env s _).mpr ⟨hruns, rfl⟩, ?_⟩
  intro c hc
  obtain ⟨a1, a2, a3⟩ := hacc c
  have hnd := ndblkOf_nonneg s.sblock c (hgeo c hc)
  have hcgs := checkMagic_groupsDone_cgs env (newcgInit env s.sblock) (setup s) c
  have hr := checkedWork_rotors env (newcgInit env s.sblock) c
    (checkMagic c (groupsDone env (newcgInit env s.sblock) (setup s) c))
    ((blockPass (setup s).sblock env.cbtocylno (env.cktorpos (setup s).sblock.fs_nrpos)
      (setup s).bmap c).getD blkAcc0)
  rw [← pass5_cgs env s c hc, hcgs.1, hcgs.2, a1, a2, a3, ndblkOf_setup, newcgInit_niblk] at hr
  have hs : (setup s).cgs c = s.cgs c := rfl
  rw [hs] at hr
  unfold rotors at hr
  simp only [Prod.mk.injEq] at hr
  obtain ⟨r1, r2, r3⟩ := hr
  have hipg : (0 : Int) ≤ (s.sblock.fs_ipg : Int) := Int.natCast_nonneg _
  rw [r1, r2, r3]
  refine ⟨clampRotor_le _ _ hnd, clampRotor_le _ _ hnd, clampRotor_le _ _ hipg,
    clampRotor_reset _ _, clampRotor_reset _ _, clampRotor_reset _ _, ?_⟩
  intro hb
  have hbase := checkedWork_base env (newcgInit env s.sblock) c
    (checkMagic c (groupsDone env (newcgInit env s.sblock) (setup s) c))
    ((blockPass (setup s).sblock env.cbtocylno (env.cktorpos (setup s).sblock.fs_nrpos)
      (setup s).bmap c).getD blkAcc0) hb
  rw [← pass5_cgs env s c hc, baseDiffer_eq_false_iff] at hbase
  obtain ⟨_, _, _, _, h5, h6, _⟩ := hbase
  rw [← h5, ← h6, computeWork_ndblk, computeWork_niblk, hcgs.2, ndblkOf_setup,
    newcgInit_niblk]
  exact ⟨rfl, rfl⟩

/-- C10 (witness): the spec's scenario in preen mode, where the rotor 100 of
the group buffer is out of range. -/
theorem C10_rotor_bounds_witness :
    ∃ s1, pass5 envPreen stScenario = Outcome.done s1
      ∧ ∀ c, c < stScenario.sblock.fs_ncg →
        (s1.cgs c).cg_rotor ≤ ndblkOf stScenario.sblock c
        ∧ (s1.cgs c).cg_frotor ≤ ndblkOf stScenario.sblock c
        ∧ (s1.cgs c).cg_irotor ≤ stScenario.sblock.fs_ipg
        ∧ ((stScenario.cgs c).cg_rotor > ndblkOf stScenario.sblock c → (s1.cgs c).cg_rotor = 0)
        ∧ ((stScenario.cgs c).cg_frotor > ndblkOf stScenario.sblock c →
            (s1.cgs c).cg_frotor = 0)
        ∧ ((stScenario.cgs c).cg_irotor > stScenario.sblock.fs_ipg → (s1.cgs c).cg_irotor = 0)
        ∧ (envPreen.fix c Prompt.base = true →
            (s1.cgs c).cg_ndblk = ndblkOf stScenario.sblock c
            ∧ (s1.cgs c).cg_niblk = stScenario.sblock.fs_ipg) :=
  C10_rotor_bounds envPreen stScenario (by decide) (Or.inr stScenario_magic)
    (fun c hc => by
      have : c = 0 := by
        have h : c < 1 := hc
        omega
      subst this
      decide)
    (fun c => ⟨rfl, rfl, rfl⟩)

theorem clampRotor_in_range (b : Bool) (r bound : Int) (h : ¬ r > bound) :
    clampRotor b r bound = r := by
  simp [clampRotor, h]

theorem checkRotor_quiet (env : Env) (c : Nat) (w : Work)
    (h : ¬ w.newcg.cg_rotor > w.newcg.cg_ndblk) : checkRotor env c w = w := by
  simp [checkRotor, h]

theorem checkFrotor_quiet (env : Env) (c : Nat) (w : Work)
    (h : ¬ w.newcg.cg_frotor > w.newcg.cg_ndblk) : checkFrotor env c w = w := by
  simp [checkFrotor, h]

theorem checkIrotor_quiet (env : Env) (c : Nat) (w : Work)
    (h : ¬ w.newcg.cg_irotor > w.newcg.cg_niblk) : checkIrotor env c w = w := by
  simp [checkIrotor, h]

theorem checkMaps_quiet (env : Env) (fs : Fs) (c : Nat) (w : Work)
    (h : mapsDiffer fs w.newcg w.cg = false) : checkMaps env fs c w = w := by
  simp [checkMaps, h]

theorem checkSummary_quiet (env : Env) (fs : Fs) (c : Nat) (w : Work)
    (h : sumDiffer fs w.newcg w.cg = false) : checkSummary env fs c w = w := by
  simp [checkSummary, h]

theorem checkBase_quiet (env : Env) (fs : Fs) (c : Nat) (w : Work)
    (h : baseDiffer fs w.newcg w.cg = false) : checkBase env fs c w = w := by
  simp [checkBase, h]

/-- On a settled buffer the rotor checks change nothing. -/
theorem rotorWork_quiet (env : Env) (tmpl : Cg) (c : Nat) (s : St)
    (h1 : ¬ (s.cgs c).cg_rotor > ndblkOf s.sblock c)
    (h2 : ¬ (s.cgs c).cg_frotor > ndblkOf s.sblock c)
    (h3 : ¬ (s.cgs c).cg_irotor > tmpl.cg_niblk) :
    rotorWork env tmpl c s
      = { newcg := newcgGroup s.sblock tmpl (s.cgs c) c, cg := s.cgs c, writecg := false,
          reports := s.reports } := by
  unfold rotorWork
  rw [checkRotor_quiet _ _ _ h1, checkFrotor_quiet _ _ _ h2, checkIrotor_quiet _ _ _ h3]

/-- On a settled buffer whose summary-array entry is the computed summary,
the four checks change nothing either. -/
theorem checkedWork_quiet (env : Env) (tmpl : Cg) (c : Nat) (s : St) (blk : BlkAcc)
    (hs : Settled s.sblock tmpl c (inodePass s.sblock env.inodestate c) blk (s.cgs c))
    (hcs : s.csumbuf c = summaryOf (inodePass s.sblock env.inodestate c) blk) :
    checkedWork env tmpl c s blk
      = { newcg := canonCg s.sblock tmpl c (inodePass s.sblock env.inodestate c) blk (s.cgs c),
          cg := s.cgs c, writecg := false, reports := s.reports } := by
  obtain ⟨_, h1, h2, h3, h4, h5, h6⟩ := hs
  have hw : computeWork env tmpl c s blk
      = { newcg := canonCg s.sblock tmpl c (inodePass s.sblock env.inodestate c) blk (s.cgs c),
          cg := s.cgs c, writecg := false, reports := s.reports } := by
    rw [computeWork_eq, rotorWork_quiet env tmpl c s h1 h2 h3]
    simp only [canonCg]
  have hd : csDiffer
      (canonCg s.sblock tmpl c (inodePass s.sblock env.inodestate c) blk (s.cgs c)).cg_cs
      (s.csumbuf c) = false := by
    rw [csDiffer_eq_false_iff, hcs]
    simp only [canonCg, fillNewcg, summaryOf]
  unfold checkedWork
  simp only [hw, hd, Bool.false_eq_true, if_false]
  rw [checkMaps_quiet env s.sblock c
      { newcg := canonCg s.sblock tmpl c (inodePass s.sblock env.inodestate c) blk (s.cgs c),
        cg := s.cgs c, writecg := false, reports := s.reports } h4,
    checkSummary_quiet env s.sblock c
      { newcg := canonCg s.sblock tmpl c (inodePass s.sblock env.inodestate c) blk (s.cgs c),
        cg := s.cgs c, writecg := false, reports := s.reports } h5,
    checkBase_quiet env s.sblock c
      { newcg := canonCg s.sblock tmpl c (inodePass s.sblock env.inodestate c) blk (s.cgs c),
        cg := s.cgs c, writecg := false, reports := s.reports } h6]

theorem checkMagic_quiet (c : Nat) (s : St) (h : cg_chkmagic (s.cgs c) = true) :
    checkMagic c s = s := by
  simp [checkMagic, h]

theorem groupBody_fields (env : Env) (tmpl : Cg) (c : Nat) (s : St) (blk : BlkAcc) :
    (groupBody env tmpl c s blk).reports = (checkedWork env tmpl c s blk).reports
    ∧ (groupBody env tmpl c s blk).writes
        = (if (checkedWork env tmpl c s blk).writecg = true then s.writes ++ [WriteOp.cg c]
           else s.writes)
    ∧ (groupBody env tmpl c s blk).cgs
        = (if (checkedWork env tmpl c s blk).writecg = true then
            (fun k => if k = c then (checkedWork env tmpl c s blk).cg else s.cgs k)
           else s.cgs)
    ∧ (groupBody env tmpl c s blk).writecsum
        = (s.writecsum
            || (csDiffer (computeWork env tmpl c s blk).newcg.cg_cs (s.csumbuf c)
                && env.fix c Prompt.csum))
    ∧ (groupBody env tmpl c s blk).csumbuf
        = (if (csDiffer (computeWork env tmpl c s blk).newcg.cg_cs (s.csumbuf c)
                && env.fix c Prompt.csum) = true then
            (fun k => if k = c then (computeWork env tmpl c s blk).newcg.cg_cs
              else s.csumbuf k)
           else s.csumbuf) :=
  ⟨rfl, rfl, rfl, rfl, rfl⟩

/-- The body of the loop for a settled group only adds to `cstotal`. -/
theorem stepG_quiet (env : Env) (tmpl : Cg) (c : Nat) (s : St)
    (hs : Settled s.sblock tmpl c (inodePass s.sblock env.inodestate c)
      (blkOf env s.sblock s.bmap c) (s.cgs c))
    (hcs : s.csumbuf c = csOf env s.sblock s.bmap c) :
    (stepG env tmpl c s).reports = s.reports ∧ (stepG env tmpl c s).writes = s.writes
    ∧ (stepG env tmpl c s).writecsum = s.writecsum ∧ (stepG env tmpl c s).cgs = s.cgs
    ∧ (stepG env tmpl c s).csumbuf = s.csumbuf := by
  have hst : stepG env tmpl c s = groupBody env tmpl c s (blkOf env s.sblock s.bmap c) := by
    unfold stepG
    rw [checkMagic_quiet c s hs.1]
    rfl
  have hcs2 : s.csumbuf c
      = summaryOf (inodePass s.sblock env.inodestate c) (blkOf env s.sblock s.bmap c) := hcs
  rw [hst]
  generalize blkOf env s.sblock s.bmap c = blk at hs hcs2 ⊢
  have hq := checkedWork_quiet env tmpl c s blk hs hcs2
  have hd : csDiffer (computeWork env tmpl c s blk).newcg.cg_cs (s.csumbuf c) = false := by
    rw [csDiffer_eq_false_iff, hcs2, computeWork_cs]
  obtain ⟨e1, e2, e3, e4, e5⟩ := groupBody_fields env tmpl c s blk
  rw [e1, e2, e3, e4, e5, hq, hd]
  simp

/-- In preen mode the body of the loop leaves a settled buffer. -/
theorem checkedWork_settled (env : Env) (tmpl : Cg) (c : Nat) (s : St) (blk : BlkAcc)
    (hp : env.preen = true) (hnd : 0 ≤ ndblkOf s.sblock c) (hni : 0 ≤ tmpl.cg_niblk)
    (hmag : s.sblock.fs_postblformat = PostblFormat.FS_DYNAMICPOSTBLFMT →
      tmpl.cg_magic = CG_MAGIC) :
    Settled s.sblock tmpl c (inodePass s.sblock env.inodestate c) blk
      (checkedWork env tmpl c s blk).cg := by
  obtain ⟨hmaps, hsum, hbase⟩ := checkedWork_agree env tmpl c s blk
    (fix_of_preen env hp _ _) (fix_of_preen env hp _ _) (fix_of_preen env hp _ _)
  have hrot := checkedWork_rotors env tmpl c s blk
  rw [fix_of_preen env hp, fix_of_preen env hp, fix_of_preen env hp] at hrot
  have hN : (computeWork env tmpl c s blk).newcg
      = fillNewcg s.sblock
          { newcgGroup s.sblock tmpl (s.cgs c) c with
            cg_rotor := clampRotor true (s.cgs c).cg_rotor (ndblkOf s.sblock c)
            cg_frotor := clampRotor true (s.cgs c).cg_frotor (ndblkOf s.sblock c)
            cg_irotor := clampRotor true (s.cgs c).cg_irotor tmpl.cg_niblk }
          (inodePass s.sblock env.inodestate c) blk := by
    rw [computeWork_eq, rotorWork_newcg, fix_of_preen env hp, fix_of_preen env hp,
      fix_of_preen env hp]
  rw [hN] at hmaps hsum hbase
  generalize (checkedWork env tmpl c s blk).cg = g at hmaps hsum hbase hrot ⊢
  generalize inodePass s.sblock env.inodestate c = ino at hmaps hsum hbase ⊢
  unfold rotors at hrot
  simp only [Prod.mk.injEq] at hrot
  obtain ⟨r1, r2, r3⟩ := hrot
  have hb := (baseDiffer_eq_false_iff _ _ _).mp hbase
  have ht : g.cg_time = (s.cgs c).cg_time := hb.2.1.symm
  have hcanon : canonCg s.sblock tmpl c ino blk g
      = fillNewcg s.sblock
          { newcgGroup s.sblock tmpl (s.cgs c) c with
            cg_rotor := clampRotor true (s.cgs c).cg_rotor (ndblkOf s.sblock c)
            cg_frotor := clampRotor true (s.cgs c).cg_frotor (ndblkOf s.sblock c)
            cg_irotor := clampRotor true (s.cgs c).cg_irotor tmpl.cg_niblk }
          ino blk := by
    simp only [canonCg, newcgGroup, ht, r1, r2, r3]
  have hmagic : cg_chkmagic g = true := by
    cases hfmt : s.sblock.fs_postblformat with
    | FS_42POSTBLFMT =>
      have h3 := ((mapsDiffer_eq_false_iff _ _ _).mp hmaps).2.2 hfmt
      simp only [fillNewcg, hfmt, if_true] at h3
      simp [cg_chkmagic, ← h3]
    | FS_DYNAMICPOSTBLFMT =>
      have h1 := hb.1
      simp only [fillNewcg, newcgGroup] at h1
      rw [hmag hfmt] at h1
      simp [cg_chkmagic, ← h1]
  refine ⟨hmagic, ?_, ?_, ?_, ?_, ?_, ?_⟩
  · rw [r1]; exact not_lt.mpr (clampRotor_le _ _ hnd)
  · rw [r2]; exact not_lt.mpr (clampRotor_le _ _ hnd)
  · rw [r3]; exact not_lt.mpr (clampRotor_le _ _ hni)
  · rw [hcanon]; exact hmaps
  · rw [hcanon]; exact hsum
  · rw [hcanon]; exact hbase

theorem markPastEnd_idem (fs : Fs) (bmap : Nat → Bool) :
    markPastEnd fs (markPastEnd fs bmap) = markPastEnd fs bmap := by
  funext k
  unfold markPastEnd
  split_ifs <;> rfl

theorem newcgInit_magic (env : Env) (fs : Fs)
    (h : fs.fs_postblformat = PostblFormat.FS_DYNAMICPOSTBLFMT) :
    (newcgInit env fs).cg_magic = CG_MAGIC := by
  unfold newcgInit
  simp [h]

/-- After `pass5` the superblock geometry is as before: `fs_nrpos` is restored. -/
theorem pass5_sblock (env : Env) (s : St) (G : St) (hG : G.sblock = (setup s).sblock) :
    (finish env s.sblock.fs_nrpos G).sblock = s.sblock := by
  have h0 : (finish env s.sblock.fs_nrpos G).sblock
      = (match G.sblock.fs_postblformat with
          | PostblFormat.FS_42POSTBLFMT => { G.sblock with fs_nrpos := s.sblock.fs_nrpos }
          | PostblFormat.FS_DYNAMICPOSTBLFMT => G.sblock) := rfl
  rw [h0, hG]
  unfold setup
  cases hfs : s.sblock with
  | mk fmt ncg ipg fpg frag size ncyl cpg nrpos spc nspf cont =>
    cases fmt <;> rfl

theorem finish_quiet (env : Env) (nr : Nat) (G : St) (hw1 : G.writesb = false)
    (hw2 : G.writecsum = false) (hd : G.cstotal = G.fs_cstotal) :
    (finish env nr G).reports = G.reports ∧ (finish env nr G).writes = G.writes
    ∧ (finish env nr G).cgs = G.cgs ∧ (finish env nr G).csums = G.csums
    ∧ (finish env nr G).fs_cstotal = G.fs_cstotal := by
  have hdiff : csDiffer G.cstotal G.fs_cstotal = false := (csDiffer_eq_false_iff _ _).mpr hd
  unfold finish
  simp [hdiff, hw1, hw2]

theorem setup_fields (s : St) :
    (setup s).bmap = markPastEnd s.sblock s.bmap ∧ (setup s).cgs = s.cgs
    ∧ (setup s).csums = s.csums ∧ (setup s).csumbuf = s.csums
    ∧ (setup s).cstotal = ⟨0, 0, 0, 0⟩ ∧ (setup s).reports = [] ∧ (setup s).writes = []
    ∧ (setup s).writesb = false ∧ (setup s).writecsum = false
    ∧ (setup s).fs_cstotal = s.fs_cstotal :=
  ⟨rfl, rfl, rfl, rfl, rfl, rfl, rfl, rfl, rfl, rfl⟩

theorem setup_sblock_congr (s t : St) (h : t.sblock = s.sblock) :
    (setup t).sblock = (setup s).sblock := by
  unfold setup
  simp only [h]

/-- A run on settled buffers, with a summary array and totals that are the
computed ones, reports nothing and writes nothing. -/
theorem groupsDone_quiet (env : Env) (tmpl : Cg) (t : St) (n : Nat)
    (hs : ∀ c, c < n → Settled t.sblock tmpl c (inodePass t.sblock env.inodestate c)
      (blkOf env t.sblock t.bmap c) (t.cgs c))
    (hcs : ∀ c, c < n → t.csumbuf c = csOf env t.sblock t.bmap c) :
    (groupsDone env tmpl t n).reports = t.reports
    ∧ (groupsDone env tmpl t n).writes = t.writes
    ∧ (groupsDone env tmpl t n).writecsum = t.writecsum
    ∧ (groupsDone env tmpl t n).cgs = t.cgs
    ∧ (groupsDone env tmpl t n).csumbuf = t.csumbuf := by
  induction n with
  | zero => exact ⟨rfl, rfl, rfl, rfl, rfl⟩
  | succ n ih =>
    obtain ⟨a1, a2, a3, a4, a5⟩ := ih (fun c hc => hs c (by omega)) (fun c hc => hcs c (by omega))
    have hfr := groupsDone_frame env tmpl t n
    have hq := stepG_quiet env tmpl n (groupsDone env tmpl t n)
      (by rw [hfr.1, hfr.2.1, a4]; exact hs n (by omega))
      (by rw [hfr.1, hfr.2.1, a5]; exact hcs n (by omega))
    rw [groupsDone_succ]
    obtain ⟨b1, b2, b3, b4, b5⟩ := hq
    exact ⟨b1.trans a1, b2.trans a2, b3.trans a3, b4.trans a4, b5.trans a5⟩

/-- C9: idempotence.  Let a run of `pass5` in preen mode return on a
filesystem whose groups all start inside it.  Then a second run on the
superblock, summary area and group buffers it left, with the same inode
states and the same block map (as handed to the first run or as the first run
left it), returns, reports nothing (no rotor warning, no mismatch of the
summary, the maps, the summary tables, the fixed part or the totals), writes
nothing, and leaves the group buffers, summary area and totals as they are. -/
theorem C9_idempotence (env : Env) (s s1 : St) (bm : Nat → Bool)
    (hp : env.preen = true)
    (hgeo : ∀ c, c < s.sblock.fs_ncg → cgbase s.sblock c ≤ s.sblock.fs_size)
    (hbm : markPastEnd s.sblock bm = markPastEnd s.sblock s.bmap)
    (h1 : pass5 env s = Outcome.done s1) :
    ∃ s2, pass5 env { s1 with bmap := bm } = Outcome.done s2
      ∧ s2.reports = [] ∧ s2.writes = []
      ∧ s2.cgs = s1.cgs ∧ s2.csums = s1.csums ∧ s2.fs_cstotal = s1.fs_cstotal := by
  obtain ⟨hruns, hs1⟩ := (pass5_done_iff env s s1).mp h1
  have hfrG := groupsDone_frame env (newcgInit env s.sblock) (setup s) s.sblock.fs_ncg
  -- what the first run left
  have F1 : s1.sblock = s.sblock := by
    rw [hs1]; exact pass5_sblock env s _ hfrG.1
  have F2 : ∀ c, c < s.sblock.fs_ncg →
      Settled (setup s).sblock (newcgInit env s.sblock) c
        (inodePass (setup s).sblock env.inodestate c)
        (blkOf env (setup s).sblock (setup s).bmap c) (s1.cgs c) := by
    intro c hc
    rw [hs1, pass5_cgs env s c hc]
    have hcg := checkMagic_groupsDone_cgs env (newcgInit env s.sblock) (setup s) c
    have := checkedWork_settled env (newcgInit env s.sblock) c
      (checkMagic c (groupsDone env (newcgInit env s.sblock) (setup s) c))
      (blkOf env (setup s).sblock (setup s).bmap c) hp
      (by rw [hcg.2, ndblkOf_setup]; exact ndblkOf_nonneg _ _ (hgeo c hc))
      (by rw [newcgInit_niblk]; exact Int.natCast_nonneg _)
      (by
        intro hf
        rw [hcg.2, (setup_sblock s).1] at hf
        exact newcgInit_magic env _ hf)
    rw [hcg.2] at this
    exact this
  have F3 : ∀ c, c < s.sblock.fs_ncg →
      s1.csums c = csOf env (setup s).sblock (setup s).bmap c := by
    intro c hc
    rw [hs1, finish_csums, (groupsDone_earlier env _ _ c _ hc).2, groupsDone_succ,
      stepG_csumbuf_self _ _ _ _ (fix_of_preen env hp _ _),
      (groupsDone_frame _ _ _ _).1, (groupsDone_frame _ _ _ _).2.1]
  have F4 : s1.fs_cstotal = sumCsum s.sblock.fs_ncg (csOf env (setup s).sblock (setup s).bmap) := by
    rw [hs1, finish_fs_cstotal _ _ _ (fix_of_preen env hp _ _), groupsDone_cstotal _ _ _ _ rfl]
  -- the state the second run starts from
  have T1 : (setup { s1 with bmap := bm }).sblock = (setup s).sblock :=
    setup_sblock_congr s { s1 with bmap := bm } F1
  have T2 : (setup { s1 with bmap := bm }).bmap = (setup s).bmap := by
    show markPastEnd s1.sblock bm = markPastEnd s.sblock s.bmap
    rw [F1, hbm]
  have hncg : ({ s1 with bmap := bm } : St).sblock.fs_ncg = s.sblock.fs_ncg := by
    show s1.sblock.fs_ncg = s.sblock.fs_ncg
    rw [F1]
  have htmpl : newcgInit env ({ s1 with bmap := bm } : St).sblock = newcgInit env s.sblock := by
    show newcgInit env s1.sblock = newcgInit env s.sblock
    rw [F1]
  have hruns2 : ∀ c, c < ({ s1 with bmap := bm } : St).sblock.fs_ncg →
      groupRuns env c (setup { s1 with bmap := bm }) := by
    intro c hc
    rw [hncg] at hc
    refine ⟨Or.inl (F2 c hc).1, ?_⟩
    rw [T1, T2]
    exact (hruns c hc).2
  have hquiet := groupsDone_quiet env (newcgInit env s.sblock) (setup { s1 with bmap := bm })
    s.sblock.fs_ncg
    (by intro c hc; rw [T1, T2]; exact F2 c hc)
    (by intro c hc; rw [T1, T2]; exact F3 c hc)
  have hfr2 := groupsDone_frame env (newcgInit env s.sblock) (setup { s1 with bmap := bm })
    s.sblock.fs_ncg
  have htot : (groupsDone env (newcgInit env s.sblock) (setup { s1 with bmap := bm })
      s.sblock.fs_ncg).cstotal
      = (groupsDone env (newcgInit env s.sblock) (setup { s1 with bmap := bm })
          s.sblock.fs_ncg).fs_cstotal := by
    rw [groupsDone_cstotal _ _ _ _ rfl, hfr2.2.2.2.2.1, T1, T2]
    exact F4.symm
  have hfin := finish_quiet env ({ s1 with bmap := bm } : St).sblock.fs_nrpos
    (groupsDone env (newcgInit env s.sblock) (setup { s1 with bmap := bm }) s.sblock.fs_ncg)
    (by rw [hfr2.2.2.2.1]; rfl) (by rw [hquiet.2.2.1]; rfl) htot
  refine ⟨_, (pass5_done_iff env _ _).mpr ⟨hruns2, rfl⟩, ?_⟩
  rw [htmpl, hncg]
  obtain ⟨f1, f2, f3, f4, f5⟩ := hfin
  obtain ⟨q1, q2, _, q4, _⟩ := hquiet
  refine ⟨?_, ?_, ?_, ?_, ?_⟩
  · rw [f1, q1]; rfl
  · rw [f2, q2]; rfl
  · rw [f3, q4]; rfl
  · rw [f4, hfr2.2.2.1]; rfl
  · rw [f5, hfr2.2.2.2.2.1]; rfl

/-- C9 (witness): the spec's scenario in preen mode, run twice. -/
theorem C9_idempotence_witness :
    ∃ s1, pass5 envPreen stScenario = Outcome.done s1
      ∧ ∃ s2, pass5 envPreen { s1 with bmap := stScenario.bmap } = Outcome.done s2
        ∧ s2.reports = [] ∧ s2.writes = []
        ∧ s2.cgs = s1.cgs ∧ s2.csums = s1.csums ∧ s2.fs_cstotal = s1.fs_cstotal :=
  ⟨_, (pass5_done_iff envPreen stScenario _).mpr
      ⟨groupRuns_of_valid envPreen stScenario (by decide) (Or.inr stScenario_magic), rfl⟩,
    C9_idempotence envPreen stScenario _ stScenario.bmap rfl
      (fun c hc => by
        have : c = 0 := by
          have h : c < 1 := hc
          omega
        subst this
        decide)
      rfl
      ((pass5_done_iff envPreen stScenario _).mpr
        ⟨groupRuns_of_valid envPreen stScenario (by decide) (Or.inr stScenario_magic), rfl⟩)⟩

/-- C11: whatever the inode states, the computed inode map of group 0 has
bits 0 and 1 set; in every other group the loop over the reserved inodes is
not run: the accumulator is the one the walk over `inodestate` leaves, and a
bit is set only for an index the walk found allocated. -/
theorem C11_reserved_inodes (fs : Fs) (inodestate : Nat → InodeState) :
    ((inodePass fs inodestate 0).inosused 0 = true
      ∧ (inodePass fs inodestate 0).inosused 1 = true)
    ∧ ∀ c, c ≠ 0 →
        inodePass fs inodestate c
          = (List.range fs.fs_ipg).foldl (inodeStep inodestate)
              { ndir := 0, nifree := fs.fs_ipg, inosused := fun _ => false }
        ∧ ∀ k, (inodePass fs inodestate c).inosused k
            = (decide (k < fs.fs_ipg) && (inodestate k).isUsed) := by
  refine ⟨⟨?_, ?_⟩, ?_⟩
  · rw [inodePass_inosused]; simp [ROOTINO]
  · rw [inodePass_inosused]; simp [ROOTINO]
  · intro c hc
    refine ⟨by simp [inodePass, hc], ?_⟩
    intro k
    rw [inodePass_inosused]
    simp [hc]

/-- C11 (witness): with every inode unallocated, bits 0 and 1 are set in
group 0 and clear in group 1. -/
theorem C11_reserved_inodes_witness :
    ((inodePass fsC1 isNone 0).inosused 0 = true ∧ (inodePass fsC1 isNone 0).inosused 1 = true)
    ∧ (inodePass fsC1 isNone 1).inosused 0 = false
    ∧ (inodePass fsC1 isNone 1).inosused 1 = false :=
  ⟨(C11_reserved_inodes fsC1 isNone).1,
   by rw [((C11_reserved_inodes fsC1 isNone).2 1 (by decide)).2 0]; rfl,
   by rw [((C11_reserved_inodes fsC1 isNone).2 1 (by decide)).2 1]; rfl⟩

theorem howmany_le_iff (x y m : Nat) (hy : 0 < y) : howmany x y ≤ m ↔ x ≤ y * m := by
  unfold howmany
  have h1 : (x + (y - 1)) / y < m + 1 ↔ x + (y - 1) < (m + 1) * y :=
    Nat.div_lt_iff_lt_mul hy
  have h2 : (m + 1) * y = y * m + y := by ring
  rw [h2] at h1
  constructor
  · intro h
    have := h1.mp (by omega)
    omega
  · intro h
    have := h1.mpr (by omega)
    omega

/-- C13: in the new format the offsets built at lines 68-81 are cumulative:
the block totals start at the flexible area `cg_space`, the per-position
table `fs_cpg * sizeof (long)` later, the inode map `fs_cpg * fs_nrpos *
sizeof (short)` after that, the block map `howmany (fs_ipg, NBBY)` (the
ceiling of `fs_ipg / 8`) after the inode map; `sumsize` and `mapsize` are the
differences of lines 86-87, which cover exactly the tables and the map bits
that the comparisons of the model range over. -/
theorem C13_dynamic_offsets (env : Env) (fs : Fs)
    (hdyn : fs.fs_postblformat = PostblFormat.FS_DYNAMICPOSTBLFMT) :
    (newcgInit env fs).cg_btotoff = env.cg_spaceoff
    ∧ (newcgInit env fs).cg_boff = (newcgInit env fs).cg_btotoff + fs.fs_cpg * sizeof_long
    ∧ (newcgInit env fs).cg_iusedoff
        = (newcgInit env fs).cg_boff + fs.fs_cpg * fs.fs_nrpos * sizeof_short
    ∧ (newcgInit env fs).cg_freeoff
        = (newcgInit env fs).cg_iusedoff + howmany fs.fs_ipg NBBY
    ∧ (∀ m, howmany fs.fs_ipg NBBY ≤ m ↔ fs.fs_ipg ≤ NBBY * m)
    ∧ sumsize (newcgInit env fs)
        = (newcgInit env fs).cg_iusedoff - (newcgInit env fs).cg_btotoff
    ∧ mapsize (newcgInit env fs)
        = (newcgInit env fs).cg_nextfreeoff - (newcgInit env fs).cg_iusedoff
    ∧ sumsize (newcgInit env fs)
        = (sumDims fs).1 * sizeof_long + (sumDims fs).1 * (sumDims fs).2 * sizeof_short
    ∧ (NBBY : Int) * mapsize (newcgInit env fs) = ((mapDims fs).1 + (mapDims fs).2 : Nat) := by
  refine ⟨?_, ?_, ?_, ?_, ?_, rfl, rfl, ?_, ?_⟩
  · simp [newcgInit, hdyn]
  · simp [newcgInit, hdyn]
  · simp [newcgInit, hdyn]
  · simp [newcgInit, hdyn]
  · intro m; exact howmany_le_iff _ _ _ (by decide)
  · simp only [sumsize, newcgInit, sumDims, hdyn]
    ring
  · simp only [mapsize, newcgInit, mapDims, hdyn]
    push_cast
    ring

/-- C13 (witness): the geometry of the spec's scenario, which is in the new format. -/
theorem C13_dynamic_offsets_witness :
    (newcgInit envPreen fsScenario).cg_btotoff = 168
    ∧ (newcgInit envPreen fsScenario).cg_boff = 172
    ∧ (newcgInit envPreen fsScenario).cg_iusedoff = 174
    ∧ (newcgInit envPreen fsScenario).cg_freeoff = 175
    ∧ sumsize (newcgInit envPreen fsScenario) = 6
    ∧ mapsize (newcgInit envPreen fsScenario) = 3 := by
  obtain ⟨h1, h2, h3, h4, _, h6, h7, _, _⟩ := C13_dynamic_offsets envPreen fsScenario rfl
  refine ⟨h1, ?_, ?_, ?_, ?_, ?_⟩
  · rw [h2, h1]; decide
  · rw [h3, h2, h1]; decide
  · rw [h4, h3, h2, h1]; decide
  · rw [h6, h3, h2, h1]; decide
  · rw [h7]; decide

theorem group_exit_inv (env : Env) (tmpl : Cg) (c : Nat) (s s1 : St)
    (h : group env tmpl c s = Outcome.exit s1) : s1 = checkMagic c s := by
  unfold group at h
  by_cases hcond : (!cg_chkmagic (s.cgs c) && !env.pfatalReturns) = true
  · simp only [hcond, if_true] at h
    injection h with h
    exact h.symm
  · simp only [hcond, Bool.false_eq_true, if_false] at h
    cases hb : blockPass (checkMagic c s).sblock env.cbtocylno
        (env.cktorpos (checkMagic c s).sblock.fs_nrpos) (checkMagic c s).bmap c with
    | none => simp [hb] at h
    | some blk => simp [hb] at h

/-- A property of the state that the message of `pfatal` and the body of the
loop preserve holds when the loop ends, by returning or by exiting. -/
theorem groupLoop_preserves (env : Env) (tmpl : Cg) (P : St → Prop)
    (hmagic : ∀ c s, P s → P (checkMagic c s))
    (hstep : ∀ c s, P s → P (stepG env tmpl c s)) :
    ∀ (l : List Nat) (s s1 : St), P s → (groupLoop env tmpl l s).final = some s1 → P s1 := by
  intro l
  induction l with
  | nil =>
    intro s s1 hP h
    simp only [groupLoop, Outcome.final] at h
    injection h with h
    rw [← h]; exact hP
  | cons c cs ih =>
    intro s s1 hP h
    simp only [groupLoop] at h
    cases hg : group env tmpl c s with
    | hang => simp [hg, Outcome.final] at h
    | exit s2 =>
      simp only [hg, Outcome.final] at h
      injection h with h
      rw [← h, group_exit_inv env tmpl c s s2 hg]
      exact hmagic c s hP
    | done s2 =>
      simp only [hg] at h
      rw [(group_done_inv env tmpl c s s2 hg).2] at h
      exact ih _ s1 (hstep c s hP) h

/-- The state `pass5` ends in is the state its loop ends in, after `finish`
when it returns. -/
theorem pass5_final (env : Env) (s s1 : St) (h : (pass5 env s).final = some s1) :
    ∃ t, (groupLoop env (newcgInit env s.sblock) (List.range (setup s).sblock.fs_ncg)
            (setup s)).final = some t
      ∧ (s1 = t ∨ s1 = finish env s.sblock.fs_nrpos t) := by
  unfold pass5 at h
  cases hg : groupLoop env (newcgInit env s.sblock) (List.range (setup s).sblock.fs_ncg)
      (setup s) with
  | hang => simp [hg, Outcome.final] at h
  | exit s2 =>
    simp only [hg, Outcome.final] at h
    injection h with h
    exact ⟨s2, rfl, Or.inl h.symm⟩
  | done s2 =>
    simp only [hg, Outcome.final] at h
    injection h with h
    exact ⟨s2, rfl, Or.inr h.symm⟩

theorem checkMagic_bmap (c : Nat) (s : St) : (checkMagic c s).bmap = s.bmap :=
  (checkMagic_frame c s).2.1

/-- The block map when `pass5` ends is the one lines 93-96 leave. -/
theorem pass5_bmap (env : Env) (s s1 : St) (h : (pass5 env s).final = some s1) :
    s1.bmap = markPastEnd s.sblock s.bmap := by
  obtain ⟨t, ht, hs1⟩ := pass5_final env s s1 h
  have hP := groupLoop_preserves env (newcgInit env s.sblock)
    (fun t => t.bmap = markPastEnd s.sblock s.bmap)
    (fun c t hP => by
      show (checkMagic c t).bmap = _
      rw [checkMagic_bmap]; exact hP)
    (fun c t hP => by
      show (stepG env _ c t).bmap = _
      rw [(stepG_frame env _ c t).2.1]; exact hP)
    _ (setup s) t rfl ht
  rcases hs1 with rfl | rfl
  · exact hP
  · exact hP

/-- C15 (counterexample): with 14 fragments at 4 to the block and an empty
block map, fragment 14 is unoccupied before the run and occupied after it. -/
theorem C15_block_map_is_written :
    ∃ s1, pass5 envPreen stShort = Outcome.done s1
      ∧ stShort.bmap 14 = false ∧ s1.bmap 14 = true := by
  have hd : pass5 envPreen stShort = Outcome.done (finish envPreen stShort.sblock.fs_nrpos
      (groupsDone envPreen (newcgInit envPreen stShort.sblock) (setup stShort)
        stShort.sblock.fs_ncg)) :=
    (pass5_done_iff envPreen stShort _).mpr
      ⟨groupRuns_of_valid envPreen stShort (by decide) (Or.inr stScenario_magic), rfl⟩
  refine ⟨_, hd, rfl, ?_⟩
  rw [pass5_bmap envPreen stShort _ (by rw [hd]; rfl)]
  decide

/-- C15 (amended): when `pass5` ends (returns or exits), a fragment from
`fs_size` up to the end of the block that holds `fs_size` is occupied in the
block map, and every other fragment is as before; so every fragment of the
filesystem is as before, and when `fs_size` is a multiple of the positive
`fs_frag` the whole map is. -/
theorem C15_block_map_frame (env : Env) (s s1 : St) (h : (pass5 env s).final = some s1) :
    (∀ k, s1.bmap k
        = if s.sblock.fs_size ≤ k ∧ k < blknum s.sblock (s.sblock.fs_size + s.sblock.fs_frag - 1)
          then true else s.bmap k)
    ∧ (∀ k, k < s.sblock.fs_size → s1.bmap k = s.bmap k)
    ∧ (0 < s.sblock.fs_frag → s.sblock.fs_frag ∣ s.sblock.fs_size → s1.bmap = s.bmap) := by
  have hb := pass5_bmap env s s1 h
  refine ⟨?_, ?_, ?_⟩
  · intro k; rw [hb]; rfl
  · intro k hk
    rw [hb]
    have : ¬ s.sblock.fs_size ≤ k := by omega
    simp [markPastEnd, this]
  · intro hf hdiv
    rw [hb]
    funext k
    obtain ⟨q, hq⟩ := hdiv
    have hbn : blknum s.sblock (s.sblock.fs_size + s.sblock.fs_frag - 1) = s.sblock.fs_size := by
      unfold blknum
      have h1 : s.sblock.fs_size + s.sblock.fs_frag - 1
          = s.sblock.fs_frag - 1 + s.sblock.fs_frag * q := by omega
      rw [h1, Nat.add_mul_div_left _ _ hf, Nat.div_eq_of_lt (by omega), Nat.zero_add, hq,
        Nat.mul_comm]
    have : ¬ (s.sblock.fs_size ≤ k ∧ k < s.sblock.fs_size) := by omega
    simp [markPastEnd, hbn, this]

/-- C15 (witness): the run on the scenario cut to 14 fragments. -/
theorem C15_block_map_frame_witness :
    ∃ s1, pass5 envPreen stShort = Outcome.done s1
      ∧ (∀ k, k < stShort.sblock.fs_size → s1.bmap k = stShort.bmap k) :=
  ⟨_, (pass5_done_iff envPreen stShort _).mpr
      ⟨groupRuns_of_valid envPreen stShort (by decide) (Or.inr stScenario_magic), rfl⟩,
    (C15_block_map_frame envPreen stShort _ (by
      rw [(pass5_done_iff envPreen stShort _).mpr
        ⟨groupRuns_of_valid envPreen stShort (by decide) (Or.inr stScenario_magic), rfl⟩]
      rfl)).2.1⟩

theorem checkRotor_log (env : Env) (c : Nat) (w : Work) :
    (checkRotor env c w).reports
        = w.reports ++ (if w.newcg.cg_rotor > w.newcg.cg_ndblk then [Report.illegalRotor c] else [])
    ∧ (checkRotor env c w).writecg
        = (w.writecg || (decide (w.newcg.cg_rotor > w.newcg.cg_ndblk) && env.fix c Prompt.rotor)) := by
  unfold checkRotor
  by_cases h1 : w.newcg.cg_rotor > w.newcg.cg_ndblk
  <;> by_cases f1 : env.fix c Prompt.rotor = true
  <;> simp [h1, f1]

theorem checkFrotor_log (env : Env) (c : Nat) (w : Work) :
    (checkFrotor env c w).reports
        = w.reports
          ++ (if w.newcg.cg_frotor > w.newcg.cg_ndblk then [Report.illegalFrotor c] else [])
    ∧ (checkFrotor env c w).writecg
        = (w.writecg
            || (decide (w.newcg.cg_frotor > w.newcg.cg_ndblk) && env.fix c Prompt.frotor)) := by
  unfold checkFrotor
  by_cases h1 : w.newcg.cg_frotor > w.newcg.cg_ndblk
  <;> by_cases f1 : env.fix c Prompt.frotor = true
  <;> simp [h1, f1]

theorem checkIrotor_log (env : Env) (c : Nat) (w : Work) :
    (checkIrotor env c w).reports
        = w.reports
          ++ (if w.newcg.cg_irotor > w.newcg.cg_niblk then [Report.illegalIrotor c] else [])
    ∧ (checkIrotor env c w).writecg
        = (w.writecg
            || (decide (w.newcg.cg_irotor > w.newcg.cg_niblk) && env.fix c Prompt.irotor)) := by
  unfold checkIrotor
  by_cases h1 : w.newcg.cg_irotor > w.newcg.cg_niblk
  <;> by_cases f1 : env.fix c Prompt.irotor = true
  <;> simp [h1, f1]

theorem checkMaps_log (env : Env) (fs : Fs) (c : Nat) (w : Work) :
    (checkMaps env fs c w).reports
        = w.reports ++ (if mapsDiffer fs w.newcg w.cg = true then [Report.mapsWrong c] else [])
    ∧ (checkMaps env fs c w).writecg
        = (w.writecg || (mapsDiffer fs w.newcg w.cg && env.fix c Prompt.maps)) := by
  unfold checkMaps
  by_cases h1 : mapsDiffer fs w.newcg w.cg = true
  <;> by_cases f1 : env.fix c Prompt.maps = true
  <;> simp [h1, f1]

theorem checkSummary_log (env : Env) (fs : Fs) (c : Nat) (w : Work) :
    (checkSummary env fs c w).reports
        = w.reports ++ (if sumDiffer fs w.newcg w.cg = true then [Report.summaryBad c] else [])
    ∧ (checkSummary env fs c w).writecg
        = (w.writecg || (sumDiffer fs w.newcg w.cg && env.fix c Prompt.summary)) := by
  unfold checkSummary
  by_cases h1 : sumDiffer fs w.newcg w.cg = true
  <;> by_cases f1 : env.fix c Prompt.summary = true
  <;> simp [h1, f1]

theorem checkBase_log (env : Env) (fs : Fs) (c : Nat) (w : Work) :
    (checkBase env fs c w).reports
        = w.reports ++ (if baseDiffer fs w.newcg w.cg = true then [Report.cgBad c] else [])
    ∧ (checkBase env fs c w).writecg
        = (w.writecg || (baseDiffer fs w.newcg w.cg && env.fix c Prompt.base)) := by
  unfold checkBase
  by_cases h1 : baseDiffer fs w.newcg w.cg = true
  <;> by_cases f1 : env.fix c Prompt.base = true
  <;> simp [h1, f1]

theorem setup_nrpos (s : St) :
    (setup s).sblock.fs_nrpos
      = (match s.sblock.fs_postblformat with
          | PostblFormat.FS_42POSTBLFMT => 8
          | PostblFormat.FS_DYNAMICPOSTBLFMT => s.sblock.fs_nrpos) := by
  unfold setup
  cases h : s.sblock.fs_postblformat <;> simp [h]

theorem setup_sblock_dynamic (s : St)
    (h : s.sblock.fs_postblformat = PostblFormat.FS_DYNAMICPOSTBLFMT) :
    (setup s).sblock = s.sblock := by
  unfold setup
  simp [h]

/-- C14: on a filesystem in the old format every group is processed with
`fs_nrpos = 8`, whatever the superblock declares; on one in the new format
every group is processed with the superblock unchanged; and when `pass5`
returns, the superblock geometry, `fs_nrpos` included, is as it was before
the run. -/
theorem C14_nrpos_override (env : Env) (s : St) :
    (s.sblock.fs_postblformat = PostblFormat.FS_42POSTBLFMT →
      ∀ c, (checkMagic c (groupsDone env (newcgInit env s.sblock) (setup s) c)).sblock.fs_nrpos
        = 8)
    ∧ (s.sblock.fs_postblformat = PostblFormat.FS_DYNAMICPOSTBLFMT →
      ∀ c, (checkMagic c (groupsDone env (newcgInit env s.sblock) (setup s) c)).sblock
        = s.sblock)
    ∧ (∀ s1, pass5 env s = Outcome.done s1 → s1.sblock = s.sblock) := by
  refine ⟨?_, ?_, ?_⟩
  · intro h c
    rw [(checkMagic_frame c _).1, (groupsDone_frame _ _ _ _).1, setup_nrpos, h]
  · intro h c
    rw [(checkMagic_frame c _).1, (groupsDone_frame _ _ _ _).1, setup_sblock_dynamic s h]
  · intro s1 h
    rw [((pass5_done_iff env s s1).mp h).2]
    exact pass5_sblock env s _ (groupsDone_frame _ _ _ _).1

/-- C14 (witness): a filesystem in the old format that declares five
rotational positions is processed with eight, and has five again after the
run. -/
theorem C14_nrpos_override_witness :
    (checkMagic 0 (groupsDone envPreen (newcgInit envPreen stLegacy.sblock) (setup stLegacy)
        0)).sblock.fs_nrpos = 8
    ∧ stLegacy.sblock.fs_nrpos = 5
    ∧ ∃ s1, pass5 envPreen stLegacy = Outcome.done s1 ∧ s1.sblock.fs_nrpos = 5 :=
  ⟨(C14_nrpos_override envPreen stLegacy).1 rfl 0, rfl, _,
    (pass5_done_iff envPreen stLegacy _).mpr
      ⟨groupRuns_of_valid envPreen stLegacy (by decide) (Or.inr stScenario_magic), rfl⟩,
    by
      rw [(C14_nrpos_override envPreen stLegacy).2.2 _
        ((pass5_done_iff envPreen stLegacy _).mpr
          ⟨groupRuns_of_valid envPreen stLegacy (by decide) (Or.inr stScenario_magic), rfl⟩)]
      rfl⟩

theorem fixMade_append_one (env : Env) (ncg : Nat) (l : List Report) (p : Prop) [Decidable p]
    (f : Bool) (R : Report) (x : WriteOp)
    (hfix : Report.fixed env ncg R = if f = true then some x else none) (y : WriteOp) :
    fixMade env ncg (l ++ (if p then [R] else [])) y
      ↔ (fixMade env ncg l y ∨ (p ∧ f = true ∧ y = x)) := by
  unfold fixMade
  by_cases hp : p
  · cases f
    · simp only [hp, if_true, List.mem_append, List.mem_singleton, Bool.false_eq_true,
        if_false, false_and, and_false, or_false] at hfix ⊢
      constructor
      · rintro ⟨r, hr | hr, h⟩
        · exact ⟨r, hr, h⟩
        · rw [hr, hfix] at h
          cases h
      · rintro ⟨r, hr, h⟩
        exact ⟨r, Or.inl hr, h⟩
    · simp only [hp, if_true, List.mem_append, List.mem_singleton, true_and] at hfix ⊢
      constructor
      · rintro ⟨r, hr | hr, h⟩
        · exact Or.inl ⟨r, hr, h⟩
        · rw [hr, hfix] at h
          injection h with h
          exact Or.inr h.symm
      · rintro (⟨r, hr, h⟩ | h)
        · exact ⟨r, Or.inl hr, h⟩
        · exact ⟨R, Or.inr rfl, by rw [hfix, h]⟩
  · simp [hp]

theorem logged_step (env : Env) (ncg c : Nat) (base : List Report) (b : Bool) (w w1 : Work)
    (p : Prop) [Decidable p] (f : Bool) (R : Report)
    (hfix : Report.fixed env ncg R = if f = true then some (WriteOp.cg c) else none)
    (hr : w1.reports = w.reports ++ (if p then [R] else []))
    (hw : w1.writecg = (w.writecg || (decide p && f)))
    (h : Work.logged env ncg c base b w) : Work.logged env ncg c base b w1 := by
  intro y
  rw [hr, fixMade_append_one env ncg _ p f R _ hfix, h y, hw]
  simp only [Bool.or_eq_true, Bool.and_eq_true, decide_eq_true_eq]
  tauto

theorem rotorWork_logged (env : Env) (ncg : Nat) (tmpl : Cg) (c : Nat) (s : St) :
    Work.logged env ncg c s.reports false (rotorWork env tmpl c s) := by
  unfold rotorWork
  refine logged_step env ncg c _ _ _ _ _ (env.fix c Prompt.irotor) (Report.illegalIrotor c) rfl
    (checkIrotor_log env c _).1 (checkIrotor_log env c _).2 ?_
  refine logged_step env ncg c _ _ _ _ _ (env.fix c Prompt.frotor) (Report.illegalFrotor c) rfl
    (checkFrotor_log env c _).1 (checkFrotor_log env c _).2 ?_
  refine logged_step env ncg c _ _ _ _ _ (env.fix c Prompt.rotor) (Report.illegalRotor c) rfl
    (checkRotor_log env c _).1 (checkRotor_log env c _).2 ?_
  intro y
  simp

theorem checkedWork_logged (env : Env) (ncg : Nat) (tmpl : Cg) (c : Nat) (s : St)
    (blk : BlkAcc) :
    Work.logged env ncg c s.reports
      (csDiffer (computeWork env tmpl c s blk).newcg.cg_cs (s.csumbuf c) && env.fix c Prompt.csum)
      (checkedWork env tmpl c s blk) := by
  have h0 : Work.logged env ncg c s.reports false (computeWork env tmpl c s blk) :=
    rotorWork_logged env ncg tmpl c s
  unfold checkedWork
  refine logged_step env ncg c _ _ _ _ (baseDiffer s.sblock _ _ = true) (env.fix c Prompt.base)
    (Report.cgBad c) rfl (checkBase_log env s.sblock c _).1
    (by rw [(checkBase_log env s.sblock c _).2]; simp) ?_
  refine logged_step env ncg c _ _ _ _ (sumDiffer s.sblock _ _ = true) (env.fix c Prompt.summary)
    (Report.summaryBad c) rfl (checkSummary_log env s.sblock c _).1
    (by rw [(checkSummary_log env s.sblock c _).2]; simp) ?_
  refine logged_step env ncg c _ _ _ _ (mapsDiffer s.sblock _ _ = true) (env.fix c Prompt.maps)
    (Report.mapsWrong c) rfl (checkMaps_log env s.sblock c _).1
    (by rw [(checkMaps_log env s.sblock c _).2]; simp) ?_
  intro y
  by_cases hd : csDiffer (computeWork env tmpl c s blk).newcg.cg_cs (s.csumbuf c) = true
  · simp only [hd, if_true, Bool.true_and]
    have h1 := fixMade_append_one env ncg (computeWork env tmpl c s blk).reports True
      (env.fix c Prompt.csum) (Report.csumWrong c) WriteOp.csum rfl y
    simp only [if_true, true_and] at h1
    rw [h1, h0 y]
    simp only [Bool.false_eq_true, and_false, or_false]
    tauto
  · simp only [hd, Bool.false_eq_true, if_false, Bool.false_and, and_false, or_false]
    have := h0 y
    simpa using this
theorem checkMagic_fixMade (env : Env) (ncg c : Nat) (t : St) (y : WriteOp) :
    fixMade env ncg (checkMagic c t).reports y ↔ fixMade env ncg t.reports y := by
  have h : (checkMagic c t).reports
      = t.reports ++ (if ¬ cg_chkmagic (t.cgs c) = true then [Report.badMagic c] else []) := by
    unfold checkMagic
    by_cases hm : cg_chkmagic (t.cgs c) = true <;> simp [hm]
  rw [h, fixMade_append_one env ncg _ _ false (Report.badMagic c) WriteOp.sb rfl]
  simp

theorem checkMagic_logged (env : Env) (ncg c : Nat) (t : St) (h : St.logged env ncg t) :
    St.logged env ncg (checkMagic c t) := by
  have hfr := checkMagic_frame c t
  obtain ⟨h1, h2, h3⟩ := h
  refine ⟨?_, ?_, ?_⟩
  · intro y
    rw [checkMagic_fixMade, hfr.2.2.2.2.2.2.2.2.1, hfr.2.2.2.2.2.2.2.1]
    exact h1 y
  · rw [hfr.2.2.2.2.2.2.2.2.1]
    exact h2
  · rw [hfr.2.2.2.2.2.2.1]
    exact h3

theorem stepG_logged (env : Env) (ncg : Nat) (tmpl : Cg) (c : Nat) (t : St)
    (h : St.logged env ncg t) : St.logged env ncg (stepG env tmpl c t) := by
  obtain ⟨h1, h2, h3⟩ := checkMagic_logged env ncg c t h
  have hsb := (stepG_frame env tmpl c t).2.2.2.1
  refine ⟨?_, ?_, hsb.trans h.2.2⟩
  · intro y
    unfold stepG
    generalize (blockPass t.sblock env.cbtocylno (env.cktorpos t.sblock.fs_nrpos) t.bmap c).getD
      blkAcc0 = blk
    obtain ⟨e1, e2, _, e4, _⟩ := groupBody_fields env tmpl c (checkMagic c t) blk
    rw [e1, e2, e4, checkedWork_logged env ncg tmpl c (checkMagic c t) blk y, h1 y]
    by_cases hw : (checkedWork env tmpl c (checkMagic c t) blk).writecg = true
    · simp only [hw, if_true, List.mem_append, List.mem_singleton, Bool.or_eq_true, and_true]
      tauto
    · simp only [hw, Bool.false_eq_true, if_false, Bool.or_eq_true, and_false, false_or]
      tauto
  · intro y hy
    unfold stepG at hy
    generalize (blockPass t.sblock env.cbtocylno (env.cktorpos t.sblock.fs_nrpos) t.bmap c).getD
      blkAcc0 = blk at hy
    rw [(groupBody_fields env tmpl c (checkMagic c t) blk).2.1] at hy
    by_cases hw : (checkedWork env tmpl c (checkMagic c t) blk).writecg = true
    · simp only [hw, if_true, List.mem_append, List.mem_singleton] at hy
      rcases hy with hy | hy
      · exact h2 y hy
      · exact ⟨c, hy⟩
    · simp only [hw, Bool.false_eq_true, if_false] at hy
      exact h2 y hy

theorem setup_logged (env : Env) (ncg : Nat) (s : St) : St.logged env ncg (setup s) := by
  refine ⟨?_, ?_, rfl⟩
  · intro y
    simp [fixMade, setup]
  · intro y hy
    simp [setup] at hy

theorem finish_logged (env : Env) (nr : Nat) (t : St) (h : St.logged env t.sblock.fs_ncg t)
    (y : WriteOp) :
    y ∈ (finish env nr t).writes ↔ fixMade env t.sblock.fs_ncg (finish env nr t).reports y := by
  obtain ⟨h1, h2, h3⟩ := h
  have hn : (match t.sblock.fs_postblformat with
      | PostblFormat.FS_42POSTBLFMT => { t.sblock with fs_nrpos := nr }
      | PostblFormat.FS_DYNAMICPOSTBLFMT => t.sblock).fs_ncg = t.sblock.fs_ncg := by
    cases t.sblock.fs_postblformat <;> rfl
  have hr : (finish env nr t).reports
      = t.reports ++ (if csDiffer t.cstotal t.fs_cstotal = true then [Report.totalWrong]
          else []) := by
    unfold finish
    by_cases hd : csDiffer t.cstotal t.fs_cstotal = true <;> simp [hd]
  have hw : (finish env nr t).writes
      = (if t.writecsum = true then
          (if (csDiffer t.cstotal t.fs_cstotal && env.fix t.sblock.fs_ncg Prompt.total) = true
            then t.writes ++ [WriteOp.sb] else t.writes) ++ [WriteOp.csum]
         else
          (if (csDiffer t.cstotal t.fs_cstotal && env.fix t.sblock.fs_ncg Prompt.total) = true
            then t.writes ++ [WriteOp.sb] else t.writes)) := by
    unfold finish
    simp only [hn, h3, Bool.false_or]
  rw [hr, hw, fixMade_append_one env _ _ _ (env.fix t.sblock.fs_ncg Prompt.total)
    Report.totalWrong WriteOp.sb rfl, h1 y]
  generalize csDiffer t.cstotal t.fs_cstotal = d
  generalize env.fix t.sblock.fs_ncg Prompt.total = f
  generalize t.writecsum = wc
  cases d <;> cases f <;> cases wc <;> first | (simp; done) | (simp; tauto)

/-- C16: at the end of a run (by return or by exit) a group buffer has been
written exactly when some fix touching that buffer was made, and every write
issued answers a fix that was made; when `pass5` returns, the summary area and
the superblock too have been written exactly when a fix touching them was
made.  A run whose only messages are those of `pfatal` writes nothing. -/
theorem C16_only_fixed_buffers_written (env : Env) (s s1 : St)
    (h : (pass5 env s).final = some s1) :
    (∀ c, WriteOp.cg c ∈ s1.writes ↔ fixMade env s.sblock.fs_ncg s1.reports (WriteOp.cg c))
    ∧ (∀ y, y ∈ s1.writes → fixMade env s.sblock.fs_ncg s1.reports y)
    ∧ (pass5 env s = Outcome.done s1 →
        ∀ y, y ∈ s1.writes ↔ fixMade env s.sblock.fs_ncg s1.reports y)
    ∧ ((∀ r, r ∈ s1.reports → ∃ c, r = Report.badMagic c) → s1.writes = []) := by
  have hncg := (setup_sblock s).2.1
  obtain ⟨t, ht, hs1⟩ := pass5_final env s s1 h
  have hP : St.logged env s.sblock.fs_ncg t ∧ t.sblock = (setup s).sblock :=
    groupLoop_preserves env (newcgInit env s.sblock)
      (fun t => St.logged env s.sblock.fs_ncg t ∧ t.sblock = (setup s).sblock)
      (fun c t hP => ⟨checkMagic_logged env _ c t hP.1, (checkMagic_frame c t).1.trans hP.2⟩)
      (fun c t hP => ⟨stepG_logged env _ _ c t hP.1, (stepG_frame env _ c t).1.trans hP.2⟩)
      _ (setup s) t ⟨setup_logged env _ s, rfl⟩ ht
  have htn : t.sblock.fs_ncg = s.sblock.fs_ncg := by rw [hP.2, hncg]
  have hfin : ∀ y, y ∈ (finish env s.sblock.fs_nrpos t).writes
      ↔ fixMade env s.sblock.fs_ncg (finish env s.sblock.fs_nrpos t).reports y := by
    intro y
    have := finish_logged env s.sblock.fs_nrpos t (by rw [htn]; exact hP.1) y
    rw [htn] at this
    exact this
  have hall : ∀ y, y ∈ s1.writes → fixMade env s.sblock.fs_ncg s1.reports y := by
    intro y hy
    rcases hs1 with rfl | rfl
    · exact (hP.1.1 y).mpr (Or.inl hy)
    · exact (hfin y).mp hy
  refine ⟨?_, hall, ?_, ?_⟩
  · intro c
    refine ⟨hall _, ?_⟩
    intro hc
    rcases hs1 with rfl | rfl
    · rcases (hP.1.1 _).mp hc with hw | hw
      · exact hw
      · cases hw.1
    · exact (hfin _).mpr hc
  · intro hd y
    have hd2 := ((pass5_done_iff env s s1).mp hd).2
    cases hg : groupLoop env (newcgInit env s.sblock) (List.range (setup s).sblock.fs_ncg)
        (setup s) with
    | hang => rw [hg] at ht; cases ht
    | exit s2 =>
      unfold pass5 at hd
      simp only [hg] at hd
      cases hd
    | done s2 =>
      rw [hg] at ht
      have ht2 : s2 = t := by
        simp only [Outcome.final] at ht
        injection ht
      unfold pass5 at hd
      simp only [hg] at hd
      injection hd with hd
      rw [← hd, ht2]
      exact hfin y
  · intro hr
    cases hw : s1.writes with
    | nil => rfl
    | cons y ys =>
      obtain ⟨r, hr1, hr2⟩ := hall y (by rw [hw]; exact List.mem_cons_self _ _)
      obtain ⟨c, hc⟩ := hr r hr1
      rw [hc] at hr2
      cases hr2

/-- C16 (witness): the spec's scenario under preen. -/
theorem C16_only_fixed_buffers_written_witness :
    ∃ s1, pass5 envPreen stScenario = Outcome.done s1
      ∧ (∀ y, y ∈ s1.writes ↔ fixMade envPreen stScenario.sblock.fs_ncg s1.reports y) :=
  ⟨_, (pass5_done_iff envPreen stScenario _).mpr
      ⟨groupRuns_of_valid envPreen stScenario (by decide) (Or.inr stScenario_magic), rfl⟩,
    (C16_only_fixed_buffers_written envPreen stScenario _ (by
      rw [(pass5_done_iff envPreen stScenario _).mpr
        ⟨groupRuns_of_valid envPreen stScenario (by decide) (Or.inr stScenario_magic), rfl⟩]
      rfl)).2.2.1 ((pass5_done_iff envPreen stScenario _).mpr
        ⟨groupRuns_of_valid envPreen stScenario (by decide) (Or.inr stScenario_magic), rfl⟩)⟩

theorem finish_flags (env : Env) (nr : Nat) (t : St) :
    (finish env nr t).fs_fmod
        = (if (csDiffer t.cstotal t.fs_cstotal && env.fix t.sblock.fs_ncg Prompt.total) = true
            then 0 else t.fs_fmod)
    ∧ (finish env nr t).fs_ronly
        = (if (csDiffer t.cstotal t.fs_cstotal && env.fix t.sblock.fs_ncg Prompt.total) = true
            then 0 else t.fs_ronly)
    ∧ (finish env nr t).fs_cstotal
        = (if (csDiffer t.cstotal t.fs_cstotal && env.fix t.sblock.fs_ncg Prompt.total) = true
            then t.cstotal else t.fs_cstotal) := by
  have hn : (match t.sblock.fs_postblformat with
      | PostblFormat.FS_42POSTBLFMT => { t.sblock with fs_nrpos := nr }
      | PostblFormat.FS_DYNAMICPOSTBLFMT => t.sblock).fs_ncg = t.sblock.fs_ncg := by
    cases t.sblock.fs_postblformat <;> rfl
  unfold finish
  simp only [hn, and_self]

/-- The flags and the totals of the superblock at the end of a run: an exit
leaves them alone; a return changes them exactly when the totals differ from
the computed ones and that fix is made. -/
theorem pass5_flags (env : Env) (s s1 : St) (h : (pass5 env s).final = some s1) :
    (pass5 env s = Outcome.exit s1 ∧ s1.fs_fmod = s.fs_fmod ∧ s1.fs_ronly = s.fs_ronly
      ∧ s1.fs_cstotal = s.fs_cstotal)
    ∨ (pass5 env s = Outcome.done s1
      ∧ s1.fs_fmod
          = (if (csDiffer s1.cstotal s.fs_cstotal && env.fix s.sblock.fs_ncg Prompt.total) = true
              then 0 else s.fs_fmod)
      ∧ s1.fs_ronly
          = (if (csDiffer s1.cstotal s.fs_cstotal && env.fix s.sblock.fs_ncg Prompt.total) = true
              then 0 else s.fs_ronly)
      ∧ s1.fs_cstotal
          = (if (csDiffer s1.cstotal s.fs_cstotal && env.fix s.sblock.fs_ncg Prompt.total) = true
              then s1.cstotal else s.fs_cstotal)) := by
  have hncg := (setup_sblock s).2.1
  have hinv : ∀ t, (groupLoop env (newcgInit env s.sblock)
      (List.range (setup s).sblock.fs_ncg) (setup s)).final = some t →
      t.fs_fmod = s.fs_fmod ∧ t.fs_ronly = s.fs_ronly ∧ t.fs_cstotal = s.fs_cstotal
      ∧ t.sblock = (setup s).sblock := fun t ht =>
    groupLoop_preserves env (newcgInit env s.sblock)
      (fun t => t.fs_fmod = s.fs_fmod ∧ t.fs_ronly = s.fs_ronly ∧ t.fs_cstotal = s.fs_cstotal
        ∧ t.sblock = (setup s).sblock)
      (fun c t hP => by
        have hfr := checkMagic_frame c t
        exact ⟨hfr.2.2.2.2.2.2.2.2.2.2.2.trans hP.1, hfr.2.2.2.2.2.2.2.2.2.2.1.trans hP.2.1,
          hfr.2.2.2.2.2.2.2.2.2.1.trans hP.2.2.1, hfr.1.trans hP.2.2.2⟩)
      (fun c t hP => by
        have hfr := stepG_frame env (newcgInit env s.sblock) c t
        exact ⟨hfr.2.2.2.2.2.2.trans hP.1, hfr.2.2.2.2.2.1.trans hP.2.1,
          hfr.2.2.2.2.1.trans hP.2.2.1, hfr.1.trans hP.2.2.2⟩)
      _ (setup s) t ⟨rfl, rfl, rfl, rfl⟩ ht
  unfold pass5 at h ⊢
  cases hg : groupLoop env (newcgInit env s.sblock) (List.range (setup s).sblock.fs_ncg)
      (setup s) with
  | hang => simp [hg, Outcome.final] at h
  | exit s2 =>
    simp only [hg, Outcome.final] at h ⊢
    injection h with h
    subst h
    obtain ⟨a1, a2, a3, _⟩ := hinv s2 (by rw [hg]; rfl)
    exact Or.inl ⟨rfl, a1, a2, a3⟩
  | done s2 =>
    simp only [hg, Outcome.final] at h ⊢
    injection h with h
    subst h
    obtain ⟨a1, a2, a3, a4⟩ := hinv s2 (by rw [hg]; rfl)
    obtain ⟨f1, f2, f3⟩ := finish_flags env s.sblock.fs_nrpos s2
    have hn : s2.sblock.fs_ncg = s.sblock.fs_ncg := by rw [a4, hncg]
    rw [hn, a3] at f1 f2 f3
    rw [a1] at f1
    rw [a2] at f2
    exact Or.inr ⟨rfl, f1, f2, f3⟩

theorem rotorWork_reports_sub (env : Env) (tmpl : Cg) (c : Nat) (s : St) (r : Report)
    (h : r ∈ s.reports) : r ∈ (rotorWork env tmpl c s).reports := by
  unfold rotorWork
  rw [(checkIrotor_log _ _ _).1, (checkFrotor_log _ _ _).1, (checkRotor_log _ _ _).1]
  exact List.mem_append_left _ (List.mem_append_left _ (List.mem_append_left _ h))

theorem rotorWork_reports_rotor (env : Env) (tmpl : Cg) (c : Nat) (s : St)
    (h : (s.cgs c).cg_rotor > ndblkOf s.sblock c) :
    Report.illegalRotor c ∈ (rotorWork env tmpl c s).reports := by
  have h0 : (newcgGroup s.sblock tmpl (s.cgs c) c).cg_rotor
      > (newcgGroup s.sblock tmpl (s.cgs c) c).cg_ndblk := h
  unfold rotorWork
  rw [(checkIrotor_log _ _ _).1, (checkFrotor_log _ _ _).1, (checkRotor_log _ _ _).1]
  refine List.mem_append_left _ (List.mem_append_left _ (List.mem_append_right _ ?_))
  simp only [h0, if_true, List.mem_singleton]

theorem checkedWork_reports_sub (env : Env) (tmpl : Cg) (c : Nat) (s : St) (blk : BlkAcc)
    (r : Report) (h : r ∈ (rotorWork env tmpl c s).reports) :
    r ∈ (checkedWork env tmpl c s blk).reports := by
  have h0 : r ∈ (computeWork env tmpl c s blk).reports := h
  unfold checkedWork
  rw [(checkBase_log _ _ _ _).1, (checkSummary_log _ _ _ _).1, (checkMaps_log _ _ _ _).1]
  refine List.mem_append_left _ (List.mem_append_left _ (List.mem_append_left _ ?_))
  split_ifs
  · exact List.mem_append_left _ h0
  · exact h0

theorem checkMagic_reports_sub (c : Nat) (s : St) (r : Report) (h : r ∈ s.reports) :
    r ∈ (checkMagic c s).reports := by
  unfold checkMagic
  split_ifs
  · exact h
  · exact List.mem_append_left _ h

theorem stepG_reports_sub (env : Env) (tmpl : Cg) (c : Nat) (s : St) (r : Report)
    (h : r ∈ s.reports) : r ∈ (stepG env tmpl c s).reports := by
  unfold stepG
  rw [(groupBody_fields _ _ _ _ _).1]
  exact checkedWork_reports_sub _ _ _ _ _ _
    (rotorWork_reports_sub _ _ _ _ _ (checkMagic_reports_sub c s r h))

theorem stepG_reports_rotor (env : Env) (tmpl : Cg) (c : Nat) (s : St)
    (h : (s.cgs c).cg_rotor > ndblkOf s.sblock c) :
    Report.illegalRotor c ∈ (stepG env tmpl c s).reports := by
  have hfr := checkMagic_frame c s
  unfold stepG
  rw [(groupBody_fields _ _ _ _ _).1]
  refine checkedWork_reports_sub _ _ _ _ _ _ (rotorWork_reports_rotor _ _ _ _ ?_)
  rw [hfr.2.2.1, hfr.1]
  exact h

theorem finish_reports_sub (env : Env) (nr : Nat) (t : St) (r : Report) (h : r ∈ t.reports) :
    r ∈ (finish env nr t).reports := by
  have hr : (finish env nr t).reports
      = (if csDiffer t.cstotal t.fs_cstotal = true then t.reports ++ [Report.totalWrong]
          else t.reports) := rfl
  rw [hr]
  split_ifs
  · exact List.mem_append_left _ h
  · exact h

/-- The totals computed by a run that returns. -/
theorem pass5_cstotal (env : Env) (s s1 : St) (h : pass5 env s = Outcome.done s1) :
    s1.cstotal = sumCsum s.sblock.fs_ncg (csOf env (setup s).sblock (setup s).bmap) := by
  rw [((pass5_done_iff env s s1).mp h).2, finish_cstotal, groupsDone_cstotal _ _ _ _ rfl]

/-- C18 (counterexample): on the spec's scenario, whose group buffer has
`cg_rotor = 100` above its 16 data blocks, an operator declines every fix
but the one of the superblock totals.  The rotor fix is offered (the warning is
issued) and declined (the rotor on disk stays 100), and yet the run clears
both `fs_fmod` and `fs_ronly`, which were set. -/
theorem C18_declined_fix_yet_flags_cleared :
    ∃ s1, pass5 envTotalOnly stScenario = Outcome.done s1
      ∧ Report.illegalRotor 0 ∈ s1.reports
      ∧ envTotalOnly.fix 0 Prompt.rotor = false
      ∧ (s1.cgs 0).cg_rotor = 100
      ∧ stScenario.fs_fmod = 1 ∧ stScenario.fs_ronly = 1
      ∧ s1.fs_fmod = 0 ∧ s1.fs_ronly = 0 := by
  have hd : pass5 envTotalOnly stScenario = Outcome.done
      (finish envTotalOnly stScenario.sblock.fs_nrpos
        (groupsDone envTotalOnly (newcgInit envTotalOnly stScenario.sblock) (setup stScenario)
          stScenario.sblock.fs_ncg)) :=
    (pass5_done_iff envTotalOnly stScenario _).mpr
      ⟨groupRuns_of_valid envTotalOnly stScenario (by decide) (Or.inr stScenario_magic), rfl⟩
  have hcs := pass5_cstotal envTotalOnly stScenario _ hd
  have hval : sumCsum stScenario.sblock.fs_ncg
      (csOf envTotalOnly (setup stScenario).sblock (setup stScenario).bmap) = ⟨1, 2, 4, 2⟩ := by
    decide
  rw [hval] at hcs
  refine ⟨_, hd, ?_, rfl, ?_, rfl, rfl, ?_⟩
  · refine finish_reports_sub _ _ _ _ ?_
    have h1 : groupsDone envTotalOnly (newcgInit envTotalOnly stScenario.sblock)
        (setup stScenario) stScenario.sblock.fs_ncg
        = stepG envTotalOnly (newcgInit envTotalOnly stScenario.sblock) 0
            (groupsDone envTotalOnly (newcgInit envTotalOnly stScenario.sblock)
              (setup stScenario) 0) := groupsDone_succ _ _ _ 0
    rw [h1]
    refine stepG_reports_rotor _ _ _ _ ?_
    decide
  · show (rotors ((finish envTotalOnly stScenario.sblock.fs_nrpos
        (groupsDone envTotalOnly (newcgInit envTotalOnly stScenario.sblock) (setup stScenario)
          stScenario.sblock.fs_ncg)).cgs 0)).1 = 100
    rw [pass5_cgs envTotalOnly stScenario 0 (by decide), checkedWork_rotors,
      (checkMagic_groupsDone_cgs _ _ _ _).1]
    rfl
  · rcases pass5_flags envTotalOnly stScenario _ (by rw [hd]; rfl) with ⟨he, _⟩ | ⟨_, f1, f2, _⟩
    · rw [hd] at he; cases he
    · rw [hcs] at f1 f2
      exact ⟨f1.trans (by decide), f2.trans (by decide)⟩

/-- C18 (amended): the flags follow the fix of the superblock totals only.
At the end of a run in which that fix is declined, or is not offered because
the totals in the superblock are the computed ones, `fs_fmod` and `fs_ronly` are
as before the run, whatever the answers to the other fixes; a run that exits
leaves them alone too; and a run that returns with the totals fix made has
cleared both, whatever fixes were declined. -/
theorem C18_flags_follow_totals_fix (env : Env) (s s1 : St)
    (h : (pass5 env s).final = some s1) :
    ((env.fix s.sblock.fs_ncg Prompt.total = false ∨ s1.cstotal = s.fs_cstotal) →
      s1.fs_fmod = s.fs_fmod ∧ s1.fs_ronly = s.fs_ronly)
    ∧ (pass5 env s = Outcome.exit s1 → s1.fs_fmod = s.fs_fmod ∧ s1.fs_ronly = s.fs_ronly)
    ∧ (pass5 env s = Outcome.done s1 → env.fix s.sblock.fs_ncg Prompt.total = true →
        s1.cstotal ≠ s.fs_cstotal → s1.fs_fmod = 0 ∧ s1.fs_ronly = 0) := by
  rcases pass5_flags env s s1 h with ⟨he, f1, f2, _⟩ | ⟨hd, f1, f2, _⟩
  · refine ⟨fun _ => ⟨f1, f2⟩, fun _ => ⟨f1, f2⟩, ?_⟩
    intro hd
    rw [he] at hd
    cases hd
  · refine ⟨?_, ?_, ?_⟩
    · intro hdecl
      have hfix : (csDiffer s1.cstotal s.fs_cstotal && env.fix s.sblock.fs_ncg Prompt.total)
          = false := by
        rcases hdecl with hdecl | hdecl
        · rw [hdecl, Bool.and_false]
        · rw [(csDiffer_eq_false_iff _ _).mpr hdecl, Bool.false_and]
      rw [hfix] at f1 f2
      exact ⟨f1, f2⟩
    · intro he
      rw [hd] at he
      cases he
    · intro _ hfix hne
      have hdiff : csDiffer s1.cstotal s.fs_cstotal = true := by
        cases hc : csDiffer s1.cstotal s.fs_cstotal with
        | true => rfl
        | false => exact absurd ((csDiffer_eq_false_iff _ _).mp hc) hne
      rw [hdiff, hfix] at f1 f2
      exact ⟨f1, f2⟩

/-- C18 (witness): the operator declines every fix on the spec's scenario:
both flags stay set. -/
theorem C18_flags_follow_totals_fix_witness :
    ∃ s1, pass5 envDecline stScenario = Outcome.done s1
      ∧ s1.fs_fmod = 1 ∧ s1.fs_ronly = 1 :=
  ⟨_, (pass5_done_iff envDecline stScenario _).mpr
      ⟨groupRuns_of_valid envDecline stScenario (by decide) (Or.inr stScenario_magic), rfl⟩,
    (C18_flags_follow_totals_fix envDecline stScenario _ (by
      rw [(pass5_done_iff envDecline stScenario _).mpr
        ⟨groupRuns_of_valid envDecline stScenario (by decide) (Or.inr stScenario_magic), rfl⟩]
      rfl)).1 (Or.inl rfl)⟩

/-- C19 (counterexample): the spec's scenario in preen mode, with superblock
totals that already are the computed ones and both flags set: the run returns,
the totals in the superblock equal the computed totals, and both flags are
still set. -/
theorem C19_matching_totals_keep_flags :
    ∃ s1, pass5 envPreen stMatched = Outcome.done s1
      ∧ s1.cstotal = ⟨1, 2, 4, 2⟩ ∧ s1.fs_cstotal = s1.cstotal
      ∧ s1.fs_fmod = 1 ∧ s1.fs_ronly = 1 := by
  have hd : pass5 envPreen stMatched = Outcome.done
      (finish envPreen stMatched.sblock.fs_nrpos
        (groupsDone envPreen (newcgInit envPreen stMatched.sblock) (setup stMatched)
          stMatched.sblock.fs_ncg)) :=
    (pass5_done_iff envPreen stMatched _).mpr
      ⟨groupRuns_of_valid envPreen stMatched (by decide) (Or.inr stScenario_magic), rfl⟩
  have hcs := pass5_cstotal envPreen stMatched _ hd
  have hval : sumCsum stMatched.sblock.fs_ncg
      (csOf envPreen (setup stMatched).sblock (setup stMatched).bmap) = ⟨1, 2, 4, 2⟩ := by
    decide
  rw [hval] at hcs
  refine ⟨_, hd, hcs, ?_⟩
  rcases pass5_flags envPreen stMatched _ (by rw [hd]; rfl) with ⟨he, _⟩ | ⟨_, f1, f2, f3⟩
  · rw [hd] at he; cases he
  · rw [hcs] at f1 f2 f3 ⊢
    exact ⟨f3.trans (by decide), f1.trans (by decide), f2.trans (by decide)⟩

/-- C19 (amended): when `pass5` returns in preen mode, the totals in the
superblock are the computed totals; both flags have been cleared if the totals
differed before the run (they were corrected by this run), and both flags are
as before the run if the totals already matched. -/
theorem C19_flags_cleared_when_totals_fixed (env : Env) (s s1 : St)
    (h : pass5 env s = Outcome.done s1) (hp : env.preen = true) :
    s1.fs_cstotal = s1.cstotal
    ∧ (s.fs_cstotal ≠ s1.cstotal → s1.fs_fmod = 0 ∧ s1.fs_ronly = 0)
    ∧ (s.fs_cstotal = s1.cstotal → s1.fs_fmod = s.fs_fmod ∧ s1.fs_ronly = s.fs_ronly) := by
  have hfix : env.fix s.sblock.fs_ncg Prompt.total = true := fix_of_preen env hp _ _
  rcases pass5_flags env s s1 (by rw [h]; rfl) with ⟨he, _⟩ | ⟨_, f1, f2, f3⟩
  · rw [h] at he; cases he
  · rw [hfix, Bool.and_true] at f1 f2 f3
    cases hc : csDiffer s1.cstotal s.fs_cstotal with
    | true =>
      rw [hc] at f1 f2 f3
      refine ⟨f3, fun _ => ⟨f1, f2⟩, ?_⟩
      intro heq
      rw [(csDiffer_eq_false_iff _ _).mpr heq.symm] at hc
      cases hc
    | false =>
      rw [hc] at f1 f2 f3
      have heq := (csDiffer_eq_false_iff _ _).mp hc
      refine ⟨f3.trans heq.symm, fun hne => absurd heq.symm hne, fun _ => ⟨f1, f2⟩⟩

/-- C19 (witness): the spec's scenario in preen mode: the superblock totals
were zero, so they are corrected and both flags cleared. -/
theorem C19_flags_cleared_when_totals_fixed_witness :
    ∃ s1, pass5 envPreen stScenario = Outcome.done s1
      ∧ s1.fs_cstotal = s1.cstotal ∧ s1.fs_fmod = 0 ∧ s1.fs_ronly = 0 := by
  have hd : pass5 envPreen stScenario = Outcome.done
      (finish envPreen stScenario.sblock.fs_nrpos
        (groupsDone envPreen (newcgInit envPreen stScenario.sblock) (setup stScenario)
          stScenario.sblock.fs_ncg)) :=
    (pass5_done_iff envPreen stScenario _).mpr
      ⟨groupRuns_of_valid envPreen stScenario (by decide) (Or.inr stScenario_magic), rfl⟩
  have hcs := pass5_cstotal envPreen stScenario _ hd
  have hval : sumCsum stScenario.sblock.fs_ncg
      (csOf envPreen (setup stScenario).sblock (setup stScenario).bmap) = ⟨1, 2, 4, 2⟩ := by
    decide
  rw [hval] at hcs
  have hthm := C19_flags_cleared_when_totals_fixed envPreen stScenario _ hd rfl
  refine ⟨_, hd, hthm.1, hthm.2.1 ?_⟩
  rw [hcs]
  decide

theorem setup_withContig (n : Nat) (s : St) :
    setup (St.withContig n s) = St.withContig n (setup s) := by
  unfold setup St.withContig
  cases h : s.sblock.fs_postblformat <;> simp [h] <;> rfl

theorem checkMagic_withContig (n c : Nat) (s : St) :
    checkMagic c (St.withContig n s) = St.withContig n (checkMagic c s) := by
  unfold checkMagic
  have : (St.withContig n s).cgs = s.cgs := rfl
  rw [this]
  split_ifs <;> rfl

theorem groupBody_withContig (env : Env) (tmpl : Cg) (n c : Nat) (s : St) (blk : BlkAcc) :
    groupBody env tmpl c (St.withContig n s) blk
      = St.withContig n (groupBody env tmpl c s blk) := by
  rfl

theorem blockLoop_contig (fs : Fs) (n : Nat) (cyl rpos : Nat → Nat) (bmap : Nat → Bool)
    (dmax : Nat) :
    ∀ (fuel i d : Nat) (a : BlkAcc),
      blockLoop { fs with fs_contigsumsize := n } cyl rpos bmap dmax fuel i d a
        = blockLoop fs cyl rpos bmap dmax fuel i d a := by
  intro fuel
  induction fuel with
  | zero => intro i d a; rfl
  | succ fuel ih =>
    intro i d a
    simp only [blockLoop]
    split_ifs
    · exact ih _ _ _
    · rfl

theorem blockPass_contig (fs : Fs) (n : Nat) (cyl rpos : Nat → Nat) (bmap : Nat → Bool)
    (c : Nat) :
    blockPass { fs with fs_contigsumsize := n } cyl rpos bmap c = blockPass fs cyl rpos bmap c := by
  unfold blockPass
  exact blockLoop_contig fs n cyl rpos bmap _ _ _ _ _

theorem group_withContig (env : Env) (tmpl : Cg) (n c : Nat) (s : St) :
    group env tmpl c (St.withContig n s) = (group env tmpl c s).map (St.withContig n) := by
  have hb : blockPass (checkMagic c (St.withContig n s)).sblock env.cbtocylno
      (env.cktorpos (checkMagic c (St.withContig n s)).sblock.fs_nrpos)
      (checkMagic c (St.withContig n s)).bmap c
      = blockPass (checkMagic c s).sblock env.cbtocylno
          (env.cktorpos (checkMagic c s).sblock.fs_nrpos) (checkMagic c s).bmap c := by
    rw [checkMagic_withContig]
    exact blockPass_contig _ n _ _ _ c
  have hc : (St.withContig n s).cgs = s.cgs := rfl
  unfold group
  simp only [hb, hc]
  by_cases hcond : (!cg_chkmagic (s.cgs c) && !env.pfatalReturns) = true
  · simp only [hcond, if_true, Outcome.map, checkMagic_withContig]
  · simp only [hcond, Bool.false_eq_true, if_false]
    cases blockPass (checkMagic c s).sblock env.cbtocylno
        (env.cktorpos (checkMagic c s).sblock.fs_nrpos) (checkMagic c s).bmap c with
    | none => rfl
    | some blk =>
      simp only [Outcome.map, checkMagic_withContig, groupBody_withContig]

theorem groupLoop_withContig (env : Env) (tmpl : Cg) (n : Nat) :
    ∀ (l : List Nat) (s : St),
      groupLoop env tmpl l (St.withContig n s)
        = (groupLoop env tmpl l s).map (St.withContig n) := by
  intro l
  induction l with
  | nil => intro s; rfl
  | cons c cs ih =>
    intro s
    simp only [groupLoop, group_withContig]
    cases group env tmpl c s with
    | hang => rfl
    | exit s1 => rfl
    | done s1 =>
      simp only [Outcome.map]
      exact ih s1

theorem finish_withContig (env : Env) (nr n : Nat) (s : St) :
    finish env nr (St.withContig n s) = St.withContig n (finish env nr s) := by
  unfold finish St.withContig
  cases h : s.sblock.fs_postblformat <;> simp [h]

/-- The run on a superblock that declares `fs_contigsumsize = n` is the run
on the same superblock with any other value of the field: `pass5` does not
read it. -/
theorem pass5_withContig (env : Env) (n : Nat) (s : St) :
    pass5 env (St.withContig n s) = (pass5 env s).map (St.withContig n) := by
  have h1 : newcgInit env (St.withContig n s).sblock = newcgInit env s.sblock := rfl
  have h2 : (St.withContig n s).sblock.fs_nrpos = s.sblock.fs_nrpos := rfl
  have h3 : (St.withContig n (setup s)).sblock.fs_ncg = (setup s).sblock.fs_ncg := rfl
  unfold pass5
  simp only [h1, h2, setup_withContig, h3, groupLoop_withContig]
  generalize groupLoop env (newcgInit env s.sblock) (List.range (setup s).sblock.fs_ncg)
    (setup s) = o
  cases o with
  | hang => rfl
  | exit s1 => rfl
  | done s1 =>
    simp only [Outcome.map, finish_withContig]

theorem groupsDone_logged (env : Env) (ncg : Nat) (tmpl : Cg) (s : St) (n : Nat)
    (h : St.logged env ncg s) : St.logged env ncg (groupsDone env tmpl s n) := by
  induction n with
  | zero => simpa [groupsDone] using h
  | succ n ih =>
    rw [groupsDone_succ]
    exact stepG_logged env ncg tmpl n _ ih

/-- C12 (counterexample): the spec's scenario in the new format with
`fs_contigsumsize = 1`, in preen mode: the run does not fail but returns, the
rotor of the group buffer is changed from 100 to 0 and the group is written. -/
theorem C12_cluster_summary_not_rejected :
    ∃ s1, pass5 envPreen stContig = Outcome.done s1
      ∧ stContig.sblock.fs_postblformat = PostblFormat.FS_DYNAMICPOSTBLFMT
      ∧ stContig.sblock.fs_contigsumsize = 1
      ∧ (stContig.cgs 0).cg_rotor = 100 ∧ (s1.cgs 0).cg_rotor = 0
      ∧ WriteOp.cg 0 ∈ s1.writes := by
  have hd : pass5 envPreen stScenario = Outcome.done
      (finish envPreen stScenario.sblock.fs_nrpos
        (groupsDone envPreen (newcgInit envPreen stScenario.sblock) (setup stScenario)
          stScenario.sblock.fs_ncg)) :=
    (pass5_done_iff envPreen stScenario _).mpr
      ⟨groupRuns_of_valid envPreen stScenario (by decide) (Or.inr stScenario_magic), rfl⟩
  have hc : pass5 envPreen stContig = Outcome.done (St.withContig 1
      (finish envPreen stScenario.sblock.fs_nrpos
        (groupsDone envPreen (newcgInit envPreen stScenario.sblock) (setup stScenario)
          stScenario.sblock.fs_ncg))) := by
    unfold stContig
    rw [pass5_withContig, hd]
    rfl
  refine ⟨_, hc, rfl, rfl, rfl, ?_, ?_⟩
  · show (rotors ((finish envPreen stScenario.sblock.fs_nrpos
        (groupsDone envPreen (newcgInit envPreen stScenario.sblock) (setup stScenario)
          stScenario.sblock.fs_ncg)).cgs 0)).1 = 0
    rw [pass5_cgs envPreen stScenario 0 (by decide), checkedWork_rotors,
      (checkMagic_groupsDone_cgs _ _ _ _).1]
    rfl
  · show WriteOp.cg 0 ∈ (finish envPreen stScenario.sblock.fs_nrpos
        (groupsDone envPreen (newcgInit envPreen stScenario.sblock) (setup stScenario)
          stScenario.sblock.fs_ncg)).writes
    have hlog := groupsDone_logged envPreen 1 (newcgInit envPreen stScenario.sblock)
      (setup stScenario) stScenario.sblock.fs_ncg (setup_logged envPreen 1 stScenario)
    refine (finish_logged envPreen stScenario.sblock.fs_nrpos _ ?_ (WriteOp.cg 0)).mpr ?_
    · rw [(groupsDone_frame _ _ _ _).1]
      exact hlog
    · rw [(groupsDone_frame _ _ _ _).1]
      refine ⟨Report.illegalRotor 0, finish_reports_sub _ _ _ _ ?_, rfl⟩
      have h1 : groupsDone envPreen (newcgInit envPreen stScenario.sblock)
          (setup stScenario) stScenario.sblock.fs_ncg
          = stepG envPreen (newcgInit envPreen stScenario.sblock) 0
              (groupsDone envPreen (newcgInit envPreen stScenario.sblock)
                (setup stScenario) 0) := groupsDone_succ _ _ _ 0
      rw [h1]
      refine stepG_reports_rotor _ _ _ _ ?_
      decide

/-- C12 (amended): `pass5` never reads `fs_contigsumsize`: the run on a
superblock that declares a cluster summary of size `n` ends as the run on the
same superblock with the field as in `s` does, with the same buffers, messages
and writes, only the field itself differing; in particular on a valid input
(positive block size; good magic numbers, or a `pfatal` that returns) it
returns, whatever `n`. -/
theorem C12_cluster_summary_is_ignored (env : Env) (n : Nat) (s : St) :
    pass5 env (St.withContig n s) = (pass5 env s).map (St.withContig n)
    ∧ (0 < s.sblock.fs_frag →
        (env.pfatalReturns = true ∨ ∀ c, c < s.sblock.fs_ncg → cg_chkmagic (s.cgs c) = true) →
        ∃ s1, pass5 env s = Outcome.done s1
          ∧ pass5 env (St.withContig n s) = Outcome.done (St.withContig n s1)
          ∧ (St.withContig n s1).cgs = s1.cgs ∧ (St.withContig n s1).csums = s1.csums
          ∧ (St.withContig n s1).reports = s1.reports
          ∧ (St.withContig n s1).writes = s1.writes) := by
  refine ⟨pass5_withContig env n s, ?_⟩
  intro hf hm
  have hd := (pass5_done_iff env s _).mpr ⟨groupRuns_of_valid env s hf hm, rfl⟩
  refine ⟨_, hd, ?_, rfl, rfl, rfl, rfl⟩
  rw [pass5_withContig, hd]
  rfl

/-- C12 (witness): the spec's scenario with `fs_contigsumsize = 1` in preen
mode returns. -/
theorem C12_cluster_summary_is_ignored_witness :
    ∃ s1, pass5 envPreen stScenario = Outcome.done s1
      ∧ pass5 envPreen (St.withContig 1 stScenario) = Outcome.done (St.withContig 1 s1) := by
  obtain ⟨s1, h1, h2, _⟩ := (C12_cluster_summary_is_ignored envPreen 1 stScenario).2
    (by decide) (Or.inr stScenario_magic)
  exact ⟨s1, h1, h2⟩

theorem stepG_untouched (env : Env) (tmpl : Cg) (c : Nat) (t : St) (g0 : Nat → Cg)
    (h : t.writes = [] → t.cgs = g0) :
    (stepG env tmpl c t).writes = [] → (stepG env tmpl c t).cgs = g0 := by
  have hfr := checkMagic_frame c t
  unfold stepG
  generalize (blockPass t.sblock env.cbtocylno (env.cktorpos t.sblock.fs_nrpos) t.bmap c).getD
    blkAcc0 = blk
  obtain ⟨_, e2, e3, _, _⟩ := groupBody_fields env tmpl c (checkMagic c t) blk
  rw [e2, e3, hfr.2.2.1, hfr.2.2.2.2.2.2.2.2.1]
  by_cases hw : (checkedWork env tmpl c (checkMagic c t) blk).writecg = true
  · simp [hw]
  · simp only [hw, Bool.false_eq_true, if_false]
    exact h

theorem finish_untouched (env : Env) (nr : Nat) (t : St) (h : (finish env nr t).writes = []) :
    t.writes = [] ∧ t.writecsum = false
    ∧ (csDiffer t.cstotal t.fs_cstotal && env.fix t.sblock.fs_ncg Prompt.total) = false := by
  have hn : (match t.sblock.fs_postblformat with
      | PostblFormat.FS_42POSTBLFMT => { t.sblock with fs_nrpos := nr }
      | PostblFormat.FS_DYNAMICPOSTBLFMT => t.sblock).fs_ncg = t.sblock.fs_ncg := by
    cases t.sblock.fs_postblformat <;> rfl
  have hw : (finish env nr t).writes
      = (if t.writecsum = true then
          (if (t.writesb
                || (csDiffer t.cstotal t.fs_cstotal && env.fix t.sblock.fs_ncg Prompt.total))
              = true
            then t.writes ++ [WriteOp.sb] else t.writes) ++ [WriteOp.csum]
         else
          (if (t.writesb
                || (csDiffer t.cstotal t.fs_cstotal && env.fix t.sblock.fs_ncg Prompt.total))
              = true
            then t.writes ++ [WriteOp.sb] else t.writes)) := by
    unfold finish
    simp only [hn]
  rw [hw] at h
  generalize (csDiffer t.cstotal t.fs_cstotal && env.fix t.sblock.fs_ncg Prompt.total) = f at h ⊢
  generalize t.writesb = wsb at h
  generalize t.writecsum = wc at h ⊢
  cases wc <;> cases wsb <;> cases f <;> first | (simp at h ⊢; done) | (simp at h ⊢; exact h)

/-- C17: at the end of a run (by return or by exit) in which every fix that
was offered has been declined (no warning of the run was followed by a fix),
the group buffers on disk, the summary area on disk, the totals `fs_cstotal`
and the flags `fs_fmod` and `fs_ronly` of the superblock are as before the
run, and no `writeblock` has been issued.  An operator who is not in preen
mode and answers no to every question is such a run. -/
theorem C17_declining_changes_nothing (env : Env) (s s1 : St)
    (h : (pass5 env s).final = some s1)
    (hd : ∀ r, r ∈ s1.reports → Report.fixed env s.sblock.fs_ncg r = none) :
    s1.cgs = s.cgs ∧ s1.csums = s.csums ∧ s1.fs_cstotal = s.fs_cstotal
    ∧ s1.fs_fmod = s.fs_fmod ∧ s1.fs_ronly = s.fs_ronly ∧ s1.writes = [] := by
  have hncg := (setup_sblock s).2.1
  have hnone : ∀ y, ¬ fixMade env s.sblock.fs_ncg s1.reports y := by
    rintro y ⟨r, hr, hy⟩
    rw [hd r hr] at hy
    cases hy
  obtain ⟨t, ht, hs1⟩ := pass5_final env s s1 h
  obtain ⟨hlog, hcg, p2, p3, p4, p5, hsb⟩ := groupLoop_preserves env (newcgInit env s.sblock)
    (fun t => St.logged env s.sblock.fs_ncg t ∧ (t.writes = [] → t.cgs = s.cgs)
      ∧ t.csums = s.csums ∧ t.fs_cstotal = s.fs_cstotal ∧ t.fs_fmod = s.fs_fmod
      ∧ t.fs_ronly = s.fs_ronly ∧ t.sblock = (setup s).sblock)
    (fun c t hP => by
      have hfr := checkMagic_frame c t
      refine ⟨checkMagic_logged env _ c t hP.1, ?_, hfr.2.2.2.1.trans hP.2.2.1,
        hfr.2.2.2.2.2.2.2.2.2.1.trans hP.2.2.2.1, hfr.2.2.2.2.2.2.2.2.2.2.2.trans hP.2.2.2.2.1,
        hfr.2.2.2.2.2.2.2.2.2.2.1.trans hP.2.2.2.2.2.1, hfr.1.trans hP.2.2.2.2.2.2⟩
      rw [hfr.2.2.1, hfr.2.2.2.2.2.2.2.2.1]
      exact hP.2.1)
    (fun c t hP => by
      have hfr := stepG_frame env (newcgInit env s.sblock) c t
      exact ⟨stepG_logged env _ _ c t hP.1, stepG_untouched env _ c t s.cgs hP.2.1,
        hfr.2.2.1.trans hP.2.2.1, hfr.2.2.2.2.1.trans hP.2.2.2.1,
        hfr.2.2.2.2.2.2.trans hP.2.2.2.2.1, hfr.2.2.2.2.2.1.trans hP.2.2.2.2.2.1,
        hfr.1.trans hP.2.2.2.2.2.2⟩)
    _ (setup s) t ⟨setup_logged env _ s, fun _ => rfl, rfl, rfl, rfl, rfl, rfl⟩ ht
  have htn : t.sblock.fs_ncg = s.sblock.fs_ncg := by rw [hsb, hncg]
  rcases hs1 with rfl | rfl
  · have hw : s1.writes = [] := by
      cases hw : s1.writes with
      | nil => rfl
      | cons y ys =>
        exact absurd ((hlog.1 y).mpr (Or.inl (by rw [hw]; exact List.mem_cons_self _ _)))
          (hnone y)
    exact ⟨hcg hw, p2, p3, p4, p5, hw⟩
  · have hw : (finish env s.sblock.fs_nrpos t).writes = [] := by
      cases hw : (finish env s.sblock.fs_nrpos t).writes with
      | nil => rfl
      | cons y ys =>
        have hfm := (finish_logged env s.sblock.fs_nrpos t (by rw [htn]; exact hlog) y).mp
          (by rw [hw]; exact List.mem_cons_self _ _)
        rw [htn] at hfm
        exact absurd hfm (hnone y)
    obtain ⟨u1, u2, u3⟩ := finish_untouched env s.sblock.fs_nrpos t hw
    obtain ⟨f1, f2, f3⟩ := finish_flags env s.sblock.fs_nrpos t
    rw [u3] at f1 f2 f3
    have hcs : (finish env s.sblock.fs_nrpos t).csums
        = if t.writecsum = true then t.csumbuf else t.csums := rfl
    rw [u2] at hcs
    exact ⟨(finish_cgs env _ t).trans (hcg u1), hcs.trans p2, f3.trans p3, f1.trans p4,
      f2.trans p5, hw⟩

/-- C17 (witness): the operator declines every fix on the spec's scenario. -/
theorem C17_declining_changes_nothing_witness :
    ∃ s1, pass5 envDecline stScenario = Outcome.done s1
      ∧ s1.cgs = stScenario.cgs ∧ s1.csums = stScenario.csums
      ∧ s1.fs_cstotal = stScenario.fs_cstotal
      ∧ s1.fs_fmod = stScenario.fs_fmod ∧ s1.fs_ronly = stScenario.fs_ronly
      ∧ s1.writes = [] :=
  ⟨_, (pass5_done_iff envDecline stScenario _).mpr
      ⟨groupRuns_of_valid envDecline stScenario (by decide) (Or.inr stScenario_magic), rfl⟩,
    C17_declining_changes_nothing envDecline stScenario _ (by
      rw [(pass5_done_iff envDecline stScenario _).mpr
        ⟨groupRuns_of_valid envDecline stScenario (by decide) (Or.inr stScenario_magic), rfl⟩]
      rfl)
      (fun r _ => by cases r <;> rfl)⟩

theorem ncylOf_eq (fs : Fs) (tmpl g : Cg) (c : Nat) :
    (newcgGroup fs tmpl g c).cg_ncyl
      = if c + 1 = fs.fs_ncg then ((fs.fs_ncyl % fs.fs_cpg : Nat) : Int) else (fs.fs_cpg : Int) :=
  rfl

/-- The cylinder counts do cover the filesystem when the last group is not
full: with `(fs_ncg - 1) * fs_cpg < fs_ncyl < fs_ncg * fs_cpg` every count is
between 1 and `fs_cpg` and the counts add up to `fs_ncyl`. -/
theorem ncylOf_sum_of_remainder (fs : Fs) (tmpl g : Cg)
    (hlo : (fs.fs_ncg - 1) * fs.fs_cpg < fs.fs_ncyl) (hhi : fs.fs_ncyl < fs.fs_ncg * fs.fs_cpg) :
    (∀ c, c < fs.fs_ncg →
      1 ≤ (newcgGroup fs tmpl g c).cg_ncyl ∧ (newcgGroup fs tmpl g c).cg_ncyl ≤ fs.fs_cpg)
    ∧ tableSum fs.fs_ncg (fun c => (newcgGroup fs tmpl g c).cg_ncyl) = fs.fs_ncyl := by
  obtain ⟨n, hn⟩ : ∃ n, fs.fs_ncg = n + 1 := by
    cases h : fs.fs_ncg with
    | zero => rw [h] at hhi; simp at hhi
    | succ n => exact ⟨n, rfl⟩
  have hcpg : 0 < fs.fs_cpg := by
    rcases Nat.eq_zero_or_pos fs.fs_cpg with h | h
    · rw [h] at hhi; simp at hhi
    · exact h
  rw [hn] at hlo hhi
  have hlo2 : n * fs.fs_cpg < fs.fs_ncyl := by simpa using hlo
  have hmod : fs.fs_ncyl % fs.fs_cpg = fs.fs_ncyl - n * fs.fs_cpg := by
    have h1 : fs.fs_ncyl = (fs.fs_ncyl - n * fs.fs_cpg) + fs.fs_cpg * n := by
      rw [Nat.mul_comm fs.fs_cpg n]; omega
    have h2 : fs.fs_ncyl - n * fs.fs_cpg < fs.fs_cpg := by
      rw [Nat.succ_mul] at hhi; omega
    rw [h1, Nat.add_mul_mod_self_left, Nat.mod_eq_of_lt h2]
    omega
  have hsum : ∀ m, m ≤ n →
      tableSum m (fun c => (newcgGroup fs tmpl g c).cg_ncyl) = (m * fs.fs_cpg : Nat) := by
    intro m
    induction m with
    | zero => intro _; simp [tableSum]
    | succ m ih =>
      intro hm
      have := ih (by omega)
      unfold tableSum at this ⊢
      rw [List.range_succ, List.map_append, List.sum_append, this]
      have hne : ¬ (m + 1 = n + 1) := by omega
      simp only [List.map_cons, List.map_nil, List.sum_cons, List.sum_nil, ncylOf_eq, hn, hne,
        if_false]
      push_cast
      ring
  constructor
  · intro c hc
    rw [ncylOf_eq, hn]
    by_cases hlast : c + 1 = n + 1
    · simp only [hlast, if_true, hmod]
      rw [Nat.succ_mul] at hhi
      omega
    · simp only [hlast, if_false]
      omega
  · have := hsum n (le_refl _)
    unfold tableSum at this ⊢
    rw [hn, List.range_succ, List.map_append, List.sum_append, this]
    simp only [List.map_cons, List.map_nil, List.sum_cons, List.sum_nil, ncylOf_eq, hn, if_true,
      hmod]
    push_cast
    omega

/-- C25: on two groups of 16 cylinders and a filesystem of exactly 32
cylinders, which satisfies `(fs_ncg - 1) * fs_cpg < fs_ncyl <= fs_ncg * fs_cpg`,
lines 120-123 give the last group `fs_ncyl % fs_cpg = 0` cylinders: the count
is not at least 1 and the counts add up to 16, not 32. -/
theorem C25_exact_multiple_gives_zero :
    (fsC25.fs_ncg - 1) * fsC25.fs_cpg < fsC25.fs_ncyl
    ∧ fsC25.fs_ncyl ≤ fsC25.fs_ncg * fsC25.fs_cpg
    ∧ ncylOf fsC25 0 = 16 ∧ ncylOf fsC25 1 = 0
    ∧ tableSum fsC25.fs_ncg (ncylOf fsC25) = 16
    ∧ (fsC25.fs_ncyl : Int) = 32 := by
  refine ⟨by decide, by decide, ?_, ?_, ?_, rfl⟩
  · unfold ncylOf; rw [ncylOf_eq]; decide
  · unfold ncylOf; rw [ncylOf_eq]; decide
  · unfold tableSum ncylOf
    simp only [ncylOf_eq]
    decide

theorem tableSum_succ (n : Nat) (tbl : Nat → Int) :
    tableSum (n + 1) tbl = tableSum n tbl + tbl n := by
  unfold tableSum
  rw [List.range_succ, List.map_append, List.sum_append]
  simp

theorem tableSum_congr (n : Nat) (f g : Nat → Int) (h : ∀ k, k < n → f k = g k) :
    tableSum n f = tableSum n g := by
  induction n with
  | zero => rfl
  | succ n ih =>
    rw [tableSum_succ, tableSum_succ, ih (fun k hk => h k (by omega)), h n (by omega)]

/-- Adding `x` to one entry of a table adds `x` to the sum over a range that
holds the entry, and nothing to the sum over a range that does not. -/
theorem tableSum_bump (n : Nat) (tbl : Nat → Int) (i : Nat) (x : Int) :
    tableSum n (bump tbl i x) = tableSum n tbl + (if i < n then x else 0) := by
  induction n with
  | zero => simp [tableSum]
  | succ n ih =>
    rw [tableSum_succ, tableSum_succ, ih]
    unfold bump
    by_cases h1 : i < n
    · have h2 : ¬ n = i := by omega
      have h3 : i < n + 1 := by omega
      simp only [h1, h2, h3, if_true, if_false]
      ring
    · by_cases h2 : n = i
      · subst h2
        have h3 : n < n + 1 := by omega
        simp only [h1, h3, if_true, if_false]
        ring
      · have h3 : ¬ i < n + 1 := by omega
        simp only [h1, h2, h3, if_false]
        ring

/-- The summary tables agree with the free-block count and with each other. -/
theorem blockStep_tables (fs : Fs) (cyl rpos : Nat → Nat) (bmap : Nat → Bool) (a : BlkAcc)
    (i d C R : Nat) (hc : cyl i < C) (hr : rpos i < R)
    (h : tableSum C a.blktot = a.nbfree ∧ ∀ j, tableSum R (a.blks j) = a.blktot j) :
    tableSum C (blockStep fs cyl rpos bmap a i d).blktot
        = (blockStep fs cyl rpos bmap a i d).nbfree
    ∧ ∀ j, tableSum R ((blockStep fs cyl rpos bmap a i d).blks j)
        = (blockStep fs cyl rpos bmap a i d).blktot j := by
  unfold blockStep
  by_cases h1 : (fragLoop fs bmap d i a.blksfree).2 = fs.fs_frag
  · simp only [h1, if_true]
    refine ⟨?_, ?_⟩
    · rw [tableSum_bump, h.1]
      simp [hc]
    · intro j
      by_cases hj : j = cyl i
      · simp only [hj, if_true]
        rw [tableSum_bump, h.2]
        simp [hr, bump]
      · simp only [hj, if_false, bump]
        exact h.2 j
  · simp only [h1, if_false]
    by_cases h2 : (fragLoop fs bmap d i a.blksfree).2 ≠ 0
    · simp only [h2, if_true, ne_eq, not_false_eq_true]
      exact h
    · simp only [h2, if_false]
      exact h

theorem blockIter_tables (fs : Fs) (cyl rpos : Nat → Nat) (bmap : Nat → Bool) (d C R : Nat)
    (n : Nat) (hb : ∀ m, m < n → cyl (m * fs.fs_frag) < C ∧ rpos (m * fs.fs_frag) < R) :
    tableSum C (blockIter fs cyl rpos bmap 0 d blkAcc0 n).blktot
        = (blockIter fs cyl rpos bmap 0 d blkAcc0 n).nbfree
    ∧ ∀ j, tableSum R ((blockIter fs cyl rpos bmap 0 d blkAcc0 n).blks j)
        = (blockIter fs cyl rpos bmap 0 d blkAcc0 n).blktot j := by
  induction n with
  | zero =>
    have hz : ∀ k, tableSum k (fun _ => (0 : Int)) = 0 := by
      intro k
      induction k with
      | zero => rfl
      | succ k ih => rw [tableSum_succ, ih]; rfl
    refine ⟨hz C, fun j => hz R⟩
  | succ n ih =>
    rw [blockIter_succ]
    have hn := hb n (by omega)
    rw [Nat.zero_add]
    exact blockStep_tables fs cyl rpos bmap _ _ _ C R hn.1 hn.2
      (ih (fun m hm => hb m (by omega)))

/-- C24: in a group whose block walk maps every block it visits to a cylinder
below `C` and a rotational position below `R` (the bounds of the tables), with
a positive `fs_frag`, the walk ends and leaves summary tables that agree: the
per-cylinder totals `cg_blktot` add up to the free-block count `cs_nbfree`, and
for every cylinder `j` the entries `cg_blks (j)` add up to `cg_blktot[j]`. -/
theorem C24_summary_tables_consistent (fs : Fs) (cyl rpos : Nat → Nat) (bmap : Nat → Bool)
    (c C R : Nat) (hf : 0 < fs.fs_frag)
    (hb : ∀ m, m < blocksOf fs c → cyl (m * fs.fs_frag) < C ∧ rpos (m * fs.fs_frag) < R) :
    ∃ a, blockPass fs cyl rpos bmap c = some a
      ∧ tableSum C a.blktot = a.nbfree
      ∧ ∀ j, tableSum R (a.blks j) = a.blktot j :=
  ⟨_, blockPass_eq fs cyl rpos bmap c hf,
    blockIter_tables fs cyl rpos bmap (cgbase fs c) C R (blocksOf fs c) hb⟩

/-- C24 (witness): the spec's scenario, one cylinder and one rotational
position: the two free blocks are counted in both tables. -/
theorem C24_summary_tables_consistent_witness :
    ∃ a, blockPass fsScenario envPreen.cbtocylno (envPreen.cktorpos 1) bmapScenario 0 = some a
      ∧ tableSum 1 a.blktot = a.nbfree
      ∧ ∀ j, tableSum 1 (a.blks j) = a.blktot j :=
  C24_summary_tables_consistent fsScenario envPreen.cbtocylno (envPreen.cktorpos 1)
    bmapScenario 0 1 1 (by decide) (fun _ _ => ⟨Nat.zero_lt_one, Nat.zero_lt_one⟩)

theorem mem_append_if {α : Type} (r : α) (l : List α) (p : Prop) [Decidable p] (R : α)
    (h : r ∈ l ++ (if p then [R] else [])) : r ∈ l ∨ r = R := by
  rcases List.mem_append.mp h with h | h
  · exact Or.inl h
  · by_cases hp : p
    · simp only [hp, if_true, List.mem_singleton] at h
      exact Or.inr h
    · simp [hp] at h

theorem rotorWork_reports_group (env : Env) (tmpl : Cg) (c : Nat) (s : St) (r : Report)
    (h : r ∈ (rotorWork env tmpl c s).reports) : r ∈ s.reports ∨ r.group = some c := by
  unfold rotorWork at h
  rw [(checkIrotor_log _ _ _).1] at h
  rcases mem_append_if _ _ _ _ h with h | h
  · rw [(checkFrotor_log _ _ _).1] at h
    rcases mem_append_if _ _ _ _ h with h | h
    · rw [(checkRotor_log _ _ _).1] at h
      rcases mem_append_if _ _ _ _ h with h | h
      · exact Or.inl h
      · exact Or.inr (by rw [h]; rfl)
    · exact Or.inr (by rw [h]; rfl)
  · exact Or.inr (by rw [h]; rfl)

theorem checkedWork_reports_group (env : Env) (tmpl : Cg) (c : Nat) (s : St) (blk : BlkAcc)
    (r : Report) (h : r ∈ (checkedWork env tmpl c s blk).reports) :
    r ∈ s.reports ∨ r.group = some c := by
  have h0 : ∀ r, r ∈ (computeWork env tmpl c s blk).reports → r ∈ s.reports ∨ r.group = some c :=
    fun r hr => rotorWork_reports_group env tmpl c s r hr
  unfold checkedWork at h
  rw [(checkBase_log _ _ _ _).1] at h
  rcases mem_append_if _ _ _ _ h with h | h
  · rw [(checkSummary_log _ _ _ _).1] at h
    rcases mem_append_if _ _ _ _ h with h | h
    · rw [(checkMaps_log _ _ _ _).1] at h
      rcases mem_append_if _ _ _ _ h with h | h
      · split_ifs at h
        · rcases List.mem_append.mp h with h | h
          · exact h0 r h
          · exact Or.inr (by rw [List.mem_singleton.mp h]; rfl)
        · exact h0 r h
      · exact Or.inr (by rw [h]; rfl)
    · exact Or.inr (by rw [h]; rfl)
  · exact Or.inr (by rw [h]; rfl)

theorem checkMagic_reports_group (c : Nat) (s : St) (r : Report)
    (h : r ∈ (checkMagic c s).reports) : r ∈ s.reports ∨ r = Report.badMagic c := by
  unfold checkMagic at h
  split_ifs at h
  · exact Or.inl h
  · rcases List.mem_append.mp h with h | h
    · exact Or.inl h
    · exact Or.inr (List.mem_singleton.mp h)

theorem stepG_reports_group (env : Env) (tmpl : Cg) (c : Nat) (s : St) (r : Report)
    (h : r ∈ (stepG env tmpl c s).reports) : r ∈ s.reports ∨ r.group = some c := by
  unfold stepG at h
  rw [(groupBody_fields _ _ _ _ _).1] at h
  rcases checkedWork_reports_group _ _ _ _ _ _ h with h | h
  · rcases checkMagic_reports_group c s r h with h | h
    · exact Or.inl h
    · exact Or.inr (by rw [h]; rfl)
  · exact Or.inr h

theorem stepG_writes_mem (env : Env) (tmpl : Cg) (c : Nat) (s : St) (y : WriteOp)
    (h : y ∈ (stepG env tmpl c s).writes) : y ∈ s.writes ∨ y = WriteOp.cg c := by
  have hfr := checkMagic_frame c s
  unfold stepG at h
  rw [(groupBody_fields _ _ _ _ _).2.1, hfr.2.2.2.2.2.2.2.2.1] at h
  split_ifs at h
  · rcases List.mem_append.mp h with h | h
    · exact Or.inl h
    · exact Or.inr (List.mem_singleton.mp h)
  · exact Or.inl h

/-- A property of the state that the message of `pfatal` preserves, and the
body of the loop preserves for a group it is run on (good magic number, or a
`pfatal` that returns), holds when the loop ends. -/
theorem groupLoop_preserves_run (env : Env) (tmpl : Cg) (P : St → Prop)
    (hmagic : ∀ c s, P s → P (checkMagic c s))
    (hstep : ∀ c s, P s → (cg_chkmagic (s.cgs c) = true ∨ env.pfatalReturns = true) →
      P (stepG env tmpl c s)) :
    ∀ (l : List Nat) (s s1 : St), P s → (groupLoop env tmpl l s).final = some s1 → P s1 := by
  intro l
  induction l with
  | nil =>
    intro s s1 hP h
    simp only [groupLoop, Outcome.final] at h
    injection h with h
    rw [← h]; exact hP
  | cons c cs ih =>
    intro s s1 hP h
    simp only [groupLoop] at h
    cases hg : group env tmpl c s with
    | hang => simp [hg, Outcome.final] at h
    | exit s2 =>
      simp only [hg, Outcome.final] at h
      injection h with h
      rw [← h, group_exit_inv env tmpl c s s2 hg]
      exact hmagic c s hP
    | done s2 =>
      simp only [hg] at h
      obtain ⟨hrun, hs2⟩ := group_done_inv env tmpl c s s2 hg
      rw [hs2] at h
      exact ih _ s1 (hstep c s hP hrun.1) h

theorem finish_writes_mem (env : Env) (nr : Nat) (t : St) (y : WriteOp)
    (h : y ∈ (finish env nr t).writes) : y ∈ t.writes ∨ y = WriteOp.sb ∨ y = WriteOp.csum := by
  have hw : (finish env nr t).writes
      = (if t.writecsum = true then
          (if (t.writesb || (csDiffer t.cstotal t.fs_cstotal
                && env.fix (match t.sblock.fs_postblformat with
                    | PostblFormat.FS_42POSTBLFMT => { t.sblock with fs_nrpos := nr }
                    | PostblFormat.FS_DYNAMICPOSTBLFMT => t.sblock).fs_ncg Prompt.total)) = true
            then t.writes ++ [WriteOp.sb] else t.writes) ++ [WriteOp.csum]
         else
          (if (t.writesb || (csDiffer t.cstotal t.fs_cstotal
                && env.fix (match t.sblock.fs_postblformat with
                    | PostblFormat.FS_42POSTBLFMT => { t.sblock with fs_nrpos := nr }
                    | PostblFormat.FS_DYNAMICPOSTBLFMT => t.sblock).fs_ncg Prompt.total)) = true
            then t.writes ++ [WriteOp.sb] else t.writes)) := rfl
  rw [hw] at h
  split_ifs at h <;>
    first
    | exact Or.inl h
    | (simp only [List.mem_append, List.mem_singleton] at h; tauto)

theorem finish_reports_mem (env : Env) (nr : Nat) (t : St) (r : Report)
    (h : r ∈ (finish env nr t).reports) : r ∈ t.reports ∨ r = Report.totalWrong := by
  have hr : (finish env nr t).reports
      = (if csDiffer t.cstotal t.fs_cstotal = true then t.reports ++ [Report.totalWrong]
          else t.reports) := rfl
  rw [hr] at h
  split_ifs at h
  · rcases List.mem_append.mp h with h | h
    · exact Or.inl h
    · exact Or.inr (List.mem_singleton.mp h)
  · exact Or.inl h

/-- With a `pfatal` that does not return, the run leaves a group whose magic
number is bad as it found it. -/
theorem pass5_bad_magic (env : Env) (s s1 : St) (c : Nat) (hx : env.pfatalReturns = false)
    (hc : cg_chkmagic (s.cgs c) = false) (h : (pass5 env s).final = some s1) :
    s1.cgs c = s.cgs c ∧ s1.csums c = s.csums c ∧ ¬ WriteOp.cg c ∈ s1.writes
    ∧ ∀ r, r ∈ s1.reports → r.group = some c → r = Report.badMagic c := by
  obtain ⟨t, ht, hs1⟩ := pass5_final env s s1 h
  obtain ⟨p1, p2, p3, p4, p5⟩ := groupLoop_preserves_run env (newcgInit env s.sblock)
    (fun t => t.cgs c = s.cgs c ∧ t.csumbuf c = s.csums c ∧ t.csums = s.csums
      ∧ ¬ WriteOp.cg c ∈ t.writes
      ∧ ∀ r, r ∈ t.reports → r.group = some c → r = Report.badMagic c)
    (fun k t hP => by
      have hfr := checkMagic_frame k t
      refine ⟨?_, ?_, hfr.2.2.2.1.trans hP.2.2.1, ?_, ?_⟩
      · rw [hfr.2.2.1]; exact hP.1
      · rw [hfr.2.2.2.2.1]; exact hP.2.1
      · rw [hfr.2.2.2.2.2.2.2.2.1]; exact hP.2.2.2.1
      · intro r hr hg
        rcases checkMagic_reports_group k t r hr with hr | hr
        · exact hP.2.2.2.2 r hr hg
        · rw [hr] at hg ⊢
          injection hg with hg
          rw [hg])
    (fun k t hP hrun => by
      have hkc : k ≠ c := by
        intro hkc
        subst hkc
        rw [hP.1, hc, hx] at hrun
        rcases hrun with hrun | hrun <;> cases hrun
      have hfr := stepG_frame env (newcgInit env s.sblock) k t
      refine ⟨?_, ?_, hfr.2.2.1.trans hP.2.2.1, ?_, ?_⟩
      · rw [stepG_cgs_ne _ _ _ _ _ (Ne.symm hkc)]; exact hP.1
      · rw [stepG_csumbuf_ne _ _ _ _ _ (Ne.symm hkc)]; exact hP.2.1
      · intro hw
        rcases stepG_writes_mem _ _ _ _ _ hw with hw | hw
        · exact hP.2.2.2.1 hw
        · injection hw with hw
          exact hkc hw.symm
      · intro r hr hg
        rcases stepG_reports_group _ _ _ _ _ hr with hr | hr
        · exact hP.2.2.2.2 r hr hg
        · rw [hr] at hg
          injection hg with hg
          exact absurd hg hkc)
    _ (setup s) t ⟨rfl, rfl, rfl, by simp [setup], by simp [setup]⟩ ht
  rcases hs1 with rfl | rfl
  · exact ⟨p1, by rw [p3], p4, p5⟩
  · refine ⟨(congrFun (finish_cgs env _ t) c).trans p1, ?_, ?_, ?_⟩
    · have hcs : (finish env s.sblock.fs_nrpos t).csums
          = if t.writecsum = true then t.csumbuf else t.csums := rfl
      rw [hcs]
      split_ifs
      · exact p2
      · rw [p3]
    · intro hw
      rcases finish_writes_mem _ _ _ _ hw with hw | hw | hw
      · exact p4 hw
      · cases hw
      · cases hw
    · intro r hr hg
      rcases finish_reports_mem _ _ _ _ hr with hr | hr
      · exact p5 r hr hg
      · rw [hr] at hg
        cases hg

theorem stBadMagic_magic (c : Nat) : cg_chkmagic (stBadMagic.cgs c) = false := by
  simp [cg_chkmagic, stBadMagic, stScenario, CG_MAGIC]

theorem checkMagic_reports_bad (c : Nat) (s : St) (h : cg_chkmagic (s.cgs c) = false) :
    Report.badMagic c ∈ (checkMagic c s).reports := by
  unfold checkMagic
  simp [h]

/-- With a `pfatal` that does not return, the run exits at group 0 when the
magic number of that group is bad. -/
theorem pass5_exit_first (env : Env) (s : St) (hx : env.pfatalReturns = false)
    (hc : cg_chkmagic (s.cgs 0) = false) (hn : 0 < s.sblock.fs_ncg) :
    pass5 env s = Outcome.exit (checkMagic 0 (setup s)) := by
  have hncg := (setup_sblock s).2.1
  obtain ⟨n, hn⟩ : ∃ n, s.sblock.fs_ncg = n + 1 := ⟨s.sblock.fs_ncg - 1, by omega⟩
  have hg : group env (newcgInit env s.sblock) 0 (setup s)
      = Outcome.exit (checkMagic 0 (setup s)) := by
    have hcs : (setup s).cgs = s.cgs := rfl
    unfold group
    simp [hcs, hc, hx]
  unfold pass5
  simp only [hncg, hn, List.range_succ_eq_map, groupLoop, hg]

/-- C21 (counterexample): the group buffer of the spec's scenario with a bad
magic number, a `pfatal` that returns and an operator who accepts every fix:
the run goes on with the group after the message, resets its rotor from 100 to
0, corrects its entry of the summary array and writes the group back. -/
theorem C21_bad_magic_group_is_fixed :
    cg_chkmagic (stBadMagic.cgs 0) = false
    ∧ ∃ s1, pass5 envYes stBadMagic = Outcome.done s1
      ∧ Report.badMagic 0 ∈ s1.reports
      ∧ (stBadMagic.cgs 0).cg_rotor = 100 ∧ (s1.cgs 0).cg_rotor = 0
      ∧ stBadMagic.csums 0 = ⟨0, 0, 0, 0⟩ ∧ s1.csums 0 = ⟨1, 2, 4, 2⟩
      ∧ WriteOp.cg 0 ∈ s1.writes := by
  have hd : pass5 envYes stBadMagic = Outcome.done
      (finish envYes stBadMagic.sblock.fs_nrpos
        (groupsDone envYes (newcgInit envYes stBadMagic.sblock) (setup stBadMagic)
          stBadMagic.sblock.fs_ncg)) :=
    (pass5_done_iff envYes stBadMagic _).mpr
      ⟨groupRuns_of_valid envYes stBadMagic (by decide) (Or.inl rfl), rfl⟩
  have h1 : groupsDone envYes (newcgInit envYes stBadMagic.sblock)
      (setup stBadMagic) stBadMagic.sblock.fs_ncg
      = stepG envYes (newcgInit envYes stBadMagic.sblock) 0
          (groupsDone envYes (newcgInit envYes stBadMagic.sblock)
            (setup stBadMagic) 0) := groupsDone_succ _ _ _ 0
  have h0 : groupsDone envYes (newcgInit envYes stBadMagic.sblock) (setup stBadMagic) 0
      = setup stBadMagic := rfl
  refine ⟨stBadMagic_magic 0, _, hd, ?_, rfl, ?_, rfl, ?_, ?_⟩
  · refine finish_reports_sub _ _ _ _ ?_
    rw [h1, h0]
    unfold stepG
    rw [(groupBody_fields _ _ _ _ _).1]
    exact checkedWork_reports_sub _ _ _ _ _ _ (rotorWork_reports_sub _ _ _ _ _
      (checkMagic_reports_bad 0 _ (stBadMagic_magic 0)))
  · show (rotors ((finish envYes stBadMagic.sblock.fs_nrpos
        (groupsDone envYes (newcgInit envYes stBadMagic.sblock) (setup stBadMagic)
          stBadMagic.sblock.fs_ncg)).cgs 0)).1 = 0
    rw [pass5_cgs envYes stBadMagic 0 (by decide), checkedWork_rotors,
      (checkMagic_groupsDone_cgs _ _ _ _).1]
    rfl
  · rw [finish_csums, h1, h0, stepG_csumbuf_self envYes _ 0 _ rfl]
    decide
  · have hlog := groupsDone_logged envYes 1 (newcgInit envYes stBadMagic.sblock)
      (setup stBadMagic) stBadMagic.sblock.fs_ncg (setup_logged envYes 1 stBadMagic)
    refine (finish_logged envYes stBadMagic.sblock.fs_nrpos _ ?_ (WriteOp.cg 0)).mpr ?_
    · rw [(groupsDone_frame _ _ _ _).1]
      exact hlog
    · rw [(groupsDone_frame _ _ _ _).1]
      refine ⟨Report.illegalRotor 0, finish_reports_sub _ _ _ _ ?_, rfl⟩
      rw [h1]
      refine stepG_reports_rotor _ _ _ _ ?_
      decide

/-- C21 (amended): with a `pfatal` that does not return, at the end of the run
a group whose buffer fails the magic-number check has its buffer and its entry
of the summary array on disk as before the run, has not been written, and has
no message but the one of `pfatal` (no fix was offered for it, so none was
made), whatever the operator answers; and the run has ended by exiting, not
by returning. -/
theorem C21_bad_magic_ends_run (env : Env) (s s1 : St) (c : Nat)
    (hx : env.pfatalReturns = false) (hc : cg_chkmagic (s.cgs c) = false)
    (hn : c < s.sblock.fs_ncg) (h : (pass5 env s).final = some s1) :
    s1.cgs c = s.cgs c ∧ s1.csums c = s.csums c ∧ ¬ WriteOp.cg c ∈ s1.writes
    ∧ (∀ r, r ∈ s1.reports → r.group = some c → r = Report.badMagic c)
    ∧ pass5 env s = Outcome.exit s1 := by
  obtain ⟨a1, a2, a3, a4⟩ := pass5_bad_magic env s s1 c hx hc h
  refine ⟨a1, a2, a3, a4, ?_⟩
  cases hp : pass5 env s with
  | hang => rw [hp] at h; cases h
  | exit s2 =>
    rw [hp] at h
    simp only [Outcome.final] at h
    injection h with h
    rw [h]
  | done s2 =>
    have hrun := ((pass5_done_iff env s s2).mp hp).1 c hn
    have hcs : (setup s).cgs = s.cgs := rfl
    rw [groupRuns, hcs, hc, hx] at hrun
    rcases hrun.1 with h1 | h1 <;> cases h1

/-- C21 (witness): the bad group buffer under a `pfatal` that exits. -/
theorem C21_bad_magic_ends_run_witness :
    ∃ s1, pass5 envPreen stBadMagic = Outcome.exit s1
      ∧ s1.cgs 0 = stBadMagic.cgs 0 ∧ s1.csums 0 = stBadMagic.csums 0
      ∧ ¬ WriteOp.cg 0 ∈ s1.writes :=
  ⟨_, pass5_exit_first envPreen stBadMagic rfl (stBadMagic_magic 0) (by decide),
    (C21_bad_magic_ends_run envPreen stBadMagic _ 0 rfl (stBadMagic_magic 0) (by decide) (by
      rw [pass5_exit_first envPreen stBadMagic rfl (stBadMagic_magic 0) (by decide)]
      rfl)).1,
    (C21_bad_magic_ends_run envPreen stBadMagic _ 0 rfl (stBadMagic_magic 0) (by decide) (by
      rw [pass5_exit_first envPreen stBadMagic rfl (stBadMagic_magic 0) (by decide)]
      rfl)).2.1,
    (C21_bad_magic_ends_run envPreen stBadMagic _ 0 rfl (stBadMagic_magic 0) (by decide) (by
      rw [pass5_exit_first envPreen stBadMagic rfl (stBadMagic_magic 0) (by decide)]
      rfl)).2.2.1⟩

end Pass5

namespace Vmstat

/-! ## Theorems about vmstat -/

theorem wrap32_id (x : Int) (h1 : -(2 ^ 31) ≤ x) (h2 : x < 2 ^ 31) : wrap32 x = x := by
  unfold wrap32
  norm_num at h1 h2 ⊢
  omega

theorem wrapU32_pred (h : Nat) (h1 : 1 ≤ h) (h2 : h < 2 ^ 32) :
    wrapU32 ((h : Int) - 1) = h - 1 := by
  unfold wrapU32
  norm_num at h2 ⊢
  omega

theorem pageStep_rows (rows : List Line) (hrows : ∀ x, x ∈ rows → ∃ v, x = Line.stats v)
    (k : Nat) (acc : List Nat) :
    rows.foldl pageStep (k :: acc) = (k + rows.length) :: acc := by
  induction rows generalizing k with
  | nil => simp
  | cons x xs ih =>
    obtain ⟨v, hv⟩ := hrows x (List.mem_cons_self _ _)
    rw [List.foldl_cons, hv]
    simp only [pageStep]
    rw [ih (fun y hy => hrows y (List.mem_cons_of_mem _ hy))]
    simp only [List.length_cons]
    congr 1
    omega

theorem rowCount_append (a b : List Line) : rowCount (a ++ b) = rowCount a + rowCount b := by
  unfold rowCount
  rw [List.countP_append]

theorem rowCount_rows (rows : List Line) (hrows : ∀ x, x ∈ rows → ∃ v, x = Line.stats v) :
    rowCount rows = rows.length := by
  induction rows with
  | nil => rfl
  | cons x xs ih =>
    obtain ⟨v, hv⟩ := hrows x (List.mem_cons_self _ _)
    have := ih (fun y hy => hrows y (List.mem_cons_of_mem _ hy))
    unfold rowCount at this ⊢
    rw [hv, List.countP_cons, this]
    simp

theorem safe_get (sel : Mask) (st : vm_state) (h : safe sel st = true) (p : Nat × field)
    (hp : p ∈ fieldIndex) (hs : sel p.1 = true) : ∃ v, vm_state_get_field st p.2 = some v := by
  unfold safe at h
  have := List.all_eq_true.mp h p hp
  simp only [hs, Bool.not_true, Bool.false_or] at this
  exact Option.isSome_iff_exists.mp this

theorem statsRow_some (sel selAll : Mask) (st prev : vm_state) (rep : Nat)
    (hsub : ∀ k, sel k = true → selAll k = true)
    (h1 : safe selAll st = true) (h2 : safe selAll prev = true) :
    ∀ (fs : List (Nat × field)) (acc : List (Nat × Int)), (∀ p, p ∈ fs → p ∈ fieldIndex) →
      ∃ vals, statsRow sel st prev rep fs acc = some vals := by
  intro fs
  induction fs with
  | nil => intro acc _; exact ⟨acc, rfl⟩
  | cons p rest ih =>
    intro acc hfs
    obtain ⟨k, f⟩ := p
    have hrest : ∀ q, q ∈ rest → q ∈ fieldIndex := fun q hq => hfs q (List.mem_cons_of_mem _ hq)
    unfold statsRow
    by_cases hk : sel k = true
    · obtain ⟨v, hv⟩ := safe_get selAll st h1 (k, f) (hfs _ (List.mem_cons_self _ _)) (hsub k hk)
      obtain ⟨pv, hpv⟩ := safe_get selAll prev h2 (k, f) (hfs _ (List.mem_cons_self _ _))
        (hsub k hk)
      simp only [hk, if_true, hv, hpv]
      split_ifs
      · exact ih _ hrest
      · exact ih _ hrest
    · simp only [hk, Bool.false_eq_true, if_false]
      exact ih _ hrest

theorem rowsOf_zero (count : Int) : rowsOf count 0 = 0 := by
  unfold rowsOf
  split_ifs with h
  · omega
  · rfl

theorem rowsOf_count_zero (n : Nat) : rowsOf 0 n = 0 := by
  unfold rowsOf
  split_ifs with h
  · rfl
  · omega

theorem rowsOf_succ (count : Int) (n : Nat) (h : count ≠ 0) :
    rowsOf count (n + 1) = rowsOf (count - 1) n + 1 := by
  unfold rowsOf
  split_ifs <;> omega

/-- The inner loop, when no refresh fails and no fetch traps: it prints
`rowsOf count n` rows and takes as many from `count`. -/
theorem rowLoop_spec (env : Env) (sel selAll : Mask) (period : Nat)
    (hsub : ∀ k, sel k = true → selAll k = true)
    (henv : ∀ n, ∃ st, env.refresh n = some st ∧ safe selAll st = true) :
    ∀ (n rep : Nat) (l : Loop), safe selAll l.state = true → safe selAll l.prev_state = true →
      -(2 ^ 31) ≤ l.count - rowsOf l.count n → l.count < 2 ^ 31 →
      ∃ l1, rowLoop env sel period n rep l = Step.next l1
        ∧ l1.count = l.count - rowsOf l.count n
        ∧ (∃ rows, l1.out = l.out ++ rows ∧ rows.length = rowsOf l.count n
            ∧ ∀ x, x ∈ rows → ∃ v, x = Line.stats v)
        ∧ l1.const_fields = l.const_fields ∧ l1.first_hdr = l.first_hdr
        ∧ safe selAll l1.state = true ∧ safe selAll l1.prev_state = true := by
  intro n
  induction n with
  | zero =>
    intro rep l h1 h2 _ _
    refine ⟨l, rfl, ?_, ⟨[], ?_, ?_, ?_⟩, rfl, rfl, h1, h2⟩
    · rw [rowsOf_zero]; simp
    · simp
    · rw [rowsOf_zero]; rfl
    · intro x hx; cases hx
  | succ n ih =>
    intro rep l h1 h2 hlo hhi
    by_cases hc : l.count = 0
    · refine ⟨l, ?_, ?_, ⟨[], ?_, ?_, ?_⟩, rfl, rfl, h1, h2⟩
      · simp [rowLoop, hc]
      · rw [hc, rowsOf_count_zero]; simp
      · simp
      · rw [hc, rowsOf_count_zero]; rfl
      · intro x hx; cases hx
    · obtain ⟨vals, hvals⟩ := statsRow_some sel selAll l.state l.prev_state rep hsub h1 h2
        fieldIndex [] (fun _ hp => hp)
      rw [rowsOf_succ _ _ hc] at hlo
      have hw : wrap32 (l.count - 1) = l.count - 1 :=
        wrap32_id _ (by push_cast at hlo; omega) (by omega)
      have hlo1 : -(2 ^ 31) ≤ (l.count - 1) - rowsOf (l.count - 1) n := by
        push_cast at hlo ⊢; omega
      have hhi1 : l.count - 1 < 2 ^ 31 := by omega
      by_cases hp : period = 0
      · obtain ⟨l1, e1, e2, ⟨rows, e3, e4, e5⟩, e6, e7, e8, e9⟩ :=
          ih (rep + 1)
            { l with out := l.out ++ [Line.stats vals], prev_state := l.state,
                     count := l.count - 1 }
            h1 h1 hlo1 hhi1
        refine ⟨l1, ?_, ?_, ⟨Line.stats vals :: rows, ?_, ?_, ?_⟩, e6, e7, e8, e9⟩
        · simp only [rowLoop, hc, if_false, hvals, hp, ne_eq, not_true_eq_false, hw]
          rw [hp] at e1
          exact e1
        · rw [e2, rowsOf_succ _ _ hc]
          show l.count - 1 - (rowsOf (l.count - 1) n : Int) = _
          push_cast; omega
        · rw [e3]; simp
        · rw [rowsOf_succ _ _ hc]; simp [e4]
        · intro x hx
          rcases List.mem_cons.mp hx with hx | hx
          · exact ⟨vals, hx⟩
          · exact e5 x hx
      · obtain ⟨st, hst, hsafe⟩ := henv l.refreshes
        obtain ⟨l1, e1, e2, ⟨rows, e3, e4, e5⟩, e6, e7, e8, e9⟩ :=
          ih (rep + 1)
            { l with out := l.out ++ [Line.stats vals], prev_state := l.state,
                     state := st, refreshes := l.refreshes + 1, count := l.count - 1 }
            hsafe h1 hlo1 hhi1
        refine ⟨l1, ?_, ?_, ⟨Line.stats vals :: rows, ?_, ?_, ?_⟩, e6, e7, e8, e9⟩
        · simp only [rowLoop, hc, if_false, hvals, hp, ne_eq, not_false_eq_true, if_true, hst,
            hw]
          exact e1
        · rw [e2, rowsOf_succ _ _ hc]
          show l.count - 1 - (rowsOf (l.count - 1) n : Int) = _
          push_cast; omega
        · rw [e3]; simp
        · rw [rowsOf_succ _ _ hc]; simp [e4]
        · intro x hx
          rcases List.mem_cons.mp hx with hx | hx
          · exact ⟨vals, hx⟩
          · exact e5 x hx

theorem constLine_some (st : vm_state) (selAll : Mask) (hsafe : safe selAll st = true) :
    ∀ (fs : List (Nat × field)) (m : Mask) (acc : List (Nat × Int)),
      (∀ p, p ∈ fs → p ∈ fieldIndex) → (∀ k, m k = true → selAll k = true) →
      ∃ m1 vals, constLine st fs m acc = some (m1, vals) ∧ ∀ k, m1 k = true → m k = true := by
  intro fs
  induction fs with
  | nil => intro m acc _ _; exact ⟨m, acc, rfl, fun _ h => h⟩
  | cons p rest ih =>
    intro m acc hfs hm
    obtain ⟨k, f⟩ := p
    have hrest : ∀ q, q ∈ rest → q ∈ fieldIndex := fun q hq => hfs q (List.mem_cons_of_mem _ hq)
    unfold constLine
    by_cases hk : m k = true
    · obtain ⟨v, hv⟩ := safe_get selAll st hsafe (k, f) (hfs _ (List.mem_cons_self _ _))
        (hm k hk)
      simp only [hk, if_true, hv]
      by_cases hneg : v < 0
      · simp only [hneg, if_true]
        obtain ⟨m1, vals, e1, e2⟩ := ih (fun j => m j && !decide (j = k)) acc hrest
          (fun j hj => hm j (by
            simp only [Bool.and_eq_true] at hj
            exact hj.1))
        refine ⟨m1, vals, e1, fun j hj => ?_⟩
        have := e2 j hj
        simp only [Bool.and_eq_true] at this
        exact this.1
      · simp only [hneg, if_false]
        exact ih m _ hrest hm
    · simp only [hk, Bool.false_eq_true, if_false]
      exact ih m acc hrest hm

theorem isZero_of_subset (m m1 : Mask) (h : ∀ k, m1 k = true → m k = true)
    (hz : m.isZero = true) : m1.isZero = true := by
  unfold Mask.isZero at hz ⊢
  rw [List.all_eq_true] at hz ⊢
  intro k hk
  have := hz k hk
  cases h1 : m1 k with
  | false => rfl
  | true => rw [h k h1] at this; exact this

/-- The head of a page, when no fetch traps: one header is written, after an
empty line and the constant fields as the case may be; the counters are as
before and no constant field is added. -/
theorem pageHead_spec (sel selAll : Mask) (l : Loop) (hsafe : safe selAll l.state = true)
    (hm : ∀ k, l.const_fields k = true → selAll k = true) :
    ∃ l1, pageHead sel true l = Step.next l1
      ∧ l1.count = l.count ∧ l1.state = l.state ∧ l1.prev_state = l.state
      ∧ l1.refreshes = l.refreshes
      ∧ (∀ k, l1.const_fields k = true → l.const_fields k = true)
      ∧ l1.out.foldl pageStep [] = 0 :: l.out.foldl pageStep []
      ∧ rowCount l1.out = rowCount l.out
      ∧ headingCount l1.out = headingCount l.out + 1 := by
  have hr : ∃ m1 vals,
      (if l.const_fields.isZero = true then some (l.const_fields, ([] : List (Nat × Int)))
        else constLine l.state fieldIndex l.const_fields []) = some (m1, vals)
      ∧ ∀ k, m1 k = true → l.const_fields k = true := by
    by_cases hz : l.const_fields.isZero = true
    · simp only [hz, if_true]
      exact ⟨_, _, rfl, fun _ h => h⟩
    · simp only [hz, Bool.false_eq_true, if_false]
      exact constLine_some l.state selAll hsafe fieldIndex l.const_fields [] (fun _ h => h) hm
  obtain ⟨m1, vals, e1, e2⟩ := hr
  unfold pageHead
  simp only [e1]
  refine ⟨_, rfl, rfl, rfl, rfl, rfl, e2, ?_, ?_, ?_⟩
  · simp only [if_true]
    by_cases hf : l.first_hdr = true <;> by_cases hv : vals = []
    <;> simp [hf, hv, List.foldl_append, pageStep]
  · simp only [if_true]
    by_cases hf : l.first_hdr = true <;> by_cases hv : vals = []
    <;> simp [hf, hv, rowCount, List.countP_append, List.countP_cons]
  · simp only [if_true]
    by_cases hf : l.first_hdr = true <;> by_cases hv : vals = []
    <;> simp [hf, hv, headingCount, List.countP_append, List.countP_cons]

theorem chunks_last (n N : Nat) (h0 : 0 < N) (h : N ≤ n) : chunks n N = [N] := by
  unfold chunks
  rcases Nat.lt_or_eq_of_le h with h1 | h1
  · rw [Nat.div_eq_of_lt h1, Nat.mod_eq_of_lt h1]
    have : ¬ N = 0 := by omega
    simp [this]
  · subst h1
    rw [Nat.div_self h0, Nat.mod_self]
    simp

theorem chunks_step (n N : Nat) (hn : 0 < n) (h : n < N) :
    chunks n N = n :: chunks n (N - n) := by
  unfold chunks
  have h1 : N / n = (N - n) / n + 1 := by
    have : N = (N - n) + n := by omega
    conv_lhs => rw [this]
    exact Nat.add_div_right _ hn
  have h2 : N % n = (N - n) % n := by
    have : N = (N - n) + n := by omega
    conv_lhs => rw [this]
    exact Nat.add_mod_right _ _
  rw [h1, h2, List.replicate_succ, List.cons_append]

theorem rowsOf_pos (N n : Nat) : rowsOf (N : Int) n = min N n := by
  unfold rowsOf
  split_ifs with h
  · have : N < n := by omega
    rw [Int.toNat_ofNat]
    omega
  · have : n ≤ N := by omega
    omega

/-- The loop over the pages with a positive `count` of `N` rows and a header
interval `n` of at least 1, when no refresh fails and no fetch traps: it ends
with `exit (0)`, after pages of `n` rows and a last page of the rows left. -/
theorem pageLoop_finite (env : Env) (sel selAll : Mask) (period n : Nat) (hn : 1 ≤ n)
    (hsub : ∀ k, sel k = true → selAll k = true)
    (henv : ∀ i, ∃ st, env.refresh i = some st ∧ safe selAll st = true) :
    ∀ (N : Nat) (l : Loop), l.count = N → 0 < N → N < 2 ^ 31 → safe selAll l.state = true →
      (∀ k, l.const_fields k = true → selAll k = true) →
      ∃ fuel r, pageLoop env sel true period n fuel l = r ∧ r.status = Status.exit0
        ∧ r.out.foldl pageStep [] = (chunks n N).reverse ++ l.out.foldl pageStep []
        ∧ rowCount r.out = rowCount l.out + N := by
  intro N
  induction N using Nat.strong_induction_on with
  | _ N ih =>
    intro l hc h0 h31 hsafe hm
    obtain ⟨l1, a1, a2, a3, a4, _, a6, a7, a8, _⟩ := pageHead_spec sel selAll l hsafe hm
    have hrows : rowsOf l1.count n = min N n := by rw [a2, hc, rowsOf_pos]
    obtain ⟨l2, b1, b2, ⟨rows, b3, b4, b5⟩, b6, _, b8, _⟩ :=
      rowLoop_spec env sel selAll period hsub henv n 0 l1 (by rw [a3]; exact hsafe)
        (by rw [a4]; exact hsafe)
        (by rw [hrows, a2, hc]; push_cast; omega)
        (by rw [a2, hc]; exact_mod_cast h31)
    rw [hrows] at b2 b4
    have hfold : l2.out.foldl pageStep [] = min N n :: l.out.foldl pageStep [] := by
      rw [b3, List.foldl_append, a7, pageStep_rows rows b5, b4, Nat.zero_add]
    have hcount : rowCount l2.out = rowCount l.out + min N n := by
      rw [b3, rowCount_append, a8, rowCount_rows rows b5, b4]
    by_cases hle : N ≤ n
    · have hmin : min N n = N := by omega
      refine ⟨1, _, rfl, ?_, ?_, ?_⟩
      · have hz : l2.count = 0 := by rw [b2, a2, hc, hmin]; omega
        simp [pageLoop, a1, b1, hz]
      · have hz : l2.count = 0 := by rw [b2, a2, hc, hmin]; omega
        simp only [pageLoop, a1, b1, hz, ne_eq, not_true_eq_false, if_false]
        rw [hfold, hmin, chunks_last n N h0 hle]
        rfl
      · have hz : l2.count = 0 := by rw [b2, a2, hc, hmin]; omega
        simp only [pageLoop, a1, b1, hz, ne_eq, not_true_eq_false, if_false]
        rw [hcount, hmin]
    · have hmin : min N n = n := by omega
      have hc2 : l2.count = ((N - n : Nat) : Int) := by
        rw [b2, a2, hc, hmin]; omega
      obtain ⟨fuel, r, c1, c2, c3, c4⟩ := ih (N - n) (by omega) l2 hc2 (by omega) (by omega) b8
        (fun k hk => hm k (a6 k (by rw [← b6]; exact hk)))
      have hnz : l2.count ≠ 0 := by rw [hc2]; omega
      refine ⟨fuel + 1, r, ?_, c2, ?_, ?_⟩
      · simp only [pageLoop, a1, b1, hnz, ne_eq, not_false_eq_true, if_true]
        exact c1
      · rw [c3, hfold, hmin, chunks_step n N (by omega) (by omega)]
        simp
      · rw [c4, hcount, hmin]
        omega

/-- The loop over the pages without a limit on the rows (`count` negative):
each of the first `fuel` pages has `n` rows and the loop is still running,
as long as `count` has not wrapped. -/
theorem pageLoop_endless (env : Env) (sel selAll : Mask) (period n : Nat)
    (hsub : ∀ k, sel k = true → selAll k = true)
    (henv : ∀ i, ∃ st, env.refresh i = some st ∧ safe selAll st = true) :
    ∀ (fuel : Nat) (l : Loop), l.count < 0 → -(2 ^ 31) ≤ l.count - (fuel * n : Nat) →
      safe selAll l.state = true → (∀ k, l.const_fields k = true → selAll k = true) →
      ∃ r, pageLoop env sel true period n fuel l = r ∧ r.status = Status.running
        ∧ r.out.foldl pageStep [] = List.replicate fuel n ++ l.out.foldl pageStep []
        ∧ rowCount r.out = rowCount l.out + fuel * n := by
  intro fuel
  induction fuel with
  | zero =>
    intro l _ _ _ _
    refine ⟨_, rfl, rfl, ?_, ?_⟩
    · show l.out.foldl pageStep [] = _
      simp
    · show rowCount l.out = _
      simp
  | succ fuel ih =>
    intro l hneg hlo hsafe hm
    have hmul : ((fuel + 1) * n : Nat) = fuel * n + n := by ring
    rw [hmul] at hlo
    push_cast at hlo
    obtain ⟨l1, a1, a2, a3, a4, _, a6, a7, a8, _⟩ := pageHead_spec sel selAll l hsafe hm
    have hrows : rowsOf l1.count n = n := by
      rw [a2]
      unfold rowsOf
      have : ¬ (0 ≤ l.count ∧ l.count < n) := by omega
      simp only [this, if_false]
    obtain ⟨l2, b1, b2, ⟨rows, b3, b4, b5⟩, b6, _, b8, _⟩ :=
      rowLoop_spec env sel selAll period hsub henv n 0 l1 (by rw [a3]; exact hsafe)
        (by rw [a4]; exact hsafe)
        (by rw [hrows, a2]; have := Int.ofNat_nonneg (fuel * n); push_cast at this; linarith)
        (by rw [a2]; linarith)
    rw [hrows] at b2 b4
    rw [a2] at b2
    obtain ⟨r, c1, c2, c3, c4⟩ := ih l2 (by rw [b2]; have := Int.ofNat_nonneg n; linarith)
      (by rw [b2]; push_cast; linarith) b8
      (fun k hk => hm k (a6 k (by rw [← b6]; exact hk)))
    have hnz : l2.count ≠ 0 := by
      rw [b2]; have := Int.ofNat_nonneg n; intro h; linarith
    refine ⟨r, ?_, c2, ?_, ?_⟩
    · simp only [pageLoop, a1, b1, hnz, ne_eq, not_false_eq_true, if_true]
      exact c1
    · rw [c3, b3, List.foldl_append, a7, pageStep_rows rows b5, b4, Nat.zero_add,
        List.replicate_succ', List.append_assoc]
      rfl
    · rw [c4, b3, rowCount_append, a8, rowCount_rows rows b5, b4, hmul]
      omega

/-- With a header interval of 0 and a `count` that is not 0 the loop over
the pages never ends: every page is a header without a row, and `count` is
never decremented. -/
theorem pageLoop_zero_interval (env : Env) (sel selAll : Mask) (period : Nat) :
    ∀ (fuel : Nat) (l : Loop), l.count ≠ 0 → safe selAll l.state = true →
      (∀ k, l.const_fields k = true → selAll k = true) →
      ∃ r, pageLoop env sel true period 0 fuel l = r ∧ r.status = Status.running
        ∧ rowCount r.out = rowCount l.out
        ∧ headingCount r.out = headingCount l.out + fuel := by
  intro fuel
  induction fuel with
  | zero =>
    intro l _ _ _
    exact ⟨_, rfl, rfl, rfl, rfl⟩
  | succ fuel ih =>
    intro l hnz hsafe hm
    obtain ⟨l1, a1, a2, a3, _, _, a6, _, a8, a9⟩ := pageHead_spec sel selAll l hsafe hm
    have hrow : rowLoop env sel period 0 0 l1 = Step.next l1 := rfl
    obtain ⟨r, c1, c2, c3, c4⟩ := ih l1 (by rw [a2]; exact hnz) (by rw [a3]; exact hsafe)
      (fun k hk => hm k (a6 k hk))
    have hnz1 : l1.count ≠ 0 := by rw [a2]; exact hnz
    refine ⟨r, ?_, c2, ?_, ?_⟩
    · simp only [pageLoop, a1, hrow, hnz1, ne_eq, not_false_eq_true, if_true]
      exact c1
    · rw [c3, a8]
    · rw [c4, a9]; omega

theorem constFields_sub (m : Mask) (k : Nat) (h : constFields m k = true) : m k = true := by
  unfold constFields at h
  rw [List.any_eq_true] at h
  obtain ⟨p, _, hp⟩ := h
  simp only [Bool.and_eq_true] at hp
  exact hp.1.2

theorem parse_opt_range (key arg : Int) (n : Nat) (o o1 : Opts)
    (h : parse_opt key arg n o = some o1)
    (hr : o.hdr_interval < 2 ^ 32 ∧ -(2 ^ 31) ≤ o.count ∧ o.count < 2 ^ 31) :
    o1.hdr_interval < 2 ^ 32 ∧ -(2 ^ 31) ≤ o1.count ∧ o1.count < 2 ^ 31 := by
  have hw : ∀ x : Int, -(2 ^ 31) ≤ wrap32 x ∧ wrap32 x < 2 ^ 31 := by
    intro x
    unfold wrap32
    norm_num
    omega
  have hu : ∀ x : Int, wrapU32 x < 2 ^ 32 := by
    intro x
    unfold wrapU32
    norm_num
    omega
  unfold parse_opt at h
  split_ifs at h
  all_goals first
    | (injection h with h; rw [← h]; exact hr)
    | skip
  · match n, h with
    | 0, h =>
      simp only [Option.some.injEq] at h
      rw [← h]
      exact ⟨hr.1, by norm_num, by norm_num⟩
    | 1, h =>
      simp only [Option.some.injEq] at h
      rw [← h]
      exact ⟨hr.1, (hw arg).1, (hw arg).2⟩
    | 2, h =>
      simp only [Option.some.injEq] at h
      rw [← h]
      exact ⟨hu arg, hr.2.1, hr.2.2⟩
    | _ + 3, h => simp at h

theorem argp_parse_range :
    ∀ (args : List Arg) (n : Nat) (o o1 : Opts), argp_parse args n o = some o1 →
      (o.hdr_interval < 2 ^ 32 ∧ -(2 ^ 31) ≤ o.count ∧ o.count < 2 ^ 31) →
      (o1.hdr_interval < 2 ^ 32 ∧ -(2 ^ 31) ≤ o1.count ∧ o1.count < 2 ^ 31) := by
  intro args
  induction args with
  | nil =>
    intro n o o1 h hr
    simp only [argp_parse, Option.some.injEq] at h
    rw [← h]; exact hr
  | cons a rest ih =>
    intro n o o1 h hr
    cases a with
    | opt key =>
      simp only [argp_parse] at h
      cases hp : parse_opt key 0 n o with
      | none => simp [hp] at h
      | some o2 =>
        simp only [hp] at h
        exact ih n o2 o1 h (parse_opt_range key 0 n o o2 hp hr)
    | pos val =>
      simp only [argp_parse] at h
      cases hp : parse_opt ARGP_KEY_ARG val n o with
      | none => simp [hp] at h
      | some o2 =>
        simp only [hp] at h
        exact ih (n + 1) o2 o1 h (parse_opt_range ARGP_KEY_ARG val n o o2 hp hr)

/-- In terse mode `main` is the loop over the pages, entered with the fields
to display, less the constant ones, and the header interval in force. -/
theorem main_terse (env : Env) (args : List Arg) (o : Opts) (st : vm_state) (fuel : Nat)
    (hparse : argp_parse args 0 Opts.init = some o) (hterse : o.terse = true)
    (hst : env.refresh 0 = some st) :
    main env args fuel
      = pageLoop env (fun k => shown o k && !constFields (shown o) k) o.print_heading o.period
          (if (constFields (shown o)).isZero = true then o.hdr_interval
            else wrapU32 ((o.hdr_interval : Int) - 1))
          fuel
          { count := if o.count = 0 then -1 else o.count,
            const_fields := constFields (shown o), first_hdr := true, refreshes := 1,
            state := st, prev_state := st, out := [] } := by
  unfold main
  simp only [hparse, hst, hterse, if_true]
  rfl

theorem interval_in_force (o : Opts) (hH : o.hdr_interval < 2 ^ 32) (hn : 1 ≤ rowsPerPage o) :
    (if (constFields (shown o)).isZero = true then o.hdr_interval
      else wrapU32 ((o.hdr_interval : Int) - 1)) = rowsPerPage o := by
  unfold rowsPerPage at hn ⊢
  by_cases hz : (constFields (shown o)).isZero = true
  · simp only [hz, if_true, Nat.sub_zero]
  · simp only [hz, Bool.false_eq_true, if_false] at hn ⊢
    exact wrapU32_pred _ (by omega) hH

/-- C22 (counterexample): without a HEADER_INTERVAL argument, `vmstat 1 50`
(the standard fields, three of them constant) prints its 50 rows under
headers followed by 21, 21 and 8 rows, and `vmstat --free 1 50` (no constant
field) under headers followed by 22, 22 and 6 rows: the header is not
reprinted after every 23 rows, nor after the same number of rows for every
selection of fields. -/
theorem C22_pages_of_21_and_22_rows :
    (main envSteady [Arg.pos 1, Arg.pos 50] 3).status = Status.exit0
    ∧ pageRows (main envSteady [Arg.pos 1, Arg.pos 50] 3).out = [21, 21, 8]
    ∧ (main envSteady [Arg.opt (fieldKey 2), Arg.pos 1, Arg.pos 50] 3).status = Status.exit0
    ∧ pageRows (main envSteady [Arg.opt (fieldKey 2), Arg.pos 1, Arg.pos 50] 3).out
        = [22, 22, 6] := by
  decide

/-- C22 (amended): in terse mode with the header printed, on a kernel whose
calls do not fail and whose selected fields can be fetched, the header is
reprinted after every `rowsPerPage` rows: the header interval in force (the
argument HEADER_INTERVAL, or the initial value of `hdr_interval`), less one
when a constant field is displayed.  With a positive COUNT the run ends after
full pages of that many rows and a last page of the rows left over; without
a COUNT every page has that many rows. -/
theorem C22_header_interval (env : Env) (args : List Arg) (o : Opts)
    (hparse : argp_parse args 0 Opts.init = some o) (hterse : o.terse = true)
    (hhead : o.print_heading = true)
    (henv : ∀ i, ∃ st, env.refresh i = some st ∧ safe (shown o) st = true)
    (hn : 1 ≤ rowsPerPage o) :
    (0 < o.count →
      ∃ fuel, (main env args fuel).status = Status.exit0
        ∧ pageRows (main env args fuel).out = chunks (rowsPerPage o) o.count.toNat)
    ∧ (o.count = 0 → ∀ fuel, fuel * rowsPerPage o < 2 ^ 31 →
        (main env args fuel).status = Status.running
        ∧ pageRows (main env args fuel).out = List.replicate fuel (rowsPerPage o)) := by
  obtain ⟨hH, hlo, hhi⟩ := argp_parse_range args 0 Opts.init o hparse
    ⟨by decide, by decide, by decide⟩
  obtain ⟨st, hst, hsafe⟩ := henv 0
  have hsub : ∀ k, (shown o k && !constFields (shown o) k) = true → shown o k = true := by
    intro k hk
    simp only [Bool.and_eq_true] at hk
    exact hk.1
  have hmain := fun fuel => main_terse env args o st fuel hparse hterse hst
  rw [interval_in_force o hH hn, hhead] at hmain
  constructor
  · intro hpos
    have hne : ¬ o.count = 0 := by omega
    obtain ⟨fuel, r, e1, e2, e3, _⟩ := pageLoop_finite env _ (shown o) o.period (rowsPerPage o) hn
      hsub henv o.count.toNat
      { count := o.count, const_fields := constFields (shown o), first_hdr := true,
        refreshes := 1, state := st, prev_state := st, out := [] }
      (by simp only; omega) (by omega) (by omega) hsafe (constFields_sub (shown o))
    refine ⟨fuel, ?_, ?_⟩
    · rw [hmain fuel]
      simp only [hne, if_false]
      rw [e1]; exact e2
    · rw [hmain fuel]
      simp only [hne, if_false]
      rw [e1]
      unfold pageRows
      rw [e3]
      simp
  · intro hzero fuel hfuel
    obtain ⟨r, e1, e2, e3, _⟩ := pageLoop_endless env _ (shown o) o.period (rowsPerPage o)
      hsub henv fuel
      { count := -1, const_fields := constFields (shown o), first_hdr := true,
        refreshes := 1, state := st, prev_state := st, out := [] }
      (show (-1 : Int) < 0 by decide)
      (by
        show -(2 ^ 31) ≤ (-1 : Int) - ((fuel * rowsPerPage o : Nat) : Int)
        have : ((fuel * rowsPerPage o : Nat) : Int) < 2 ^ 31 := by exact_mod_cast hfuel
        linarith)
      hsafe (constFields_sub (shown o))
    refine ⟨?_, ?_⟩
    · rw [hmain fuel]
      simp only [hzero, if_true]
      rw [e1]; exact e2
    · rw [hmain fuel]
      simp only [hzero, if_true]
      rw [e1]
      unfold pageRows
      rw [e3]
      simp

/-- C22 (witness): `vmstat 1 50` on a steady kernel. -/
theorem C22_header_interval_witness :
    ∃ fuel, (main envSteady [Arg.pos 1, Arg.pos 50] fuel).status = Status.exit0
      ∧ pageRows (main envSteady [Arg.pos 1, Arg.pos 50] fuel).out = [21, 21, 8] := by
  obtain ⟨fuel, h1, h2⟩ := (C22_header_interval envSteady [Arg.pos 1, Arg.pos 50]
    { Opts.init with terse := true, period := 1, count := 50 } rfl rfl rfl
    (fun _ => ⟨stSample, rfl, by decide⟩) (by decide)).1 (by decide)
  exact ⟨fuel, h1, h2.trans (by decide)⟩

/-- The run of `vmstat --free 1 5 0` is the loop over the pages with a header
interval of 0 and a `count` of 5. -/
theorem main_free0 (fuel : Nat) :
    ∃ sel l, main envSteady argsFree0 fuel = pageLoop envSteady sel true 1 0 fuel l
      ∧ l.count = 5 ∧ l.state = stSample ∧ l.out = [] :=
  ⟨_, _, rfl, rfl, rfl, rfl⟩

/-- The run of `vmstat 1 5 1` is the loop over the pages with a header
interval of 0 (1, less one for the constant fields) and a `count` of 5. -/
theorem main_std1 (fuel : Nat) :
    ∃ sel l, main envSteady argsStd1 fuel = pageLoop envSteady sel true 1 0 fuel l
      ∧ l.count = 5 ∧ l.state = stSample ∧ l.out = [] :=
  ⟨_, _, rfl, rfl, rfl, rfl⟩

/-- C23: `vmstat --free 1 5 0` (one field that is not constant, PERIOD 1,
COUNT 5, HEADER_INTERVAL 0) never ends and never prints a row of statistics:
however long the run is observed, it is still in its loop, and it has printed
as many headers as it has been through the loop.  So does `vmstat 1 5 1`
(the standard fields, three of them constant, HEADER_INTERVAL 1). -/
theorem C23_zero_interval_never_ends :
    ∀ fuel,
      ((main envSteady argsFree0 fuel).status = Status.running
        ∧ rowCount (main envSteady argsFree0 fuel).out = 0
        ∧ headingCount (main envSteady argsFree0 fuel).out = fuel)
      ∧ ((main envSteady argsStd1 fuel).status = Status.running
        ∧ rowCount (main envSteady argsStd1 fuel).out = 0
        ∧ headingCount (main envSteady argsStd1 fuel).out = fuel) := by
  intro fuel
  constructor
  · obtain ⟨sel, l, hm, hc, hs, ho⟩ := main_free0 fuel
    obtain ⟨r, e1, e2, e3, e4⟩ := pageLoop_zero_interval envSteady sel (fun _ => true) 1 fuel l
      (by rw [hc]; decide) (by rw [hs]; decide) (fun _ _ => rfl)
    rw [hm, e1]
    refine ⟨e2, ?_, ?_⟩
    · rw [e3, ho]; rfl
    · rw [e4, ho]; simp [headingCount]
  · obtain ⟨sel, l, hm, hc, hs, ho⟩ := main_std1 fuel
    obtain ⟨r, e1, e2, e3, e4⟩ := pageLoop_zero_interval envSteady sel (fun _ => true) 1 fuel l
      (by rw [hc]; decide) (by rw [hs]; decide) (fun _ _ => rfl)
    rw [hm, e1]
    refine ⟨e2, ?_, ?_⟩
    · rw [e3, ho]; rfl
    · rw [e4, ho]; simp [headingCount]

/-- Where the product `hits * 100` fits in 32 bits (`hits` at most 21474836)
and `lookups` is positive, `get_cache_hit_ratio` is the floor of
`100 * hits / lookups`, between 0 and 100 when `hits` is at most `lookups`. -/
theorem get_cache_hit_ratio_small (st : vm_state) (h0 : 0 ≤ st.vmstats.hits)
    (h1 : st.vmstats.hits ≤ st.vmstats.lookups) (h2 : 0 < st.vmstats.lookups)
    (h3 : st.vmstats.hits * 100 < 2 ^ 31) :
    get_cache_hit_ratio st = some (st.vmstats.hits * 100 / st.vmstats.lookups)
    ∧ 0 ≤ st.vmstats.hits * 100 / st.vmstats.lookups
    ∧ st.vmstats.hits * 100 / st.vmstats.lookups ≤ 100 := by
  have hw : wrap32 (st.vmstats.hits * 100) = st.vmstats.hits * 100 :=
    wrap32_id _ (by norm_num; omega) h3
  have hne : ¬ st.vmstats.lookups = 0 := by omega
  have hne1 : ¬ st.vmstats.lookups = -1 := by omega
  refine ⟨?_, ?_, ?_⟩
  · unfold get_cache_hit_ratio
    simp only [hw, hne, hne1, and_false, if_false]
    rw [Int.tdiv_eq_ediv (by omega) (by omega)]
  · exact Int.ediv_nonneg (by omega) (by omega)
  · exact Int.ediv_le_of_le_mul h2 (by linarith)

/-- C26: with 30 000 000 hits in 30 000 000 lookups (both representable in 32
bits, `0 <= hits <= lookups`, ratio 100) the product `hits * 100` does not fit
in 32 bits and `get_cache_hit_ratio` gives -43; and with no lookup yet the
division by `lookups = 0` traps. -/
theorem C26_cache_hit_ratio_overflow_and_trap :
    (0 ≤ stManyHits.vmstats.hits ∧ stManyHits.vmstats.hits ≤ stManyHits.vmstats.lookups
      ∧ stManyHits.vmstats.lookups < 2 ^ 31
      ∧ stManyHits.vmstats.hits * 100 / stManyHits.vmstats.lookups = 100
      ∧ get_cache_hit_ratio stManyHits = some (-43))
    ∧ (stNoLookups.vmstats.lookups = 0 ∧ get_cache_hit_ratio stNoLookups = none) := by
  decide

end Vmstat
